import Mathlib

/-!
# pocl HSA driver (`lib/CL/devices/hsa/pocl-hsa.c`)

A shallow embedding of the compile / cache / dispatch pipeline of the driver and
proofs about it.

Conventions of the embedding.

* Host pointers (`cl_kernel`, `cl_program`, buffer addresses) and HSA handles are
  natural numbers; `0` is `NULL`.
* Memory is a map from address to byte (`Nat → Nat`).  A pointer into a buffer, or one
  past its end, is a natural number.  The one pointer sum that can leave its buffer,
  `write_pos + (DSIZE)` in the macro `CHECK_SPACE`, whose `DSIZE` can be any `size_t`,
  is taken modulo `2 ^ 64`.
* `uint32_t` / `uint64_t` arithmetic is written with an explicit `% 2 ^ 32` / `% 2 ^ 64`.
* The host is little-endian (the driver's only device entry has `endian_little = CL_TRUE`),
  so `memcpy` of a `uint64_t` writes its eight bytes least significant first.
* `POCL_ABORT` and `POCL_ABORT_UNIMPLEMENTED` end the process; a function that can reach
  them returns the state at that point together with the reason it stopped.
* The HSA runtime, the file system and the external tools are a parameter (`runtime`):
  the reply to each call may depend on everything the driver did before.  Every call and
  every store into a queue packet is recorded, in program order, in a trace.
* Fixed-size arrays are functions on `Fin n`; every index the driver uses is below `n`
  by the guard or loop bound in front of it.
* A C string (a file name, a command line) is a `String` that has one `Char` for each
  `char` of the C string: a character that takes several bytes in the C string takes as
  many `Char`s here.
* `free` and the unchecked `malloc` calls are not modelled.

The file has the definitions first (the embedding, then the notions the properties are
stated with, then concrete inputs) and the proofs after them.
-/

namespace PoclHsa

/-! ## Kernel arguments -/

/-- Values of `arg_info[i].type`. -/
inductive pocl_argument_type
  | POCL_ARG_TYPE_NONE
  | POCL_ARG_TYPE_POINTER
  | POCL_ARG_TYPE_IMAGE
  | POCL_ARG_TYPE_SAMPLER
  deriving DecidableEq, Repr

/-- The two fields of `struct pocl_argument_info` the driver reads. -/
structure pocl_argument_info where
  type : pocl_argument_type
  is_local : Bool
  deriving DecidableEq, Repr

/-- A `cl_mem` object as far as the driver looks into it:
`device_ptrs[dev_id].mem_ptr` for each device id. -/
structure _cl_mem where
  device_ptrs : List Nat
  deriving DecidableEq, Repr

/-- What `al->value` points to: nothing (`NULL`), the host copy of a by-value
argument, or the host copy of a `cl_mem` handle. -/
inductive arg_value
  | null
  | bytes (data : List Nat)
  | mem (m : _cl_mem)
  deriving DecidableEq, Repr

/-- The structure `struct pocl_argument`: `size` is a `size_t`. -/
structure pocl_argument where
  size : Nat
  value : arg_value
  deriving DecidableEq, Repr

/-- Entry `i` of the two parallel arrays `kernel->arg_info` and
`cmd->command.run.arguments`. -/
structure kernel_arg where
  info : pocl_argument_info
  al : pocl_argument
  deriving DecidableEq, Repr

/-! ## Process exits -/

/-- The diagnostics the driver stops with, one per call site message. -/
inductive pocl_abort_msg
  | too_many_kernel_arguments
  | image_arguments_not_implemented
  | sampler_arguments_not_implemented
  | error_creating_executable
  | error_loading_code_object
  | error_freezing_executable
  | unable_to_get_kernel_symbol
  | symbol_is_not_a_function
  | unable_to_get_code_handle
  | unable_to_get_group_segment_size
  | unable_to_get_private_segment_size
  | unable_to_create_signal
  | unable_to_get_kernarg_size
  | unable_to_allocate_kernargs
  | local_memory_exceeds_device
  | compiling_to_brig_failed
  | could_not_read_binary
  | error_building_program
  | error_adding_module
  | error_getting_isa
  | error_finalizing_program
  | error_destroying_program
  deriving DecidableEq, Repr

/-- Modelled from the spec: the macros `POCL_ABORT` and `POCL_ABORT_UNIMPLEMENTED` are
used by the driver but defined elsewhere; the spec describes both as fatal, the second
with a distinct "unimplemented" signal.  `undefined_behaviour` marks an execution that
leaves defined C (reading through a value pointer that does not hold what the branch
reads); it is never counted as a success.  `wait_never_returns` marks a dispatch whose
completion signal is never signalled, so that `hsa_signal_wait_acquire` blocks for ever. -/
inductive pocl_stop
  | POCL_ABORT (msg : pocl_abort_msg)
  | POCL_ABORT_UNIMPLEMENTED (msg : pocl_abort_msg)
  | undefined_behaviour
  | wait_never_returns
  deriving DecidableEq, Repr

/-! ## Bytes and memory -/

/-- The object representation of an `n`-byte unsigned integer on the
little-endian host. -/
def le_bytes (n v : Nat) : List Nat :=
  (List.range n).map (fun k => v / 256 ^ k % 256)

/-- The effect of `memcpy (dst, src, src.length)` on memory. -/
def memcpy (heap : Nat → Nat) (dst : Nat) (src : List Nat) : Nat → Nat :=
  fun k => if dst ≤ k ∧ k < dst + src.length then src.getD (k - dst) 0 else heap k

/-! ## `setup_kernel_args` -/

/-- The local variables of `setup_kernel_args` and the memory it writes.  `writes`
and `derefs` are ghost fields: every `memcpy` into the argument buffer is recorded as
`(destination, length)`, and every argument index whose `cl_mem` is dereferenced is
recorded. -/
structure args_state where
  heap : Nat → Nat
  write_pos : Nat
  total_group_size : Nat
  writes : List (Nat × Nat)
  derefs : List Nat

/-- The condition of the macro `CHECK_SPACE(DSIZE)`: true when it aborts.  `write_pos`
is a `char *` and `DSIZE` a `size_t`, both 64 bits wide: the sum `write_pos + (DSIZE)`
is taken modulo `2 ^ 64`. -/
def CHECK_SPACE (write_pos DSIZE last_pos : Nat) : Bool :=
  decide ((write_pos + DSIZE) % 2 ^ 64 > last_pos)

/-- The statement `memcpy (write_pos, src, ...)` followed by `write_pos += ...`. -/
def write_arg (st : args_state) (src : List Nat) : args_state :=
  { st with
    heap := memcpy st.heap st.write_pos src
    writes := st.writes ++ [(st.write_pos, src.length)]
    write_pos := st.write_pos + src.length }

/-- One iteration of the loop of `setup_kernel_args`, for argument index `i`. -/
def setup_kernel_arg (dev_id last_pos i : Nat) (a : kernel_arg) (st : args_state) :
    args_state × Option pocl_stop :=
  if a.info.is_local then
    if CHECK_SPACE st.write_pos 8 last_pos then
      (st, some (.POCL_ABORT .too_many_kernel_arguments))
    else
      let temp := st.total_group_size
      let st1 := write_arg st (le_bytes 8 temp)
      ({ st1 with total_group_size := (st.total_group_size + a.al.size % 2 ^ 32) % 2 ^ 32 },
        none)
  else if a.info.type = .POCL_ARG_TYPE_POINTER then
    if CHECK_SPACE st.write_pos 8 last_pos then
      (st, some (.POCL_ABORT .too_many_kernel_arguments))
    else
      match a.al.value with
      | .null => (write_arg st (le_bytes 8 0), none)
      | .mem m =>
        match m.device_ptrs[dev_id]? with
        | some mem_ptr =>
          let temp := mem_ptr % 2 ^ 64
          ({ write_arg st (le_bytes 8 temp) with derefs := st.derefs ++ [i] }, none)
        | none => ({ st with derefs := st.derefs ++ [i] }, some .undefined_behaviour)
      | .bytes _ => (st, some .undefined_behaviour)
  else if a.info.type = .POCL_ARG_TYPE_IMAGE then
    (st, some (.POCL_ABORT_UNIMPLEMENTED .image_arguments_not_implemented))
  else if a.info.type = .POCL_ARG_TYPE_SAMPLER then
    (st, some (.POCL_ABORT_UNIMPLEMENTED .sampler_arguments_not_implemented))
  else
    if CHECK_SPACE st.write_pos a.al.size last_pos then
      (st, some (.POCL_ABORT .too_many_kernel_arguments))
    else
      match a.al.value with
      | .bytes data =>
        if a.al.size ≤ data.length then (write_arg st (data.take a.al.size), none)
        else (st, some .undefined_behaviour)
      | _ => (st, some .undefined_behaviour)

/-- The loop `for (i = 0; i < num_args; ++i)` of `setup_kernel_args`, from index `i`
over the arguments not yet marshalled. -/
def setup_kernel_args_loop (dev_id last_pos : Nat) :
    List kernel_arg → Nat → args_state → args_state × Option pocl_stop
  | [], _, st => (st, none)
  | a :: rest, i, st =>
    match setup_kernel_arg dev_id last_pos i a st with
    | (st1, none) => setup_kernel_args_loop dev_id last_pos rest (i + 1) st1
    | (st1, some e) => (st1, some e)

/-- The function `setup_kernel_args (d, cmd, arg_space, max_args_size, total_group_size)`.
`dev_id` is `cmd->device->dev_id`, `args` the arguments of `cmd->command.run`,
`total_group_size` the `uint32_t` value `*total_group_size` holds on entry; the result
carries the value it holds on return. -/
def setup_kernel_args (dev_id : Nat) (args : List kernel_arg) (heap : Nat → Nat)
    (arg_space max_args_size total_group_size : Nat) : args_state × Option pocl_stop :=
  let write_pos := arg_space
  let last_pos := arg_space + max_args_size
  setup_kernel_args_loop dev_id last_pos args 0
    { heap := heap, write_pos := write_pos, total_group_size := total_group_size,
      writes := [], derefs := [] }

/-! ## Device data -/

/-- Number of program slots of a device. -/
abbrev HSA_PROGRAM_CACHE_SIZE : Nat := 32

/-- Number of kernel entries of a program slot. -/
abbrev HSA_KERNEL_CACHE_SIZE : Nat := 64

/-- The structure `hsa_kernel_cache_t`, the cached dispatch data of one kernel. -/
structure hsa_kernel_cache_t where
  kernel : Nat
  hsa_exe : Nat
  code_handle : Nat
  private_size : Nat
  static_group_size : Nat
  kernel_completion_signal : Nat
  kernargs : Nat
  args_segment_size : Nat
  deriving DecidableEq, Repr

/-- The structure `hsa_program_cache_t`, one program slot.  An `hsa_code_object_t` is a
structure of one 64-bit handle, so comparing two of them byte by byte compares the
handles. -/
structure hsa_program_cache_t where
  program : Nat
  code_object : Nat
  kernel_cache : Fin HSA_KERNEL_CACHE_SIZE → hsa_kernel_cache_t
  kernel_cache_lastptr : Nat

/-- The fields of `hsa_queue_t` the driver reads. -/
structure hsa_queue_t where
  size : Nat
  doorbell_signal : Nat
  deriving DecidableEq, Repr

/-- The structure `pocl_hsa_device_data`. -/
structure pocl_hsa_device_data where
  current_kernel : Nat
  agent : Nat
  kernarg_region : Nat
  queue : hsa_queue_t
  program_cache : Fin HSA_PROGRAM_CACHE_SIZE → hsa_program_cache_t
  program_cache_lastptr : Nat

/-- A kernel entry of all zero bytes. -/
def zero_kernel_entry : hsa_kernel_cache_t :=
  { kernel := 0, hsa_exe := 0, code_handle := 0, private_size := 0, static_group_size := 0,
    kernel_completion_signal := 0, kernargs := 0, args_segment_size := 0 }

/-- A program slot of all zero bytes. -/
def zero_program_slot : hsa_program_cache_t :=
  { program := 0, code_object := 0, kernel_cache := fun _ => zero_kernel_entry,
    kernel_cache_lastptr := 0 }

/-- The device data `pocl_hsa_init` leaves: everything `memset` to zero, then the agent,
the memory regions and the queue filled in. -/
def zero_device (agent kernarg_region : Nat) (queue : hsa_queue_t) : pocl_hsa_device_data :=
  { current_kernel := 0, agent := agent, kernarg_region := kernarg_region, queue := queue,
    program_cache := fun _ => zero_program_slot, program_cache_lastptr := 0 }

/-! ## Commands -/

/-- The fields of `struct _cl_kernel` the driver reads; `addr` is the value of the
`cl_kernel` pointer, which is the kernel's identity. -/
structure _cl_kernel where
  addr : Nat
  name : String
  program : Nat
  arg_info : List pocl_argument_info

/-- The fields of `struct pocl_context` the driver reads. -/
structure pocl_context where
  work_dim : Nat
  num_groups : Fin 3 → Nat

/-- The fields of `struct _cl_device_id` the driver reads at dispatch. -/
structure _cl_device_id where
  dev_id : Nat
  local_mem_size : Nat

/-- The member `command.run` of a command node.  `device_data` is the code object the
compile step left for the dispatch (`none` when nothing was stored). -/
structure _cl_command_run where
  kernel : _cl_kernel
  arguments : List pocl_argument
  local_x : Nat
  local_y : Nat
  local_z : Nat
  pc : pocl_context
  tmp_dir : String
  device_data : Option Nat

/-- Values of `cmd->type` the driver distinguishes. -/
inductive cl_command_type
  | CL_COMMAND_NDRANGE_KERNEL
  | other
  deriving DecidableEq, Repr

/-- The structure `_cl_command_node`. -/
structure _cl_command_node where
  type : cl_command_type
  device : _cl_device_id
  run : _cl_command_run

/-- The arguments of a dispatch: `kernel->arg_info[i]` with `arguments[i]`, for
`i < num_args`. -/
def kernel_args (cmd : _cl_command_node) : List kernel_arg :=
  List.zipWith kernel_arg.mk cmd.run.kernel.arg_info cmd.run.arguments

/-! ## The HSA runtime, the queue and the operating system -/

/-- The status `HSA_STATUS_SUCCESS`. -/
abbrev HSA_STATUS_SUCCESS : Nat := 0

/-- The symbol kind `HSA_SYMBOL_KIND_KERNEL`. -/
abbrev HSA_SYMBOL_KIND_KERNEL : Nat := 1

/-- Bit position of the dimension count in the packet's `setup` field. -/
abbrev HSA_KERNEL_DISPATCH_PACKET_SETUP_DIMENSIONS : Nat := 0

/-- The fence scope `HSA_FENCE_SCOPE_SYSTEM`. -/
abbrev HSA_FENCE_SCOPE_SYSTEM : Nat := 2

/-- Bit position of the packet type in the header. -/
abbrev HSA_PACKET_HEADER_TYPE : Nat := 0

/-- Bit position of the acquire fence scope in the header. -/
abbrev HSA_PACKET_HEADER_ACQUIRE_FENCE_SCOPE : Nat := 9

/-- Bit position of the release fence scope in the header. -/
abbrev HSA_PACKET_HEADER_RELEASE_FENCE_SCOPE : Nat := 11

/-- The packet type `HSA_PACKET_TYPE_KERNEL_DISPATCH`. -/
abbrev HSA_PACKET_TYPE_KERNEL_DISPATCH : Nat := 2

/-- The attributes queried with `hsa_executable_symbol_get_info`. -/
inductive symbol_attribute
  | HSA_EXECUTABLE_SYMBOL_INFO_TYPE
  | HSA_EXECUTABLE_SYMBOL_INFO_KERNEL_OBJECT
  | HSA_EXECUTABLE_SYMBOL_INFO_KERNEL_GROUP_SEGMENT_SIZE
  | HSA_EXECUTABLE_SYMBOL_INFO_KERNEL_PRIVATE_SEGMENT_SIZE
  | HSA_EXECUTABLE_SYMBOL_INFO_KERNEL_KERNARG_SEGMENT_SIZE
  deriving DecidableEq, Repr

/-- The fields of `hsa_kernel_dispatch_packet_t` other than the header. -/
inductive packet_field
  | setup
  | workgroup_size_x
  | workgroup_size_y
  | workgroup_size_z
  | grid_size_x
  | grid_size_y
  | grid_size_z
  | private_segment_size
  | group_segment_size
  | kernel_object
  | kernarg_address
  | completion_signal
  deriving DecidableEq, Repr

/-- The structure `hsa_kernel_dispatch_packet_t`. -/
structure hsa_kernel_dispatch_packet_t where
  header : Nat
  setup : Nat
  workgroup_size_x : Nat
  workgroup_size_y : Nat
  workgroup_size_z : Nat
  grid_size_x : Nat
  grid_size_y : Nat
  grid_size_z : Nat
  private_segment_size : Nat
  group_segment_size : Nat
  kernel_object : Nat
  kernarg_address : Nat
  completion_signal : Nat
  deriving DecidableEq, Repr

/-- Assignment to one field of a packet. -/
def hsa_kernel_dispatch_packet_t.set (p : hsa_kernel_dispatch_packet_t) :
    packet_field → Nat → hsa_kernel_dispatch_packet_t
  | .setup, v => { p with setup := v }
  | .workgroup_size_x, v => { p with workgroup_size_x := v }
  | .workgroup_size_y, v => { p with workgroup_size_y := v }
  | .workgroup_size_z, v => { p with workgroup_size_z := v }
  | .grid_size_x, v => { p with grid_size_x := v }
  | .grid_size_y, v => { p with grid_size_y := v }
  | .grid_size_z, v => { p with grid_size_z := v }
  | .private_segment_size, v => { p with private_segment_size := v }
  | .group_segment_size, v => { p with group_segment_size := v }
  | .kernel_object, v => { p with kernel_object := v }
  | .kernarg_address, v => { p with kernarg_address := v }
  | .completion_signal, v => { p with completion_signal := v }

/-- What the driver does that is visible outside it, in program order: calls of the HSA
runtime and of the operating system, and stores into the queue's packet slots. -/
inductive effect
  | hsa_executable_create
  | hsa_executable_load_code_object (exe agent code_object : Nat)
  | hsa_executable_freeze (exe : Nat)
  | hsa_executable_get_symbol (exe : Nat) (symbol : String) (agent : Nat)
  | hsa_executable_symbol_get_info (symbol : Nat) (attr : symbol_attribute)
  | hsa_signal_create (initial_value : Nat)
  | hsa_memory_allocate (region size : Nat)
  | hsa_queue_load_write_index_relaxed
  | packet_store (slot : Nat) (field : packet_field) (value : Nat)
  | hsa_signal_store_relaxed (signal value : Nat)
  | header_store_release (slot value : Nat)
  | hsa_queue_store_write_index_relaxed (value : Nat)
  | hsa_signal_wait_acquire (signal : Nat)
  | hsa_executable_destroy (exe : Nat)
  | hsa_signal_destroy (signal : Nat)
  | hsa_code_object_destroy (code_object : Nat)
  | hsa_queue_destroy
  | pocl_exists (file : String)
  | system (command : String)
  | pocl_read_file (file : String)
  | hsa_ext_program_create
  | hsa_ext_program_add_module (program module : Nat)
  | hsa_agent_get_info_isa (agent : Nat)
  | hsa_ext_program_finalize (program isa : Nat)
  | hsa_ext_program_destroy (program : Nat)
  deriving DecidableEq, Repr

/-- What a call gives back: its status (or `int` result) and the value it stores through
its output parameter. -/
structure hsa_reply where
  status : Nat
  value : Nat
  deriving DecidableEq, Repr

/-- The world outside the driver.  The reply to a call may depend on everything the
driver did before it; `completes` says whether a wait on a completion signal returns. -/
structure runtime where
  reply : List effect → effect → hsa_reply
  completes : List effect → Nat → Bool

/-- The state the driver works on: the device data, byte memory, the packet slots of the
queue's ring buffer, and the effects so far. -/
structure machine where
  d : pocl_hsa_device_data
  heap : Nat → Nat
  packets : Nat → hsa_kernel_dispatch_packet_t
  trace : List effect

/-- Result of a driver function: it returns, or the process stops inside it. -/
inductive outcome (α : Type)
  | returned (m : machine) (a : α)
  | stopped (m : machine) (e : pocl_stop)

/-! ## `cache_kernel_dispatch_data` -/

/-- The pointer `cache_kernel_dispatch_data` returns: into a kernel cache, or to the
caller's `stack_cache`. -/
inductive cache_ref
  | slot (i : Fin HSA_PROGRAM_CACHE_SIZE) (j : Fin HSA_KERNEL_CACHE_SIZE)
  | stack_cache
  deriving DecidableEq, Repr

/-- The record a `cache_ref` points to. -/
def read_ref (d : pocl_hsa_device_data) (stack_cache : hsa_kernel_cache_t) :
    cache_ref → hsa_kernel_cache_t
  | .slot i j => (d.program_cache i).kernel_cache j
  | .stack_cache => stack_cache

/-- Assignment to the record a `cache_ref` points to. -/
def write_ref (d : pocl_hsa_device_data) (stack_cache : hsa_kernel_cache_t)
    (r : cache_ref) (e : hsa_kernel_cache_t) : pocl_hsa_device_data × hsa_kernel_cache_t :=
  match r with
  | .slot i j =>
    ({ d with program_cache := (Function.update d.program_cache i
        { (d.program_cache i) with
          kernel_cache := Function.update (d.program_cache i).kernel_cache j e }) },
      stack_cache)
  | .stack_cache => (d, e)

/-- The inner loop `for (j = 0; j < HSA_KERNEL_CACHE_SIZE; j++)`: the first entry whose
`kernel` is the requested one. -/
def find_kernel (p : hsa_program_cache_t) (kernel : Nat) : Option (Fin HSA_KERNEL_CACHE_SIZE) :=
  (List.finRange HSA_KERNEL_CACHE_SIZE).find? (fun j => decide ((p.kernel_cache j).kernel = kernel))

/-- The variables of the outer loop: the device data, and `p` with `out` (both are
`NULL` until a program slot matches and are assigned in the same iteration). -/
structure scan_state where
  d : pocl_hsa_device_data
  p_out : Option (Fin HSA_PROGRAM_CACHE_SIZE × cache_ref)

/-- How the outer loop ends: by `return &p->kernel_cache[j]`, or by running through. -/
inductive scan_result
  | found (d : pocl_hsa_device_data) (i : Fin HSA_PROGRAM_CACHE_SIZE)
      (j : Fin HSA_KERNEL_CACHE_SIZE)
  | fell_through (s : scan_state)

/-- The outer loop `for (i = 0; i < HSA_PROGRAM_CACHE_SIZE; i++)` over the program
slots still to visit. -/
def scan_programs (kernel code_object : Nat) :
    List (Fin HSA_PROGRAM_CACHE_SIZE) → scan_state → scan_result
  | [], s => .fell_through s
  | i :: rest, s =>
    if (s.d.program_cache i).code_object = code_object then
      match find_kernel (s.d.program_cache i) kernel with
      | some j => .found s.d i j
      | none =>
        if h : (s.d.program_cache i).kernel_cache_lastptr < HSA_KERNEL_CACHE_SIZE then
          scan_programs kernel code_object rest
            { d := { s.d with program_cache := (Function.update s.d.program_cache i
                      { (s.d.program_cache i) with
                        kernel_cache_lastptr :=
                          (s.d.program_cache i).kernel_cache_lastptr + 1 }) }
              p_out := some (i, .slot i ⟨(s.d.program_cache i).kernel_cache_lastptr, h⟩) }
        else
          scan_programs kernel code_object rest { s with p_out := some (i, .stack_cache) }
    else scan_programs kernel code_object rest s

/-- A call of the outside world followed by
`if (status != HSA_STATUS_SUCCESS) POCL_ABORT (msg);`.  The call is appended to the
trace; when it succeeds the function goes on as `next`, with the value the call stored
through its output parameter and the new trace. -/
def checked_call {α : Type} (rt : runtime) (tr : List effect) (c : effect)
    (msg : pocl_abort_msg) (next : Nat → List effect → List effect × Except pocl_stop α) :
    List effect × Except pocl_stop α :=
  if (rt.reply tr c).status ≠ HSA_STATUS_SUCCESS then (tr ++ [c], .error (.POCL_ABORT msg))
  else next (rt.reply tr c).value (tr ++ [c])

/-- The second half of `cache_kernel_dispatch_data`: the runtime calls that fill `*out`.
The result is the trace and either the abort or the record as filled: all eight members
of `*out` are assigned on the way, so the record does not depend on what `*out` held
before.  The status of the symbol-kind query is not looked at, only the kind. -/
def build_dispatch_data (rt : runtime) (kernel : _cl_kernel) (agent kernarg_region : Nat)
    (code_object : Nat) (tr : List effect) : List effect × Except pocl_stop hsa_kernel_cache_t :=
  checked_call rt tr .hsa_executable_create .error_creating_executable fun v tr =>
  let hsa_exe := v % 2 ^ 64
  checked_call rt tr (.hsa_executable_load_code_object hsa_exe agent code_object)
    .error_loading_code_object fun _ tr =>
  checked_call rt tr (.hsa_executable_freeze hsa_exe) .error_freezing_executable fun _ tr =>
  let symbol := "&" ++ kernel.name
  checked_call rt tr (.hsa_executable_get_symbol hsa_exe symbol agent)
    .unable_to_get_kernel_symbol fun kernel_symbol tr =>
  let c := effect.hsa_executable_symbol_get_info kernel_symbol .HSA_EXECUTABLE_SYMBOL_INFO_TYPE
  let symtype := (rt.reply tr c).value
  let tr := tr ++ [c]
  if symtype ≠ HSA_SYMBOL_KIND_KERNEL then
    (tr, .error (.POCL_ABORT .symbol_is_not_a_function))
  else
  checked_call rt tr
    (.hsa_executable_symbol_get_info kernel_symbol .HSA_EXECUTABLE_SYMBOL_INFO_KERNEL_OBJECT)
    .unable_to_get_code_handle fun v tr =>
  let code_handle := v % 2 ^ 64
  checked_call rt tr
    (.hsa_executable_symbol_get_info kernel_symbol
      .HSA_EXECUTABLE_SYMBOL_INFO_KERNEL_GROUP_SEGMENT_SIZE)
    .unable_to_get_group_segment_size fun v tr =>
  let static_group_size := v % 2 ^ 32
  checked_call rt tr
    (.hsa_executable_symbol_get_info kernel_symbol
      .HSA_EXECUTABLE_SYMBOL_INFO_KERNEL_PRIVATE_SEGMENT_SIZE)
    .unable_to_get_private_segment_size fun v tr =>
  let private_size := v % 2 ^ 32
  let initial_value := 1
  checked_call rt tr (.hsa_signal_create initial_value) .unable_to_create_signal fun v tr =>
  let kernel_completion_signal := v % 2 ^ 64
  checked_call rt tr
    (.hsa_executable_symbol_get_info kernel_symbol
      .HSA_EXECUTABLE_SYMBOL_INFO_KERNEL_KERNARG_SEGMENT_SIZE)
    .unable_to_get_kernarg_size fun v tr =>
  let args_segment_size := v % 2 ^ 32
  checked_call rt tr (.hsa_memory_allocate kernarg_region args_segment_size)
    .unable_to_allocate_kernargs fun v tr =>
  let kernargs := v % 2 ^ 64
  (tr, .ok
    { kernel := kernel.addr, hsa_exe := hsa_exe, code_handle := code_handle,
      private_size := private_size, static_group_size := static_group_size,
      kernel_completion_signal := kernel_completion_signal, kernargs := kernargs,
      args_segment_size := args_segment_size })

/-- The pointer `out` after the scan and the statement `if (!p) out = stack_cache;`. -/
def selected_out (s : scan_state) : cache_ref :=
  match s.p_out with
  | none => .stack_cache
  | some (_, out) => out

/-- The function `cache_kernel_dispatch_data (kernel, d, code_object, stack_cache)`.
`stack_cache` is the content of the caller's record on entry; the result is the returned
pointer together with the content of the caller's record on return.  When the process
stops inside, the state carries the device data as the scan left it. -/
def cache_kernel_dispatch_data (rt : runtime) (kernel : _cl_kernel) (code_object : Nat)
    (stack_cache : hsa_kernel_cache_t) (m : machine) :
    outcome (cache_ref × hsa_kernel_cache_t) :=
  match scan_programs kernel.addr code_object (List.finRange HSA_PROGRAM_CACHE_SIZE)
      { d := m.d, p_out := none } with
  | .found d i j => .returned { m with d := d } (.slot i j, stack_cache)
  | .fell_through s =>
    let out := selected_out s
    let built :=
      build_dispatch_data rt kernel s.d.agent s.d.kernarg_region code_object m.trace
    match built.2 with
    | .ok e =>
      .returned { m with d := (write_ref s.d stack_cache out e).1, trace := built.1 }
        (out, (write_ref s.d stack_cache out e).2)
    | .error stop => .stopped { m with d := s.d, trace := built.1 } stop

/-! ## `pocl_hsa_run` -/

/-- The store `kernel_packet->field = value`, recorded in the trace. -/
def packet_store (m : machine) (slot : Nat) (field : packet_field) (value : Nat) : machine :=
  { m with
    packets := Function.update m.packets slot ((m.packets slot).set field value)
    trace := m.trace ++ [.packet_store slot field value] }

/-- The values the locals of `pocl_hsa_run` hold when it returns: the pointer
`cached_data`, the record `stack_cache`, `queue_index` and `total_group_size`. -/
structure run_locals where
  cached_data : cache_ref
  stack_cache : hsa_kernel_cache_t
  queue_index : Nat
  total_group_size : Nat
  deriving DecidableEq, Repr

/-- The packet header `pocl_hsa_run` publishes, as the 16 bits stored. -/
def dispatch_header : Nat :=
  (((0 ||| (HSA_FENCE_SCOPE_SYSTEM <<< HSA_PACKET_HEADER_ACQUIRE_FENCE_SCOPE)) |||
      (HSA_FENCE_SCOPE_SYSTEM <<< HSA_PACKET_HEADER_RELEASE_FENCE_SCOPE)) |||
      (HSA_PACKET_TYPE_KERNEL_DISPATCH <<< HSA_PACKET_HEADER_TYPE)) % 2 ^ 16

/-- An effect that changes nothing in the driver's own state: it is appended to the
trace. -/
def trace_add (m : machine) (e : effect) : machine :=
  { m with trace := m.trace ++ [e] }

/-- The assignment of the heap after the arguments have been marshalled into it. -/
def set_heap (m : machine) (heap : Nat → Nat) : machine :=
  { m with heap := heap }

/-- The statements of `pocl_hsa_run` from `kernel_packet->setup |= ...` to
`kernel_packet->completion_signal = ...`: the stores into the reserved packet that come
before the arguments are marshalled, and the reset of the completion signal.  Values
are reduced to the width of the packet member they are stored in; the three stores of
the chained assignment `grid_size_x = grid_size_y = grid_size_z = 1` are taken right to
left. -/
def fill_packet (cmd : _cl_command_node) (data : hsa_kernel_cache_t) (slot : Nat)
    (m : machine) : machine :=
  let m := packet_store m slot .setup
    (((m.packets slot).setup |||
      ((cmd.run.pc.work_dim % 2 ^ 16) <<< HSA_KERNEL_DISPATCH_PACKET_SETUP_DIMENSIONS))
      % 2 ^ 16)
  let m := packet_store m slot .workgroup_size_x (cmd.run.local_x % 2 ^ 16)
  let m := packet_store m slot .workgroup_size_y (cmd.run.local_y % 2 ^ 16)
  let m := packet_store m slot .workgroup_size_z (cmd.run.local_z % 2 ^ 16)
  let m := packet_store m slot .grid_size_z 1
  let m := packet_store m slot .grid_size_y 1
  let m := packet_store m slot .grid_size_x 1
  let m := packet_store m slot .grid_size_x
    (cmd.run.pc.num_groups 0 * cmd.run.local_x % 2 ^ 32)
  let m := packet_store m slot .grid_size_y
    (cmd.run.pc.num_groups 1 * cmd.run.local_y % 2 ^ 32)
  let m := packet_store m slot .grid_size_z
    (cmd.run.pc.num_groups 2 * cmd.run.local_z % 2 ^ 32)
  let m := packet_store m slot .kernel_object data.code_handle
  let m := packet_store m slot .private_segment_size data.private_size
  let initial_value := 1
  let m := trace_add m (.hsa_signal_store_relaxed data.kernel_completion_signal initial_value)
  packet_store m slot .completion_signal data.kernel_completion_signal

/-- The statements of `pocl_hsa_run` from `kernel_packet->kernarg_address = ...` to the
doorbell: the last packet member, the release store of the header, the new write index,
the doorbell. -/
def publish (data : hsa_kernel_cache_t) (slot queue_index : Nat) (m : machine) : machine :=
  let m := packet_store m slot .kernarg_address data.kernargs
  let header := dispatch_header
  let m : machine :=
    { m with
      packets := Function.update m.packets slot { (m.packets slot) with header := header }
      trace := m.trace ++ [effect.header_store_release slot header] }
  let m := trace_add m (.hsa_queue_store_write_index_relaxed (queue_index + 1))
  trace_add m (.hsa_signal_store_relaxed m.d.queue.doorbell_signal queue_index)

/-- The statement `if (cached_data == &stack_cache) { ... }` after the wait. -/
def release (cached_data : cache_ref) (data : hsa_kernel_cache_t) (m : machine) : machine :=
  if cached_data = .stack_cache then
    trace_add (trace_add m (.hsa_executable_destroy data.hsa_exe))
      (.hsa_signal_destroy data.kernel_completion_signal)
  else m

/-- The part of `pocl_hsa_run` after `cache_kernel_dispatch_data` has returned
`cached_data`: reserving the packet slot, filling the packet, marshalling the
arguments, publishing, waiting, and releasing the record if it is the caller's.
The local `total_group_size` is a `uint32_t` initialised from the `uint32_t` member
`static_group_size`. -/
def dispatch (rt : runtime) (cmd : _cl_command_node) (cached_data : cache_ref)
    (stack_cache : hsa_kernel_cache_t) (m : machine) : outcome run_locals :=
  let data := read_ref m.d stack_cache cached_data
  let queueMask := (m.d.queue.size + 2 ^ 32 - 1) % 2 ^ 32
  let queue_index := (rt.reply m.trace .hsa_queue_load_write_index_relaxed).value % 2 ^ 64
  let m := trace_add m .hsa_queue_load_write_index_relaxed
  let slot := queue_index &&& queueMask
  let m := fill_packet cmd data slot m
  let total_group_size := data.static_group_size % 2 ^ 32
  let marshal := setup_kernel_args cmd.device.dev_id (kernel_args cmd) m.heap data.kernargs
      data.args_segment_size total_group_size
  let m := set_heap m marshal.1.heap
  match marshal.2 with
  | some stop => .stopped m stop
  | none =>
    let total_group_size := marshal.1.total_group_size
    let m := packet_store m slot .group_segment_size total_group_size
    if total_group_size > cmd.device.local_mem_size then
      .stopped m (.POCL_ABORT .local_memory_exceeds_device)
    else
    let m := publish data slot queue_index m
    let waited := rt.completes m.trace data.kernel_completion_signal
    let m := trace_add m (.hsa_signal_wait_acquire data.kernel_completion_signal)
    if waited = false then .stopped m .wait_never_returns
    else
    let m := release cached_data data m
    .returned m
      { cached_data := cached_data, stack_cache := stack_cache, queue_index := queue_index,
        total_group_size := total_group_size }

/-- The function `pocl_hsa_run (dptr, cmd)`; `stack_cache` is what the uninitialised
local `stack_cache` holds on entry, `m.d` is `*dptr`. -/
def pocl_hsa_run (rt : runtime) (cmd : _cl_command_node) (stack_cache : hsa_kernel_cache_t)
    (m : machine) : outcome run_locals :=
  let kernel := cmd.run.kernel
  let m := { m with d := { m.d with current_kernel := kernel.addr } }
  match cmd.run.device_data with
  | none => .stopped m .undefined_behaviour
  | some co =>
    match cache_kernel_dispatch_data rt kernel co stack_cache m with
    | .stopped m stop => .stopped m stop
    | .returned m (cached_data, stack_cache) => dispatch rt cmd cached_data stack_cache m

/-! ## Compilation -/

/-- Build-time constants of the driver that come from pocl's configuration. -/
structure toolchain_config where
  POCL_FILENAME_LENGTH : Nat
  POCL_PARALLEL_BC_FILENAME : String
  LLC : String
  HSAIL_ASM : String

/-- The text `snprintf (buf, n, ...)` leaves in `buf`: the first `n - 1` `char`s of the
formatted text, all of it when it is shorter.  A C string is a `String` with one `Char`
per `char` (see the conventions), so that dropping `char`s is dropping `Char`s. -/
def snprintf (n : Nat) (text : String) : String :=
  text.take (n - 1)

/-- The text `compile_parallel_bc_to_brig` leaves in `bytecode`. -/
def bytecode_file (cfg : toolchain_config) (tmpdir : String) : String :=
  snprintf cfg.POCL_FILENAME_LENGTH (tmpdir ++ cfg.POCL_PARALLEL_BC_FILENAME)

/-- The text `compile_parallel_bc_to_brig` leaves in `brigfile`. -/
def brig_file (cfg : toolchain_config) (tmpdir : String) : String :=
  snprintf cfg.POCL_FILENAME_LENGTH (tmpdir ++ cfg.POCL_PARALLEL_BC_FILENAME ++ ".brig")

/-- The text `compile_parallel_bc_to_brig` leaves in `hsailfile`. -/
def hsail_file (cfg : toolchain_config) (tmpdir : String) : String :=
  snprintf cfg.POCL_FILENAME_LENGTH (tmpdir ++ cfg.POCL_PARALLEL_BC_FILENAME ++ ".hsail")

/-- The command line of the lowering step (bytecode to HSAIL text). -/
def llc_command (cfg : toolchain_config) (tmpdir : String) : String :=
  snprintf 4096 (cfg.LLC ++ " -O2 -march=hsail64 -filetype=asm -o " ++
    hsail_file cfg tmpdir ++ " " ++ bytecode_file cfg tmpdir)

/-- The command line of the assembling step (HSAIL text to BRIG). -/
def hsailasm_command (cfg : toolchain_config) (tmpdir : String) : String :=
  snprintf 4096 (cfg.HSAIL_ASM ++ " -o " ++ brig_file cfg tmpdir ++ " " ++
    hsail_file cfg tmpdir)

/-- The function `compile_parallel_bc_to_brig (tmpdir, brigfile)`: the returned `int`
and the trace (`brigfile` receives `brig_file cfg tmpdir`). -/
def compile_parallel_bc_to_brig (cfg : toolchain_config) (rt : runtime) (tmpdir : String)
    (tr : List effect) : Nat × List effect :=
  let brigfile := brig_file cfg tmpdir
  let c := effect.pocl_exists brigfile
  let r := rt.reply tr c
  let tr := tr ++ [c]
  if r.value ≠ 0 then (0, tr)
  else
    let c := effect.system (llc_command cfg tmpdir)
    let r := rt.reply tr c
    let tr := tr ++ [c]
    let error := r.value
    if error ≠ 0 then (error, tr)
    else
      let c := effect.system (hsailasm_command cfg tmpdir)
      let r := rt.reply tr c
      let tr := tr ++ [c]
      let error := r.value
      if error ≠ 0 then (error, tr)
      else (0, tr)

/-- The loop of `pocl_hsa_compile_submitted_kernels` over the program slots: the first
slot whose `program` is the requested one. -/
def find_program (d : pocl_hsa_device_data) (program : Nat) :
    Option (Fin HSA_PROGRAM_CACHE_SIZE) :=
  (List.finRange HSA_PROGRAM_CACHE_SIZE).find?
    (fun i => decide ((d.program_cache i).program = program))

/-- The finalization sequence of `pocl_hsa_compile_submitted_kernels`, from reading the
binary to destroying the HSA program: the trace, and the code object or the abort. -/
def finalize_program (rt : runtime) (agent : Nat) (brigfile : String) (tr : List effect) :
    List effect × Except pocl_stop Nat :=
  checked_call rt tr (.pocl_read_file brigfile) .could_not_read_binary fun brig_blob tr =>
  let hsa_module := brig_blob
  checked_call rt tr .hsa_ext_program_create .error_building_program fun hsa_program tr =>
  checked_call rt tr (.hsa_ext_program_add_module hsa_program hsa_module)
    .error_adding_module fun _ tr =>
  checked_call rt tr (.hsa_agent_get_info_isa agent) .error_getting_isa fun isa tr =>
  checked_call rt tr (.hsa_ext_program_finalize hsa_program isa)
    .error_finalizing_program fun v tr =>
  let code_object := v % 2 ^ 64
  checked_call rt tr (.hsa_ext_program_destroy hsa_program)
    .error_destroying_program fun _ tr =>
  (tr, .ok code_object)

/-- The function `pocl_hsa_compile_submitted_kernels (cmd)`; `m.d` is
`cmd->device->data`.  The result is the command with `command.run.device_data` pointing
to the code object. -/
def pocl_hsa_compile_submitted_kernels (cfg : toolchain_config) (rt : runtime)
    (cmd : _cl_command_node) (m : machine) : outcome _cl_command_node :=
  if cmd.type ≠ .CL_COMMAND_NDRANGE_KERNEL then .returned m cmd
  else
    let program := cmd.run.kernel.program
    match find_program m.d program with
    | some i =>
      .returned m
        { cmd with run := { cmd.run with device_data := some (m.d.program_cache i).code_object } }
    | none =>
      let compiled := compile_parallel_bc_to_brig cfg rt cmd.run.tmp_dir m.trace
      if compiled.1 ≠ 0 then
        .stopped { m with trace := compiled.2 } (.POCL_ABORT .compiling_to_brig_failed)
      else
        let brigfile := brig_file cfg cmd.run.tmp_dir
        match finalize_program rt m.d.agent brigfile compiled.2 with
        | (tr, .error stop) => .stopped { m with trace := tr } stop
        | (tr, .ok code_object) =>
          let cmd := { cmd with run := { cmd.run with device_data := some code_object } }
          if h : m.d.program_cache_lastptr < HSA_PROGRAM_CACHE_SIZE then
            .returned
              { m with
                trace := tr
                d := { m.d with
                  program_cache := (Function.update m.d.program_cache
                    ⟨m.d.program_cache_lastptr, h⟩
                    { (m.d.program_cache ⟨m.d.program_cache_lastptr, h⟩) with
                      code_object := code_object, program := program })
                  program_cache_lastptr := m.d.program_cache_lastptr + 1 } }
              cmd
          else .returned { m with trace := tr } cmd

/-! ## `pocl_hsa_uninit` -/

/-- The inner loop `for (i = 0; i < HSA_KERNEL_CACHE_SIZE; i++)` of `pocl_hsa_uninit`
over the kernel entries of one program slot still to visit. -/
def uninit_kernels (cache : hsa_program_cache_t) :
    List (Fin HSA_KERNEL_CACHE_SIZE) → List effect → List effect
  | [], tr => tr
  | i :: rest, tr =>
    if (cache.kernel_cache i).kernel ≠ 0 then
      uninit_kernels cache rest
        (tr ++ [effect.hsa_executable_destroy (cache.kernel_cache i).hsa_exe,
          effect.hsa_signal_destroy (cache.kernel_cache i).kernel_completion_signal])
    else uninit_kernels cache rest tr

/-- The outer loop `for (j = 0; j < HSA_PROGRAM_CACHE_SIZE; j++)` of `pocl_hsa_uninit`
over the program slots still to visit. -/
def uninit_programs (d : pocl_hsa_device_data) :
    List (Fin HSA_PROGRAM_CACHE_SIZE) → List effect → List effect
  | [], tr => tr
  | j :: rest, tr =>
    if (d.program_cache j).program ≠ 0 then
      let cache := d.program_cache j
      let tr := uninit_kernels cache (List.finRange HSA_KERNEL_CACHE_SIZE) tr
      uninit_programs d rest (tr ++ [effect.hsa_code_object_destroy cache.code_object])
    else uninit_programs d rest tr

/-- The function `pocl_hsa_uninit (device)`; `m.d` is `device->data`.  The device data is
freed and `device->data` is set to `NULL`, so what is left of the state is the trace. -/
def pocl_hsa_uninit (m : machine) : List effect :=
  uninit_programs m.d (List.finRange HSA_PROGRAM_CACHE_SIZE) m.trace ++
    [effect.hsa_queue_destroy]

/-! ## The layout the marshaller is specified to produce -/

/-- The branch of the loop body an argument takes. -/
inductive arg_kind
  | local_mem
  | pointer
  | image
  | sampler
  | scalar
  deriving DecidableEq, Repr

/-- Classification of an argument: local-memory arguments first, then by declared type;
an argument that is none of pointer, image and sampler is passed by value. -/
def kind_of (a : kernel_arg) : arg_kind :=
  if a.info.is_local then .local_mem
  else match a.info.type with
    | .POCL_ARG_TYPE_POINTER => .pointer
    | .POCL_ARG_TYPE_IMAGE => .image
    | .POCL_ARG_TYPE_SAMPLER => .sampler
    | .POCL_ARG_TYPE_NONE => .scalar

/-- Scalar, pointer or local argument (the kinds the driver marshals). -/
def marshallable (a : kernel_arg) : Bool :=
  decide (kind_of a ≠ .image ∧ kind_of a ≠ .sampler)

/-- Number of bytes an argument takes in the argument buffer: 8 per pointer, 8 per local,
the declared size per scalar. -/
def encoded_size (a : kernel_arg) : Nat :=
  match kind_of a with
  | .local_mem => 8
  | .pointer => 8
  | .scalar => a.al.size
  | _ => 0

/-- Total encoded size of an argument list. -/
def args_size (args : List kernel_arg) : Nat :=
  (args.map encoded_size).sum

/-- The value pointer of an argument holds what its branch reads: a by-value argument
has a host copy of at least `size` bytes, a non-null pointer argument designates a
memory object that has a device pointer for device `dev_id`. -/
def well_formed (dev_id : Nat) (a : kernel_arg) : Bool :=
  match kind_of a with
  | .pointer =>
    match a.al.value with
    | .null => true
    | .mem m => decide (dev_id < m.device_ptrs.length)
    | .bytes _ => false
  | .scalar =>
    match a.al.value with
    | .bytes data => decide (a.al.size ≤ data.length)
    | _ => false
  | _ => true

/-- The local-memory counter after an argument: a local argument adds its declared size
(as `uint32_t`), the others leave it. -/
def counter_after (counter : Nat) (a : kernel_arg) : Nat :=
  if a.info.is_local then (counter + a.al.size % 2 ^ 32) % 2 ^ 32 else counter

/-- The local-memory counter after a list of arguments. -/
def counter_after_all (counter : Nat) (args : List kernel_arg) : Nat :=
  args.foldl counter_after counter

/-- The encoding of one argument, given the local-memory counter at that point. -/
def encode_arg (dev_id counter : Nat) (a : kernel_arg) : List Nat :=
  match kind_of a with
  | .local_mem => le_bytes 8 counter
  | .pointer =>
    match a.al.value with
    | .null => le_bytes 8 0
    | .mem m => le_bytes 8 (m.device_ptrs.getD dev_id 0 % 2 ^ 64)
    | .bytes _ => []
  | .scalar =>
    match a.al.value with
    | .bytes data => data.take a.al.size
    | _ => []
  | _ => []

/-- The concatenation, in declaration order, of the encodings of the arguments. -/
def encode_args (dev_id : Nat) : Nat → List kernel_arg → List Nat
  | _, [] => []
  | counter, a :: rest =>
    encode_arg dev_id counter a ++ encode_args dev_id (counter_after counter a) rest

/-- The `(destination, length)` of the copy made for each argument, from `pos` on. -/
def layout : Nat → List kernel_arg → List (Nat × Nat)
  | _, [] => []
  | pos, a :: rest => (pos, encoded_size a) :: layout (pos + encoded_size a) rest

/-- The indices, counted from `i`, of the non-null pointer arguments. -/
def deref_indices : Nat → List kernel_arg → List Nat
  | _, [] => []
  | i, a :: rest =>
    if kind_of a = .pointer ∧ a.al.value ≠ .null then i :: deref_indices (i + 1) rest
    else deref_indices (i + 1) rest

/-- The state the loop is specified to end in when every argument is marshalled. -/
def marshalled (dev_id i : Nat) (st : args_state) (args : List kernel_arg) : args_state :=
  { heap := memcpy st.heap st.write_pos (encode_args dev_id st.total_group_size args)
    write_pos := st.write_pos + args_size args
    total_group_size := counter_after_all st.total_group_size args
    writes := st.writes ++ layout st.write_pos args
    derefs := st.derefs ++ deref_indices i args }

/-- The state one iteration is specified to produce when it marshals its argument. -/
def arg_step (dev_id i : Nat) (st : args_state) (a : kernel_arg) : args_state :=
  { heap := memcpy st.heap st.write_pos (encode_arg dev_id st.total_group_size a)
    write_pos := st.write_pos + encoded_size a
    total_group_size := counter_after st.total_group_size a
    writes := st.writes ++ [(st.write_pos, encoded_size a)]
    derefs := st.derefs ++
      (if kind_of a = .pointer ∧ a.al.value ≠ .null then [i] else []) }

/-- Sum of the declared byte sizes of the local arguments of a list. -/
def local_sizes (args : List kernel_arg) : Nat :=
  ((args.filter (fun a => a.info.is_local)).map (fun a => a.al.size)).sum

/-! ## Notions used to state the properties of the caches and the dispatch -/

/-- The machine or process state an outcome ends in. -/
def outcome.machine {α : Type} : outcome α → machine
  | .returned m _ => m
  | .stopped m _ => m

/-- The value a function returned, if it returned. -/
def outcome.value? {α : Type} : outcome α → Option α
  | .returned _ a => some a
  | .stopped _ _ => none

/-- The packet slot a dispatch reserves: `queue_index & queueMask`. -/
def packet_slot (d : pocl_hsa_device_data) (queue_index : Nat) : Nat :=
  queue_index &&& ((d.queue.size + 2 ^ 32 - 1) % 2 ^ 32)

/-- Two device data have the same program identities and code objects in every program
slot and the same `program_cache_lastptr`. -/
def programs_eq (d d1 : pocl_hsa_device_data) : Prop :=
  d1.program_cache_lastptr = d.program_cache_lastptr ∧
  ∀ i, (d1.program_cache i).program = (d.program_cache i).program ∧
    (d1.program_cache i).code_object = (d.program_cache i).code_object

/-- The invocations of the external tools (`system`) in a trace, in order. -/
def toolchain_calls (tr : List effect) : List effect :=
  tr.filter (fun e => match e with
    | .system _ => true
    | _ => false)

/-- The finalizations (`hsa_ext_program_finalize`) in a trace, in order. -/
def finalize_calls (tr : List effect) : List effect :=
  tr.filter (fun e => match e with
    | .hsa_ext_program_finalize _ _ => true
    | _ => false)

/-- A world in which no call fails: every status is success and every tool exits
with 0. -/
def all_succeed (rt : runtime) : Prop :=
  (∀ tr c, (rt.reply tr c).status = HSA_STATUS_SUCCESS) ∧
    ∀ tr command, (rt.reply tr (.system command)).value = 0

/-- The states a device can be in: the state `pocl_hsa_init` leaves, and every state a
compile or dispatch call returns in, started in such a state, for any command and any
behaviour of the world outside; memory and packet slots may change between calls. -/
inductive reachable : machine → Prop
  | init (agent kernarg_region : Nat) (queue : hsa_queue_t) (heap : Nat → Nat)
      (packets : Nat → hsa_kernel_dispatch_packet_t) (trace : List effect) :
      reachable
        { d := zero_device agent kernarg_region queue, heap := heap, packets := packets,
          trace := trace }
  | compile (cfg : toolchain_config) (rt : runtime) (cmd cmd1 : _cl_command_node)
      (m m1 : machine) :
      reachable m → pocl_hsa_compile_submitted_kernels cfg rt cmd m = .returned m1 cmd1 →
      reachable m1
  | run (rt : runtime) (cmd : _cl_command_node) (stack_cache : hsa_kernel_cache_t)
      (m m1 : machine) (r : run_locals) :
      reachable m → pocl_hsa_run rt cmd stack_cache m = .returned m1 r → reachable m1
  | memory (m : machine) (heap : Nat → Nat) (packets : Nat → hsa_kernel_dispatch_packet_t) :
      reachable m → reachable { m with heap := heap, packets := packets }

/-- The device data a scan ends with. -/
def scan_result.d : scan_result → pocl_hsa_device_data
  | .found d _ _ => d
  | .fell_through s => s.d

/-- Two device data agree on everything except the counters `kernel_cache_lastptr`. -/
def keys_eq (d d1 : pocl_hsa_device_data) : Prop :=
  d1.current_kernel = d.current_kernel ∧ d1.agent = d.agent ∧
  d1.kernarg_region = d.kernarg_region ∧ d1.queue = d.queue ∧
  d1.program_cache_lastptr = d.program_cache_lastptr ∧
  ∀ i, (d1.program_cache i).program = (d.program_cache i).program ∧
    (d1.program_cache i).code_object = (d.program_cache i).code_object ∧
    (d1.program_cache i).kernel_cache = (d.program_cache i).kernel_cache

/-! ## Notions used to state the properties of the metadata and the kernel cache -/

/-- The runtime calls that build the dispatch data `e` of a kernel, in program order;
`kernel_symbol` is the symbol the lookup by name gave. -/
def metadata_calls (kernel : _cl_kernel) (agent kernarg_region code_object kernel_symbol : Nat)
    (e : hsa_kernel_cache_t) : List effect :=
  [ effect.hsa_executable_create,
    effect.hsa_executable_load_code_object e.hsa_exe agent code_object,
    effect.hsa_executable_freeze e.hsa_exe,
    effect.hsa_executable_get_symbol e.hsa_exe ("&" ++ kernel.name) agent,
    effect.hsa_executable_symbol_get_info kernel_symbol .HSA_EXECUTABLE_SYMBOL_INFO_TYPE,
    effect.hsa_executable_symbol_get_info kernel_symbol
      .HSA_EXECUTABLE_SYMBOL_INFO_KERNEL_OBJECT,
    effect.hsa_executable_symbol_get_info kernel_symbol
      .HSA_EXECUTABLE_SYMBOL_INFO_KERNEL_GROUP_SEGMENT_SIZE,
    effect.hsa_executable_symbol_get_info kernel_symbol
      .HSA_EXECUTABLE_SYMBOL_INFO_KERNEL_PRIVATE_SEGMENT_SIZE,
    effect.hsa_signal_create 1,
    effect.hsa_executable_symbol_get_info kernel_symbol
      .HSA_EXECUTABLE_SYMBOL_INFO_KERNEL_KERNARG_SEGMENT_SIZE,
    effect.hsa_memory_allocate kernarg_region e.args_segment_size ]

/-- The value the world gave back to call number `k` of `calls`, made after the trace
`tr` and the calls before it. -/
def reply_value (rt : runtime) (tr calls : List effect) (k : Nat) : Nat :=
  match calls[k]? with
  | some c => (rt.reply (tr ++ calls.take k) c).value
  | none => 0

/-- The record `e` holds complete dispatch data for `kernel`: the kernel identity, and in
each other member what the corresponding call of `calls` (made after `tr`) gave back,
reduced to the width of the member: the executable created, the code handle, the static
group and private segment sizes, the completion signal created, the size of the argument
segment and the argument buffer allocated; the symbol is a kernel. -/
def complete_metadata (rt : runtime) (tr calls : List effect) (kernel : _cl_kernel)
    (kernel_symbol : Nat) (e : hsa_kernel_cache_t) : Prop :=
  e.kernel = kernel.addr ∧
  e.hsa_exe = reply_value rt tr calls 0 % 2 ^ 64 ∧
  kernel_symbol = reply_value rt tr calls 3 ∧
  reply_value rt tr calls 4 = HSA_SYMBOL_KIND_KERNEL ∧
  e.code_handle = reply_value rt tr calls 5 % 2 ^ 64 ∧
  e.static_group_size = reply_value rt tr calls 6 % 2 ^ 32 ∧
  e.private_size = reply_value rt tr calls 7 % 2 ^ 32 ∧
  e.kernel_completion_signal = reply_value rt tr calls 8 % 2 ^ 64 ∧
  e.args_segment_size = reply_value rt tr calls 9 % 2 ^ 32 ∧
  e.kernargs = reply_value rt tr calls 10 % 2 ^ 64

/-- A world in which every symbol looked up is a kernel. -/
def symbols_are_kernels (rt : runtime) : Prop :=
  ∀ tr symbol,
    (rt.reply tr (.hsa_executable_symbol_get_info symbol
      .HSA_EXECUTABLE_SYMBOL_INFO_TYPE)).value = HSA_SYMBOL_KIND_KERNEL

/-- The device data after kernel entry `j` of program slot `i` has been taken and filled
with `e`: the counter of the slot is one more, the entry holds `e`, and nothing else is
different. -/
def with_entry (d : pocl_hsa_device_data) (i : Fin HSA_PROGRAM_CACHE_SIZE)
    (j : Fin HSA_KERNEL_CACHE_SIZE) (e : hsa_kernel_cache_t) : pocl_hsa_device_data :=
  { d with
    program_cache := Function.update d.program_cache i
      { (d.program_cache i) with
        kernel_cache := Function.update (d.program_cache i).kernel_cache j e
        kernel_cache_lastptr := (d.program_cache i).kernel_cache_lastptr + 1 } }

/-! ## Notions used to state the properties of a dispatch -/

/-- The first statements of `pocl_hsa_run`, up to the return of
`cache_kernel_dispatch_data`: the outcome of resolving the dispatch data. -/
def run_resolve (rt : runtime) (cmd : _cl_command_node) (stack_cache : hsa_kernel_cache_t)
    (m : machine) : outcome (cache_ref × hsa_kernel_cache_t) :=
  match cmd.run.device_data with
  | none =>
    .stopped { m with d := { m.d with current_kernel := cmd.run.kernel.addr } }
      .undefined_behaviour
  | some co =>
    cache_kernel_dispatch_data rt cmd.run.kernel co stack_cache
      { m with d := { m.d with current_kernel := cmd.run.kernel.addr } }

/-- The write index the queue gives a dispatch that reserves its packet in state `m`. -/
def reserved_index (rt : runtime) (m : machine) : Nat :=
  (rt.reply m.trace .hsa_queue_load_write_index_relaxed).value % 2 ^ 64

/-- The dispatch data a run of `pocl_hsa_run` works with (`*cached_data`), when the
resolution returned. -/
def run_metadata (rt : runtime) (cmd : _cl_command_node) (stack_cache : hsa_kernel_cache_t)
    (m : machine) : hsa_kernel_cache_t :=
  match run_resolve rt cmd stack_cache m with
  | .returned m1 (cd, st) => read_ref m1.d st cd
  | .stopped _ _ => stack_cache

/-- The index a run of `pocl_hsa_run` reserves in the queue. -/
def run_index (rt : runtime) (cmd : _cl_command_node) (stack_cache : hsa_kernel_cache_t)
    (m : machine) : Nat :=
  reserved_index rt (run_resolve rt cmd stack_cache m).machine

/-- The packet slot a run of `pocl_hsa_run` reserves. -/
def run_slot (rt : runtime) (cmd : _cl_command_node) (stack_cache : hsa_kernel_cache_t)
    (m : machine) : Nat :=
  packet_slot (run_resolve rt cmd stack_cache m).machine.d (run_index rt cmd stack_cache m)

/-- The reason the process stopped, if it did. -/
def outcome.stop? {α : Type} : outcome α → Option pocl_stop
  | .returned _ _ => none
  | .stopped _ e => some e

/-- A run got as far as publishing its packet: it returned, or it is blocked in the wait
on the completion signal. -/
def submitted {α : Type} (o : outcome α) : Bool :=
  match o with
  | .returned _ _ => true
  | .stopped _ .wait_never_returns => true
  | .stopped _ _ => false

/-- What an effect is, as far as the order of a dispatch is concerned. -/
inductive effect_kind
  | metadata
  | reserve
  | packet_field (slot : Nat)
  | signal_store
  | header
  | write_index
  | wait
  | destroy
  | other
  deriving DecidableEq, Repr

/-- Classification of the effects: the calls that build dispatch data, the reservation
of a queue index, a store into a non-header field of a packet slot, a store to a signal,
the release store of a packet header, the store of the queue's write index, the wait, a
destruction, and the calls of the compile step. -/
def effect.kind : effect → effect_kind
  | .hsa_executable_create => .metadata
  | .hsa_executable_load_code_object _ _ _ => .metadata
  | .hsa_executable_freeze _ => .metadata
  | .hsa_executable_get_symbol _ _ _ => .metadata
  | .hsa_executable_symbol_get_info _ _ => .metadata
  | .hsa_signal_create _ => .metadata
  | .hsa_memory_allocate _ _ => .metadata
  | .hsa_queue_load_write_index_relaxed => .reserve
  | .packet_store slot _ _ => .packet_field slot
  | .hsa_signal_store_relaxed _ _ => .signal_store
  | .header_store_release _ _ => .header
  | .hsa_queue_store_write_index_relaxed _ => .write_index
  | .hsa_signal_wait_acquire _ => .wait
  | .hsa_executable_destroy _ => .destroy
  | .hsa_signal_destroy _ => .destroy
  | .hsa_code_object_destroy _ => .destroy
  | .hsa_queue_destroy => .destroy
  | _ => .other

/-- The effects of filling the reserved packet before the arguments are marshalled;
`old_setup` is what the `setup` member of the slot held before. -/
def fill_effects (cmd : _cl_command_node) (data : hsa_kernel_cache_t) (slot old_setup : Nat) :
    List effect :=
  [ effect.packet_store slot .setup
      ((old_setup ||| ((cmd.run.pc.work_dim % 2 ^ 16) <<<
        HSA_KERNEL_DISPATCH_PACKET_SETUP_DIMENSIONS)) % 2 ^ 16),
    effect.packet_store slot .workgroup_size_x (cmd.run.local_x % 2 ^ 16),
    effect.packet_store slot .workgroup_size_y (cmd.run.local_y % 2 ^ 16),
    effect.packet_store slot .workgroup_size_z (cmd.run.local_z % 2 ^ 16),
    effect.packet_store slot .grid_size_z 1,
    effect.packet_store slot .grid_size_y 1,
    effect.packet_store slot .grid_size_x 1,
    effect.packet_store slot .grid_size_x (cmd.run.pc.num_groups 0 * cmd.run.local_x % 2 ^ 32),
    effect.packet_store slot .grid_size_y (cmd.run.pc.num_groups 1 * cmd.run.local_y % 2 ^ 32),
    effect.packet_store slot .grid_size_z (cmd.run.pc.num_groups 2 * cmd.run.local_z % 2 ^ 32),
    effect.packet_store slot .kernel_object data.code_handle,
    effect.packet_store slot .private_segment_size data.private_size,
    effect.hsa_signal_store_relaxed data.kernel_completion_signal 1,
    effect.packet_store slot .completion_signal data.kernel_completion_signal ]

/-- The three effects that publish a packet: the release store of the header, the store
of the write index, the doorbell. -/
def publish_effects (slot queue_index doorbell_signal : Nat) : List effect :=
  [ effect.header_store_release slot dispatch_header,
    effect.hsa_queue_store_write_index_relaxed (queue_index + 1),
    effect.hsa_signal_store_relaxed doorbell_signal queue_index ]

/-- The effects of releasing the dispatch data after the wait. -/
def release_effects (cached_data : cache_ref) (data : hsa_kernel_cache_t) : List effect :=
  if cached_data = .stack_cache then
    [effect.hsa_executable_destroy data.hsa_exe,
      effect.hsa_signal_destroy data.kernel_completion_signal]
  else []

/-- The packet after it has been filled, from the packet `old` the slot held before. -/
def filled_packet (cmd : _cl_command_node) (data : hsa_kernel_cache_t)
    (old : hsa_kernel_dispatch_packet_t) : hsa_kernel_dispatch_packet_t :=
  { header := old.header
    setup := (old.setup ||| ((cmd.run.pc.work_dim % 2 ^ 16) <<<
      HSA_KERNEL_DISPATCH_PACKET_SETUP_DIMENSIONS)) % 2 ^ 16
    workgroup_size_x := cmd.run.local_x % 2 ^ 16
    workgroup_size_y := cmd.run.local_y % 2 ^ 16
    workgroup_size_z := cmd.run.local_z % 2 ^ 16
    grid_size_x := cmd.run.pc.num_groups 0 * cmd.run.local_x % 2 ^ 32
    grid_size_y := cmd.run.pc.num_groups 1 * cmd.run.local_y % 2 ^ 32
    grid_size_z := cmd.run.pc.num_groups 2 * cmd.run.local_z % 2 ^ 32
    private_segment_size := data.private_size
    group_segment_size := old.group_segment_size
    kernel_object := data.code_handle
    kernarg_address := old.kernarg_address
    completion_signal := data.kernel_completion_signal }

/-- The executables destroyed in a sequence of effects, in order. -/
def destroyed_executables (tr : List effect) : List Nat :=
  tr.filterMap (fun e => match e with
    | .hsa_executable_destroy exe => some exe
    | _ => none)

/-- The signals destroyed in a sequence of effects, in order. -/
def destroyed_signals (tr : List effect) : List Nat :=
  tr.filterMap (fun e => match e with
    | .hsa_signal_destroy signal => some signal
    | _ => none)

/-- The value of one non-header field of a packet. -/
def hsa_kernel_dispatch_packet_t.get (p : hsa_kernel_dispatch_packet_t) :
    packet_field → Nat
  | .setup => p.setup
  | .workgroup_size_x => p.workgroup_size_x
  | .workgroup_size_y => p.workgroup_size_y
  | .workgroup_size_z => p.workgroup_size_z
  | .grid_size_x => p.grid_size_x
  | .grid_size_y => p.grid_size_y
  | .grid_size_z => p.grid_size_z
  | .private_segment_size => p.private_segment_size
  | .group_segment_size => p.group_segment_size
  | .kernel_object => p.kernel_object
  | .kernarg_address => p.kernarg_address
  | .completion_signal => p.completion_signal

/-- The outcome of marshalling the arguments in a run of `pocl_hsa_run`, when the
resolution returned. -/
def run_marshal (rt : runtime) (cmd : _cl_command_node) (stack_cache : hsa_kernel_cache_t)
    (m : machine) : args_state × Option pocl_stop :=
  setup_kernel_args cmd.device.dev_id (kernel_args cmd)
    (run_resolve rt cmd stack_cache m).machine.heap
    (run_metadata rt cmd stack_cache m).kernargs
    (run_metadata rt cmd stack_cache m).args_segment_size
    ((run_metadata rt cmd stack_cache m).static_group_size % 2 ^ 32)

/-! ## Notions used to state the properties of the teardown -/

/-- The destructions the teardown performs for the program slots `l`, in order: for each
slot with a program identity, the executable and the signal of each kernel entry with a
kernel identity, then the code object of the slot. -/
def uninit_effects (d : pocl_hsa_device_data) (l : List (Fin HSA_PROGRAM_CACHE_SIZE)) :
    List effect :=
  l.flatMap (fun j =>
    if (d.program_cache j).program ≠ 0 then
      (List.finRange HSA_KERNEL_CACHE_SIZE).flatMap (fun i =>
        if ((d.program_cache j).kernel_cache i).kernel ≠ 0 then
          [effect.hsa_executable_destroy ((d.program_cache j).kernel_cache i).hsa_exe,
            effect.hsa_signal_destroy
              ((d.program_cache j).kernel_cache i).kernel_completion_signal]
        else []) ++ [effect.hsa_code_object_destroy (d.program_cache j).code_object]
    else [])

/-- The kernel entries of a device that hold dispatch data, in the order of the slots
and entries: the entries that are not in their initial all-zero state. -/
def cached_entries (d : pocl_hsa_device_data) : List hsa_kernel_cache_t :=
  (List.finRange HSA_PROGRAM_CACHE_SIZE).flatMap (fun j =>
    ((List.finRange HSA_KERNEL_CACHE_SIZE).map (d.program_cache j).kernel_cache).filter
      (fun e => decide (e ≠ zero_kernel_entry)))

/-- The code objects held in the program cache, in the order of the slots: those of the
slots below `program_cache_lastptr`. -/
def cached_code_objects (d : pocl_hsa_device_data) : List Nat :=
  ((List.finRange HSA_PROGRAM_CACHE_SIZE).filter
    (fun j => decide (j.val < d.program_cache_lastptr))).map
    (fun j => (d.program_cache j).code_object)

/-- The code objects destroyed in a sequence of effects, in order. -/
def destroyed_code_objects (tr : List effect) : List Nat :=
  tr.filterMap (fun e => match e with
    | .hsa_code_object_destroy code_object => some code_object
    | _ => none)

/-- The states a device can be in when no dispatch is given the null code object handle:
the state `pocl_hsa_init` leaves, and every state a compile call or a dispatch call whose
code object handle is not 0 returns in, started in such a state; memory and packet slots
may change between calls. -/
inductive reachable_valid : machine → Prop
  | init (agent kernarg_region : Nat) (queue : hsa_queue_t) (heap : Nat → Nat)
      (packets : Nat → hsa_kernel_dispatch_packet_t) (trace : List effect) :
      reachable_valid
        { d := zero_device agent kernarg_region queue, heap := heap, packets := packets,
          trace := trace }
  | compile (cfg : toolchain_config) (rt : runtime) (cmd cmd1 : _cl_command_node)
      (m m1 : machine) :
      reachable_valid m →
      pocl_hsa_compile_submitted_kernels cfg rt cmd m = .returned m1 cmd1 →
      reachable_valid m1
  | run (rt : runtime) (cmd : _cl_command_node) (stack_cache : hsa_kernel_cache_t)
      (m m1 : machine) (r : run_locals) :
      reachable_valid m → cmd.run.device_data ≠ some 0 →
      pocl_hsa_run rt cmd stack_cache m = .returned m1 r → reachable_valid m1
  | memory (m : machine) (heap : Nat → Nat) (packets : Nat → hsa_kernel_dispatch_packet_t) :
      reachable_valid m → reachable_valid { m with heap := heap, packets := packets }

/-- The caches of a device are consistent: the program slots below
`program_cache_lastptr` are the ones with a program identity, a slot without a program
identity has the all-zero code object, a kernel entry that is not all-zero has a kernel
identity and lies in a slot with a program identity, and the kernel entries of a slot
from its `kernel_cache_lastptr` on are all-zero. -/
def cache_consistent (d : pocl_hsa_device_data) : Prop :=
  (∀ j : Fin HSA_PROGRAM_CACHE_SIZE,
    j.val < d.program_cache_lastptr ↔ (d.program_cache j).program ≠ 0) ∧
  (∀ j, (d.program_cache j).program = 0 → (d.program_cache j).code_object = 0) ∧
  (∀ j i, (d.program_cache j).kernel_cache i ≠ zero_kernel_entry →
    ((d.program_cache j).kernel_cache i).kernel ≠ 0 ∧ (d.program_cache j).program ≠ 0) ∧
  (∀ j (i : Fin HSA_KERNEL_CACHE_SIZE), (d.program_cache j).kernel_cache_lastptr ≤ i.val →
    (d.program_cache j).kernel_cache i = zero_kernel_entry)

/-! ## Concrete inputs used to exercise the theorems -/

/-- A by-value `int32` argument holding 7. -/
def ex_scalar7 : kernel_arg :=
  { info := { type := .POCL_ARG_TYPE_NONE, is_local := false }
    al := { size := 4, value := .bytes [7, 0, 0, 0] } }

/-- A pointer argument whose buffer lives at device address `0x1000` on device 0. -/
def ex_pointer : kernel_arg :=
  { info := { type := .POCL_ARG_TYPE_POINTER, is_local := false }
    al := { size := 8, value := .mem { device_ptrs := [0x1000] } } }

/-- A pointer argument set to `NULL`. -/
def ex_null_pointer : kernel_arg :=
  { info := { type := .POCL_ARG_TYPE_POINTER, is_local := false }
    al := { size := 8, value := .null } }

/-- A local-memory argument of 256 bytes. -/
def ex_local256 : kernel_arg :=
  { info := { type := .POCL_ARG_TYPE_POINTER, is_local := true }
    al := { size := 256, value := .null } }

/-- A local-memory argument of `2 ^ 31` bytes. -/
def ex_local_huge : kernel_arg :=
  { info := { type := .POCL_ARG_TYPE_POINTER, is_local := true }
    al := { size := 2147483648, value := .null } }

/-- A by-value argument of declared size `2 ^ 64 - 32` whose host copy has 4 bytes. -/
def ex_scalar_huge : kernel_arg :=
  { info := { type := .POCL_ARG_TYPE_NONE, is_local := false }
    al := { size := 18446744073709551584, value := .bytes [7, 0, 0, 0] } }

/-- An image argument. -/
def ex_image : kernel_arg :=
  { info := { type := .POCL_ARG_TYPE_IMAGE, is_local := false }
    al := { size := 8, value := .null } }

/-- Memory filled with the byte `0xAA`. -/
def ex_heap : Nat → Nat := fun _ => 0xAA

/-- A runtime in which every call succeeds: the BRIG file exists, the tools exit with 0,
the kernel symbol is a kernel with 16 bytes of static group memory and a 64-byte
argument segment, the queue's write index is 0, every wait returns, and every other
handle or address handed out is fresh (a multiple of 4096 that grows with the number of
effects so far). -/
def ex_runtime : runtime :=
  { reply := fun tr c =>
      match c with
      | .hsa_executable_symbol_get_info _ .HSA_EXECUTABLE_SYMBOL_INFO_TYPE =>
        ⟨0, HSA_SYMBOL_KIND_KERNEL⟩
      | .hsa_executable_symbol_get_info _
          .HSA_EXECUTABLE_SYMBOL_INFO_KERNEL_GROUP_SEGMENT_SIZE => ⟨0, 16⟩
      | .hsa_executable_symbol_get_info _
          .HSA_EXECUTABLE_SYMBOL_INFO_KERNEL_PRIVATE_SEGMENT_SIZE => ⟨0, 0⟩
      | .hsa_executable_symbol_get_info _
          .HSA_EXECUTABLE_SYMBOL_INFO_KERNEL_KERNARG_SEGMENT_SIZE => ⟨0, 64⟩
      | .pocl_exists _ => ⟨0, 1⟩
      | .system _ => ⟨0, 0⟩
      | .hsa_queue_load_write_index_relaxed => ⟨0, 0⟩
      | _ => ⟨0, 4096 * (tr.length + 1)⟩
    completes := fun _ _ => true }

/-- A packet of all zero bytes. -/
def zero_packet : hsa_kernel_dispatch_packet_t :=
  { header := 0, setup := 0, workgroup_size_x := 0, workgroup_size_y := 0,
    workgroup_size_z := 0, grid_size_x := 0, grid_size_y := 0, grid_size_z := 0,
    private_segment_size := 0, group_segment_size := 0, kernel_object := 0,
    kernarg_address := 0, completion_signal := 0 }

/-- A freshly initialised device with a queue of 4 packets. -/
def ex_machine : machine :=
  { d := zero_device 1 2 { size := 4, doorbell_signal := 9 }
    heap := ex_heap
    packets := fun _ => zero_packet
    trace := [] }

/-- A configuration of the tool names and the file name convention. -/
def ex_config : toolchain_config :=
  { POCL_FILENAME_LENGTH := 1024, POCL_PARALLEL_BC_FILENAME := "/parallel.bc",
    LLC := "llc", HSAIL_ASM := "HSAILasm" }

/-- A one-dimensional dispatch of kernel 7 of program 3, with the given arguments;
`device_data` holds the code object 24576 that the compile step leaves for program 3 on
`ex_machine` under `ex_runtime`. -/
def ex_command (args : List kernel_arg) : _cl_command_node :=
  { type := .CL_COMMAND_NDRANGE_KERNEL
    device := { dev_id := 0, local_mem_size := 65536 }
    run :=
      { kernel := { addr := 7, name := "k", program := 3, arg_info := args.map kernel_arg.info }
        arguments := args.map kernel_arg.al
        local_x := 64, local_y := 1, local_z := 1
        pc := { work_dim := 1, num_groups := fun _ => 1 }
        tmp_dir := "/tmp"
        device_data := some 24576 } }

/-- The state after the compile step for program 3 on the freshly initialised device:
program slot 0 holds program 3 with its code object. -/
def ex_compiled_machine : machine :=
  (pocl_hsa_compile_submitted_kernels ex_config ex_runtime (ex_command []) ex_machine).machine

/-- Kernel 7 of program 3, named `k`, without arguments. -/
def ex_kernel : _cl_kernel :=
  { addr := 7, name := "k", program := 3, arg_info := [] }

/-- A device in which program slots 0 and 1 hold the same code object 5; slot 0 has no
kernel entry in use, slot 1 holds the dispatch data of kernel 7 in its entry 0. -/
def ex_shared_device : pocl_hsa_device_data :=
  { zero_device 1 2 { size := 4, doorbell_signal := 9 } with
    program_cache := fun i =>
      if i = 0 then { zero_program_slot with program := 3, code_object := 5 }
      else if i = 1 then
        { program := 4, code_object := 5
          kernel_cache := fun j =>
            if j = 0 then
              { zero_kernel_entry with kernel := 7, code_handle := 77, kernargs := 8192 }
            else zero_kernel_entry
          kernel_cache_lastptr := 1 }
      else zero_program_slot
    program_cache_lastptr := 2 }

/-- The device `ex_shared_device` with slot 0 cleared: slot 1 is the only slot with code
object 5, and it holds the dispatch data of kernel 7. -/
def ex_cached_device : pocl_hsa_device_data :=
  { ex_shared_device with
    program_cache := Function.update ex_shared_device.program_cache 0 zero_program_slot }

/-- The device `ex_shared_device` with slot 1 cleared: slot 0 is the only slot with code
object 5, and no kernel entry of it is in use. -/
def ex_uncached_device : pocl_hsa_device_data :=
  { ex_shared_device with
    program_cache := Function.update ex_shared_device.program_cache 1 zero_program_slot }

/-- A device whose 32 program slots are all taken, by the programs 100 to 131 with the
code objects 200 to 231. -/
def ex_full_device : pocl_hsa_device_data :=
  { zero_device 1 2 { size := 4, doorbell_signal := 9 } with
    program_cache := fun i =>
      { zero_program_slot with program := 100 + i.val, code_object := 200 + i.val }
    program_cache_lastptr := 32 }

/-- A device whose program slot 0 holds code object 5 and has all its 64 kernel entries
taken, by the kernels 100 to 163. -/
def ex_saturated_device : pocl_hsa_device_data :=
  { zero_device 1 2 { size := 4, doorbell_signal := 9 } with
    program_cache := fun i =>
      if i = 0 then
        { program := 3, code_object := 5
          kernel_cache := fun j => { zero_kernel_entry with kernel := 100 + j.val }
          kernel_cache_lastptr := 64 }
      else zero_program_slot
    program_cache_lastptr := 1 }

/-- The dispatch `ex_command []` over `2 ^ 26` groups of 64 work-items on the first
axis, `2 ^ 32` work-items in all. -/
def ex_wide_command : _cl_command_node :=
  { (ex_command []) with
    run := { (ex_command []).run with
      pc := { work_dim := 1, num_groups := fun i => if i = 0 then 67108864 else 1 } } }

/-- The dispatch `ex_command []` as a two-dimensional dispatch. -/
def ex_command_2d : _cl_command_node :=
  { (ex_command []) with
    run := { (ex_command []).run with pc := { work_dim := 2, num_groups := fun _ => 1 } } }

/-- The runtime `ex_runtime` at a later time: the queue's write index is `index`. -/
def ex_runtime_at (index : Nat) : runtime :=
  { ex_runtime with
    reply := fun tr c =>
      match c with
      | .hsa_queue_load_write_index_relaxed => ⟨0, index⟩
      | _ => ex_runtime.reply tr c }

/-- The state after the compile step and a two-dimensional dispatch of kernel 7 with
write index 0: slot 0 of the queue holds the packet of that dispatch. -/
def ex_used_machine : machine :=
  (pocl_hsa_run ex_runtime ex_command_2d zero_kernel_entry ex_compiled_machine).machine

/-- A runtime like `ex_runtime` in which the BRIG file does not exist and both tools exit
with status 0. -/
def ex_runtime_compiles : runtime :=
  { ex_runtime with
    reply := fun tr c =>
      match c with
      | .pocl_exists _ => ⟨0, 0⟩
      | _ => ex_runtime.reply tr c }

/-- A runtime like `ex_runtime` in which the BRIG file does not exist and the lowering
step exits with status 1, so that `system` returns the wait status 256. -/
def ex_runtime_llc_fails : runtime :=
  { ex_runtime with
    reply := fun tr c =>
      match c with
      | .pocl_exists _ => ⟨0, 0⟩
      | .system _ => ⟨0, 256⟩
      | _ => ex_runtime.reply tr c }

/-- The command `ex_command []` for kernel 7 of program `program`. -/
def ex_command_of (program : Nat) : _cl_command_node :=
  { (ex_command []) with
    run := { (ex_command []).run with kernel := { ex_kernel with program := program } } }

/-- The state after compile calls for the programs 1 to `n`, in this order, on the freshly
initialised device under `ex_runtime`. -/
def ex_filled : Nat → machine
  | 0 => ex_machine
  | n + 1 =>
    (pocl_hsa_compile_submitted_kernels ex_config ex_runtime (ex_command_of (n + 1))
      (ex_filled n)).machine

/-- The dispatch `ex_command []` with the null code object handle. -/
def ex_null_command : _cl_command_node :=
  { (ex_command []) with run := { (ex_command []).run with device_data := some 0 } }

/-- The state after a dispatch of kernel 7 with the null code object handle on the freshly
initialised device. -/
def ex_leaked_machine : machine :=
  (pocl_hsa_run ex_runtime ex_null_command zero_kernel_entry ex_machine).machine

/-! # Proofs -/

/-! ## Lemmas on bytes and memory -/

theorem le_bytes_length (n v : Nat) : (le_bytes n v).length = n := by
  simp [le_bytes]

theorem le_bytes_zero : le_bytes 8 0 = [0, 0, 0, 0, 0, 0, 0, 0] := by
  decide

theorem le_bytes_getD (n v k : Nat) (h : k < n) :
    (le_bytes n v).getD k 0 = v / 256 ^ k % 256 := by
  simp [le_bytes, List.getD_eq_getElem?_getD, h]

theorem memcpy_nil (heap : Nat → Nat) (p : Nat) : memcpy heap p [] = heap := by
  funext k
  simp [memcpy]

theorem memcpy_append (heap : Nat → Nat) (p : Nat) (xs ys : List Nat) :
    memcpy (memcpy heap p xs) (p + xs.length) ys = memcpy heap p (xs ++ ys) := by
  funext k
  simp only [memcpy, List.length_append]
  by_cases h1 : p + xs.length ≤ k ∧ k < p + xs.length + ys.length
  · have h2 : p ≤ k ∧ k < p + (xs.length + ys.length) := by omega
    rw [if_pos h1, if_pos h2]
    have h3 : xs.length ≤ k - p := by omega
    rw [List.getD_append_right _ _ _ _ h3]
    congr 1
    omega
  · rw [if_neg h1]
    by_cases h2 : p ≤ k ∧ k < p + xs.length
    · have h3 : p ≤ k ∧ k < p + (xs.length + ys.length) := by omega
      rw [if_pos h2, if_pos h3]
      have h4 : k - p < xs.length := by omega
      rw [List.getD_append _ _ _ _ h4]
    · have h3 : ¬ (p ≤ k ∧ k < p + (xs.length + ys.length)) := by omega
      rw [if_neg h2, if_neg h3]

theorem memcpy_outside (heap : Nat → Nat) (p : Nat) (xs : List Nat) (k : Nat)
    (h : ¬ (p ≤ k ∧ k < p + xs.length)) : memcpy heap p xs k = heap k := by
  simp only [memcpy]
  rw [if_neg h]

theorem memcpy_inside (heap : Nat → Nat) (p : Nat) (xs : List Nat) (k : Nat)
    (h : k < xs.length) : memcpy heap p xs (p + k) = xs.getD k 0 := by
  simp only [memcpy]
  have h1 : p ≤ p + k ∧ p + k < p + xs.length := by omega
  rw [if_pos h1]
  congr 1
  omega

/-! ## Lemmas on the marshaller -/

theorem encode_arg_length (dev_id counter : Nat) (a : kernel_arg)
    (hm : marshallable a = true) (hw : well_formed dev_id a = true) :
    (encode_arg dev_id counter a).length = encoded_size a := by
  rcases a with ⟨⟨ty, loc⟩, ⟨sz, v⟩⟩
  cases loc <;> cases ty <;> cases v <;>
    simp_all [encode_arg, encoded_size, kind_of, marshallable, well_formed, le_bytes_length]

theorem CHECK_SPACE_of_fits (write_pos DSIZE last_pos : Nat)
    (h : write_pos + DSIZE ≤ last_pos) : CHECK_SPACE write_pos DSIZE last_pos = false := by
  have := Nat.mod_le (write_pos + DSIZE) (2 ^ 64)
  simp only [CHECK_SPACE, gt_iff_lt, decide_eq_false_iff_not, not_lt]
  omega

/-- Where the pointer sum does not wrap, the macro aborts exactly when the copy does not
fit. -/
theorem CHECK_SPACE_of_bounded (write_pos DSIZE last_pos : Nat)
    (h : write_pos + DSIZE < 2 ^ 64) :
    CHECK_SPACE write_pos DSIZE last_pos = decide (last_pos < write_pos + DSIZE) := by
  simp only [CHECK_SPACE, Nat.mod_eq_of_lt h, gt_iff_lt]

theorem setup_kernel_arg_pass (dev_id last_pos i : Nat) (a : kernel_arg) (st : args_state)
    (hm : marshallable a = true) (hw : well_formed dev_id a = true)
    (hpass : CHECK_SPACE st.write_pos (encoded_size a) last_pos = false) :
    setup_kernel_arg dev_id last_pos i a st = (arg_step dev_id i st a, none) := by
  rcases a with ⟨⟨ty, loc⟩, ⟨sz, v⟩⟩
  cases loc <;> cases ty <;> cases v <;>
    simp_all [setup_kernel_arg, arg_step, encode_arg, encoded_size, kind_of, marshallable,
      well_formed, write_arg, counter_after, le_bytes_length]

theorem setup_kernel_arg_ok (dev_id last_pos i : Nat) (a : kernel_arg) (st : args_state)
    (hm : marshallable a = true) (hw : well_formed dev_id a = true)
    (hfit : st.write_pos + encoded_size a ≤ last_pos) :
    setup_kernel_arg dev_id last_pos i a st = (arg_step dev_id i st a, none) :=
  setup_kernel_arg_pass dev_id last_pos i a st hm hw (CHECK_SPACE_of_fits _ _ _ hfit)

theorem setup_kernel_arg_overflow (dev_id last_pos i : Nat) (a : kernel_arg)
    (st : args_state) (hm : marshallable a = true)
    (hstop : CHECK_SPACE st.write_pos (encoded_size a) last_pos = true) :
    setup_kernel_arg dev_id last_pos i a st =
      (st, some (.POCL_ABORT .too_many_kernel_arguments)) := by
  rcases a with ⟨⟨ty, loc⟩, ⟨sz, v⟩⟩
  cases loc <;> cases ty <;> cases v <;>
    simp_all [setup_kernel_arg, encoded_size, kind_of, marshallable]

theorem setup_kernel_arg_unimplemented (dev_id last_pos i : Nat) (a : kernel_arg)
    (st : args_state) (hm : marshallable a = false) :
    ∃ m, setup_kernel_arg dev_id last_pos i a st =
      (st, some (.POCL_ABORT_UNIMPLEMENTED m)) := by
  rcases a with ⟨⟨ty, loc⟩, ⟨sz, v⟩⟩
  cases loc <;> cases ty <;> cases v <;>
    simp_all [setup_kernel_arg, kind_of, marshallable]

theorem setup_kernel_arg_undefined (dev_id last_pos i : Nat) (a : kernel_arg)
    (st : args_state) (hm : marshallable a = true)
    (hpass : CHECK_SPACE st.write_pos (encoded_size a) last_pos = false)
    (hw : well_formed dev_id a = false) :
    ∃ st1, setup_kernel_arg dev_id last_pos i a st = (st1, some .undefined_behaviour) ∧
      st1.heap = st.heap ∧ st1.writes = st.writes ∧ st1.write_pos = st.write_pos := by
  rcases a with ⟨⟨ty, loc⟩, ⟨sz, v⟩⟩
  cases loc <;> cases ty <;> cases v <;>
    simp_all [setup_kernel_arg, encoded_size, kind_of, marshallable, well_formed]
  all_goals first
    | exact ⟨st, rfl, rfl, rfl, rfl⟩
    | (rw [if_neg (Nat.not_le.mpr hw)]; exact ⟨st, rfl, rfl, rfl, rfl⟩)
    | (rw [List.getElem?_eq_none hw]; exact ⟨_, rfl, rfl, rfl, rfl⟩)

/-- Every outcome of one iteration: the check passes and the argument is marshalled, or
the iteration stops having written nothing, for one of three reasons. -/
theorem setup_kernel_arg_cases (dev_id last_pos i : Nat) (a : kernel_arg)
    (st : args_state) :
    (marshallable a = true ∧ well_formed dev_id a = true ∧
        CHECK_SPACE st.write_pos (encoded_size a) last_pos = false ∧
        setup_kernel_arg dev_id last_pos i a st = (arg_step dev_id i st a, none)) ∨
    (∃ st1 e, setup_kernel_arg dev_id last_pos i a st = (st1, some e) ∧
        st1.heap = st.heap ∧ st1.writes = st.writes ∧ st1.write_pos = st.write_pos ∧
        ((e = .POCL_ABORT .too_many_kernel_arguments ∧ marshallable a = true ∧
            CHECK_SPACE st.write_pos (encoded_size a) last_pos = true) ∨
          ((∃ m, e = .POCL_ABORT_UNIMPLEMENTED m) ∧ marshallable a = false) ∨
          (e = .undefined_behaviour ∧ marshallable a = true ∧
            CHECK_SPACE st.write_pos (encoded_size a) last_pos = false ∧
            well_formed dev_id a = false))) := by
  by_cases hm : marshallable a = true
  · by_cases hpass : CHECK_SPACE st.write_pos (encoded_size a) last_pos = false
    · by_cases hw : well_formed dev_id a = true
      · exact Or.inl ⟨hm, hw, hpass, setup_kernel_arg_pass dev_id last_pos i a st hm hw hpass⟩
      · have hw1 : well_formed dev_id a = false := by simpa using hw
        obtain ⟨st1, h1, h2, h3, h4⟩ :=
          setup_kernel_arg_undefined dev_id last_pos i a st hm hpass hw1
        exact Or.inr ⟨st1, _, h1, h2, h3, h4, Or.inr (Or.inr ⟨rfl, hm, hpass, hw1⟩)⟩
    · have hstop : CHECK_SPACE st.write_pos (encoded_size a) last_pos = true := by
        simpa using hpass
      exact Or.inr ⟨st, _, setup_kernel_arg_overflow dev_id last_pos i a st hm hstop,
        rfl, rfl, rfl, Or.inl ⟨rfl, hm, hstop⟩⟩
  · have hm1 : marshallable a = false := by simpa using hm
    obtain ⟨m, h1⟩ := setup_kernel_arg_unimplemented dev_id last_pos i a st hm1
    exact Or.inr ⟨st, _, h1, rfl, rfl, rfl, Or.inr (Or.inl ⟨⟨m, rfl⟩, hm1⟩)⟩

/-- The outcomes of one iteration where the pointer sum of its check does not wrap: the
argument fits and is marshalled, or the iteration stops having written nothing; it stops
with the capacity abort exactly when the argument does not fit. -/
theorem setup_kernel_arg_cases_bounded (dev_id last_pos i : Nat) (a : kernel_arg)
    (st : args_state) (hbound : st.write_pos + encoded_size a < 2 ^ 64) :
    (marshallable a = true ∧ well_formed dev_id a = true ∧
        st.write_pos + encoded_size a ≤ last_pos ∧
        setup_kernel_arg dev_id last_pos i a st = (arg_step dev_id i st a, none)) ∨
    (∃ st1 e, setup_kernel_arg dev_id last_pos i a st = (st1, some e) ∧
        st1.heap = st.heap ∧ st1.writes = st.writes ∧ st1.write_pos = st.write_pos ∧
        ((e = .POCL_ABORT .too_many_kernel_arguments ∧ marshallable a = true ∧
            ¬ st.write_pos + encoded_size a ≤ last_pos) ∨
          ((∃ m, e = .POCL_ABORT_UNIMPLEMENTED m) ∧ marshallable a = false) ∨
          (e = .undefined_behaviour ∧ marshallable a = true ∧
            st.write_pos + encoded_size a ≤ last_pos ∧ well_formed dev_id a = false))) := by
  have hcheck := CHECK_SPACE_of_bounded st.write_pos (encoded_size a) last_pos hbound
  rcases setup_kernel_arg_cases dev_id last_pos i a st with
    ⟨hm, hw, hpass, hstep⟩ | ⟨st1, e, hstep, hh, hwr, hwp, hreason⟩
  · rw [hcheck, decide_eq_false_iff_not, Nat.not_lt] at hpass
    exact Or.inl ⟨hm, hw, hpass, hstep⟩
  · refine Or.inr ⟨st1, e, hstep, hh, hwr, hwp, ?_⟩
    rcases hreason with ⟨he, hm, hstop⟩ | h | ⟨he, hm, hpass, hw⟩
    · rw [hcheck, decide_eq_true_eq] at hstop
      exact Or.inl ⟨he, hm, Nat.not_le.mpr hstop⟩
    · exact Or.inr (Or.inl h)
    · rw [hcheck, decide_eq_false_iff_not, Nat.not_lt] at hpass
      exact Or.inr (Or.inr ⟨he, hm, hpass, hw⟩)

theorem args_size_cons (a : kernel_arg) (rest : List kernel_arg) :
    args_size (a :: rest) = encoded_size a + args_size rest := by
  simp [args_size]

theorem args_size_append (xs ys : List kernel_arg) :
    args_size (xs ++ ys) = args_size xs + args_size ys := by
  simp [args_size]

theorem marshalled_nil (dev_id i : Nat) (st : args_state) :
    marshalled dev_id i st [] = st := by
  cases st
  simp [marshalled, encode_args, memcpy_nil, args_size, counter_after_all, layout,
    deref_indices]

theorem marshalled_cons (dev_id i : Nat) (st : args_state) (a : kernel_arg)
    (rest : List kernel_arg) (hm : marshallable a = true)
    (hw : well_formed dev_id a = true) :
    marshalled dev_id (i + 1) (arg_step dev_id i st a) rest =
      marshalled dev_id i st (a :: rest) := by
  have hlen := encode_arg_length dev_id st.total_group_size a hm hw
  simp only [marshalled, arg_step, encode_args, args_size_cons, counter_after_all,
    List.foldl_cons, layout, deref_indices]
  rw [← hlen, memcpy_append, hlen]
  congr 1
  · omega
  · simp
  · split <;> simp

theorem setup_kernel_args_loop_cons_ok (dev_id last_pos i : Nat) (a : kernel_arg)
    (rest : List kernel_arg) (st st1 : args_state)
    (h : setup_kernel_arg dev_id last_pos i a st = (st1, none)) :
    setup_kernel_args_loop dev_id last_pos (a :: rest) i st =
      setup_kernel_args_loop dev_id last_pos rest (i + 1) st1 := by
  simp only [setup_kernel_args_loop, h]

theorem setup_kernel_args_loop_cons_stop (dev_id last_pos i : Nat) (a : kernel_arg)
    (rest : List kernel_arg) (st st1 : args_state) (e : pocl_stop)
    (h : setup_kernel_arg dev_id last_pos i a st = (st1, some e)) :
    setup_kernel_args_loop dev_id last_pos (a :: rest) i st = (st1, some e) := by
  simp only [setup_kernel_args_loop, h]

/-- Marshalling a prefix of well-formed, fitting scalar / pointer / local arguments
brings the loop to the specified state at the first argument after the prefix. -/
theorem setup_kernel_args_loop_append (dev_id last_pos : Nat) (pre rest : List kernel_arg) :
    ∀ (i : Nat) (st : args_state),
      (∀ a ∈ pre, marshallable a = true ∧ well_formed dev_id a = true) →
      st.write_pos + args_size pre ≤ last_pos →
      setup_kernel_args_loop dev_id last_pos (pre ++ rest) i st =
        setup_kernel_args_loop dev_id last_pos rest (i + pre.length)
          (marshalled dev_id i st pre) := by
  induction pre with
  | nil =>
    intro i st _ _
    simp [marshalled_nil]
  | cons a pre ih =>
    intro i st hall hfit
    have ha := hall a (List.mem_cons_self _ _)
    rw [args_size_cons] at hfit
    have hstep := setup_kernel_arg_ok dev_id last_pos i a st ha.1 ha.2 (by omega)
    have hrest : ∀ b ∈ pre, marshallable b = true ∧ well_formed dev_id b = true :=
      fun b hb => hall b (List.mem_cons_of_mem _ hb)
    have hfit1 : (arg_step dev_id i st a).write_pos + args_size pre ≤ last_pos := by
      simp only [arg_step]
      omega
    rw [List.cons_append, setup_kernel_args_loop_cons_ok _ _ _ _ _ _ _ hstep,
      ih (i + 1) (arg_step dev_id i st a) hrest hfit1, marshalled_cons _ _ _ _ _ ha.1 ha.2]
    congr 1
    simp
    omega

theorem setup_kernel_args_loop_ok (dev_id last_pos : Nat) (args : List kernel_arg)
    (i : Nat) (st : args_state)
    (hall : ∀ a ∈ args, marshallable a = true ∧ well_formed dev_id a = true)
    (hfit : st.write_pos + args_size args ≤ last_pos) :
    setup_kernel_args_loop dev_id last_pos args i st = (marshalled dev_id i st args, none) := by
  have h := setup_kernel_args_loop_append dev_id last_pos args [] i st hall hfit
  simpa [setup_kernel_args_loop] using h

/-- What the loop has done when it ends, where no pointer sum of a check wraps: it has
marshalled a prefix `pre` of the arguments, which fits; either that is all of them and it
succeeded, or it stopped at the next argument without writing anything for it. -/
theorem setup_kernel_args_loop_cases (dev_id last_pos : Nat) (args : List kernel_arg) :
    ∀ (i : Nat) (st : args_state), st.write_pos ≤ last_pos →
      st.write_pos + args_size args < 2 ^ 64 →
      ∃ pre post, args = pre ++ post ∧
        (∀ a ∈ pre, marshallable a = true ∧ well_formed dev_id a = true) ∧
        st.write_pos + args_size pre ≤ last_pos ∧
        (setup_kernel_args_loop dev_id last_pos args i st).1.heap =
          (marshalled dev_id i st pre).heap ∧
        (setup_kernel_args_loop dev_id last_pos args i st).1.writes =
          (marshalled dev_id i st pre).writes ∧
        ((post = [] ∧ setup_kernel_args_loop dev_id last_pos args i st =
            (marshalled dev_id i st pre, none)) ∨
          (∃ a post1 e, post = a :: post1 ∧
            (setup_kernel_args_loop dev_id last_pos args i st).2 = some e ∧
            ((e = .POCL_ABORT .too_many_kernel_arguments ∧ marshallable a = true ∧
                ¬ st.write_pos + args_size pre + encoded_size a ≤ last_pos) ∨
              ((∃ m, e = .POCL_ABORT_UNIMPLEMENTED m) ∧ marshallable a = false) ∨
              (e = .undefined_behaviour ∧ marshallable a = true ∧
                st.write_pos + args_size pre + encoded_size a ≤ last_pos ∧
                well_formed dev_id a = false)))) := by
  induction args with
  | nil =>
    intro i st hpos0 _
    refine ⟨[], [], rfl, by simp, by simpa [args_size] using hpos0, ?_, ?_, Or.inl ⟨rfl, ?_⟩⟩ <;>
      simp [setup_kernel_args_loop, marshalled_nil]
  | cons a rest ih =>
    intro i st hpos0 hbound
    rw [args_size_cons] at hbound
    rcases setup_kernel_arg_cases_bounded dev_id last_pos i a st (by omega) with
      ⟨hm, hw, hfit, hstep⟩ | ⟨st1, e, hstep, hh, hwr, hwp, hreason⟩
    · have hpos : (arg_step dev_id i st a).write_pos = st.write_pos + encoded_size a := rfl
      obtain ⟨pre, post, hsplit, hall, hfit1, hheap, hwrites, hend⟩ :=
        ih (i + 1) (arg_step dev_id i st a) (by rw [hpos]; exact hfit)
          (by rw [hpos]; omega)
      have hloop := setup_kernel_args_loop_cons_ok dev_id last_pos i a rest st _ hstep
      refine ⟨a :: pre, post, by simp [hsplit], ?_, ?_, ?_, ?_, ?_⟩
      · intro b hb
        rcases List.mem_cons.mp hb with h | h
        · exact h ▸ ⟨hm, hw⟩
        · exact hall b h
      · rw [args_size_cons]
        omega
      · rw [hloop, hheap, marshalled_cons _ _ _ _ _ hm hw]
      · rw [hloop, hwrites, marshalled_cons _ _ _ _ _ hm hw]
      · rcases hend with ⟨hnil, hres⟩ | ⟨b, post1, e, hpost, hres, hreason⟩
        · exact Or.inl ⟨hnil, by rw [hloop, hres, marshalled_cons _ _ _ _ _ hm hw]⟩
        · refine Or.inr ⟨b, post1, e, hpost, by rw [hloop, hres], ?_⟩
          rw [args_size_cons]
          rw [hpos] at hreason
          simpa [Nat.add_assoc] using hreason
    · have hloop := setup_kernel_args_loop_cons_stop dev_id last_pos i a rest st _ e hstep
      refine ⟨[], a :: rest, rfl, by simp, by simpa [args_size] using hpos0, ?_, ?_, Or.inr ?_⟩
      · rw [hloop, marshalled_nil]
        exact hh
      · rw [hloop, marshalled_nil]
        exact hwr
      · refine ⟨a, rest, e, rfl, by rw [hloop], ?_⟩
        simpa [args_size] using hreason

/-- The loop succeeds only on well-formed scalar, pointer and local arguments, and then
ends in the specified state. -/
theorem setup_kernel_args_loop_none (dev_id last_pos : Nat) (args : List kernel_arg) :
    ∀ (i : Nat) (st : args_state),
      (setup_kernel_args_loop dev_id last_pos args i st).2 = none →
      (∀ a ∈ args, marshallable a = true ∧ well_formed dev_id a = true) ∧
      setup_kernel_args_loop dev_id last_pos args i st =
        (marshalled dev_id i st args, none) := by
  induction args with
  | nil =>
    intro i st _
    exact ⟨by simp, by simp [setup_kernel_args_loop, marshalled_nil]⟩
  | cons a rest ih =>
    intro i st hok
    rcases setup_kernel_arg_cases dev_id last_pos i a st with
      ⟨hm, hw, _, hstep⟩ | ⟨st1, e, hstep, _⟩
    · have hloop := setup_kernel_args_loop_cons_ok dev_id last_pos i a rest st _ hstep
      rw [hloop] at hok ⊢
      obtain ⟨hall, hres⟩ := ih (i + 1) (arg_step dev_id i st a) hok
      refine ⟨fun b hb => ?_, by rw [hres, marshalled_cons _ _ _ _ _ hm hw]⟩
      rcases List.mem_cons.mp hb with h | h
      · exact h ▸ ⟨hm, hw⟩
      · exact hall b h
    · rw [setup_kernel_args_loop_cons_stop dev_id last_pos i a rest st _ e hstep] at hok
      cases hok

/-- The reasons the loop can stop with. -/
theorem setup_kernel_args_loop_stop (dev_id last_pos : Nat) (args : List kernel_arg) :
    ∀ (i : Nat) (st : args_state) (e : pocl_stop),
      (setup_kernel_args_loop dev_id last_pos args i st).2 = some e →
      e = .POCL_ABORT .too_many_kernel_arguments ∨
        (∃ msg, e = .POCL_ABORT_UNIMPLEMENTED msg) ∨ e = .undefined_behaviour := by
  induction args with
  | nil =>
    intro i st e h
    simp [setup_kernel_args_loop] at h
  | cons a rest ih =>
    intro i st e h
    rcases setup_kernel_arg_cases dev_id last_pos i a st with
      ⟨_, _, _, hstep⟩ | ⟨st1, e1, hstep, _, _, _, hreason⟩
    · rw [setup_kernel_args_loop_cons_ok dev_id last_pos i a rest st _ hstep] at h
      exact ih _ _ e h
    · rw [setup_kernel_args_loop_cons_stop dev_id last_pos i a rest st _ e1 hstep] at h
      simp only [Option.some.injEq] at h
      subst h
      rcases hreason with ⟨h1, _⟩ | ⟨h1, _⟩ | ⟨h1, _⟩
      · exact Or.inl h1
      · exact Or.inr (Or.inl h1)
      · exact Or.inr (Or.inr h1)

theorem encode_args_length (dev_id : Nat) (args : List kernel_arg) :
    ∀ counter : Nat, (∀ a ∈ args, marshallable a = true ∧ well_formed dev_id a = true) →
      (encode_args dev_id counter args).length = args_size args := by
  induction args with
  | nil => intro _ _; simp [encode_args, args_size]
  | cons a rest ih =>
    intro counter hall
    have ha := hall a (List.mem_cons_self _ _)
    rw [encode_args, List.length_append, args_size_cons,
      encode_arg_length dev_id counter a ha.1 ha.2,
      ih _ (fun b hb => hall b (List.mem_cons_of_mem _ hb))]

theorem counter_after_all_append (counter : Nat) (xs ys : List kernel_arg) :
    counter_after_all counter (xs ++ ys) =
      counter_after_all (counter_after_all counter xs) ys := by
  simp [counter_after_all]

theorem encode_args_append (dev_id : Nat) (xs ys : List kernel_arg) :
    ∀ counter : Nat, encode_args dev_id counter (xs ++ ys) =
      encode_args dev_id counter xs ++
        encode_args dev_id (counter_after_all counter xs) ys := by
  induction xs with
  | nil => intro _; simp [encode_args, counter_after_all]
  | cons a rest ih =>
    intro counter
    simp [encode_args, counter_after_all, ih]

theorem layout_append (xs ys : List kernel_arg) :
    ∀ pos : Nat, layout pos (xs ++ ys) = layout pos xs ++ layout (pos + args_size xs) ys := by
  induction xs with
  | nil => intro _; simp [layout, args_size]
  | cons a rest ih =>
    intro pos
    simp [layout, ih, args_size_cons, Nat.add_assoc]

theorem layout_length (xs : List kernel_arg) :
    ∀ pos : Nat, (layout pos xs).length = xs.length := by
  induction xs with
  | nil => intro _; simp [layout]
  | cons a rest ih => intro pos; simp [layout, ih]

theorem layout_bounds (xs : List kernel_arg) :
    ∀ (pos : Nat) (w : Nat × Nat), w ∈ layout pos xs →
      pos ≤ w.1 ∧ w.1 + w.2 ≤ pos + args_size xs := by
  induction xs with
  | nil => intro _ _ h; simp [layout] at h
  | cons a rest ih =>
    intro pos w h
    rw [layout, List.mem_cons] at h
    rw [args_size_cons]
    rcases h with h | h
    · subst h
      simp
    · have := ih _ w h
      omega

theorem mem_deref_indices (xs : List kernel_arg) :
    ∀ (i j : Nat), j ∈ deref_indices i xs →
      i ≤ j ∧ ∃ b, xs[j - i]? = some b ∧ kind_of b = .pointer ∧ b.al.value ≠ .null := by
  induction xs with
  | nil => intro _ _ h; simp [deref_indices] at h
  | cons a rest ih =>
    intro i j h
    rw [deref_indices] at h
    have hrest : j ∈ deref_indices (i + 1) rest →
        i ≤ j ∧ ∃ b, (a :: rest)[j - i]? = some b ∧ kind_of b = .pointer ∧
          b.al.value ≠ .null := by
      intro h1
      obtain ⟨h2, b, h3, h4⟩ := ih _ _ h1
      refine ⟨by omega, b, ?_, h4⟩
      have h5 : j - i = (j - (i + 1)) + 1 := by omega
      rw [h5, List.getElem?_cons_succ]
      exact h3
    split at h
    · rename_i hc
      rcases List.mem_cons.mp h with h1 | h1
      · subst h1
        exact ⟨Nat.le_refl _, a, by simp, hc⟩
      · exact hrest h1
    · exact hrest h

theorem setup_kernel_args_eq_loop (dev_id : Nat) (args : List kernel_arg) (heap : Nat → Nat)
    (arg_space max_args_size total_group_size : Nat) :
    setup_kernel_args dev_id args heap arg_space max_args_size total_group_size =
      setup_kernel_args_loop dev_id (arg_space + max_args_size) args 0
        { heap := heap, write_pos := arg_space, total_group_size := total_group_size,
          writes := [], derefs := [] } := rfl

/-- When `setup_kernel_args` succeeds, every argument was a well-formed scalar, pointer
or local argument, and the final state is the specified one. -/
theorem setup_kernel_args_success (dev_id : Nat) (args : List kernel_arg) (heap : Nat → Nat)
    (arg_space max_args_size total_group_size : Nat)
    (hok : (setup_kernel_args dev_id args heap arg_space max_args_size total_group_size).2
      = none) :
    (∀ a ∈ args, marshallable a = true ∧ well_formed dev_id a = true) ∧
    setup_kernel_args dev_id args heap arg_space max_args_size total_group_size =
      (marshalled dev_id 0
        { heap := heap, write_pos := arg_space, total_group_size := total_group_size,
          writes := [], derefs := [] } args, none) := by
  rw [setup_kernel_args_eq_loop] at hok ⊢
  exact setup_kernel_args_loop_none dev_id (arg_space + max_args_size) args 0 _ hok

/-! ## The argument marshaller: layout, null pointers, overflow, unsupported kinds -/

/-- C1. For every capacity and every list of well-formed scalar, pointer and local
arguments whose encodings fit the capacity, `setup_kernel_args` succeeds and leaves in
memory, from `arg_space` on, exactly the concatenation in declaration order of the
arguments' encodings (`encode_args`: a scalar as the first `size` bytes of its value, a
pointer as the 8 bytes of the device address for `dev_id`, a local argument as the 8
bytes of the local-memory counter at that point); every byte outside that
concatenation is unchanged. -/
theorem setup_kernel_args_layout (dev_id : Nat) (args : List kernel_arg) (heap : Nat → Nat)
    (arg_space max_args_size total_group_size : Nat)
    (hkind : ∀ a ∈ args, marshallable a = true)
    (hwf : ∀ a ∈ args, well_formed dev_id a = true)
    (hfit : args_size args ≤ max_args_size) :
    (setup_kernel_args dev_id args heap arg_space max_args_size total_group_size).2 = none ∧
    (encode_args dev_id total_group_size args).length = args_size args ∧
    (∀ k, k < args_size args →
      (setup_kernel_args dev_id args heap arg_space max_args_size total_group_size).1.heap
          (arg_space + k) = (encode_args dev_id total_group_size args).getD k 0) ∧
    (∀ k, ¬ (arg_space ≤ k ∧ k < arg_space + args_size args) →
      (setup_kernel_args dev_id args heap arg_space max_args_size total_group_size).1.heap k
        = heap k) := by
  have hall : ∀ a ∈ args, marshallable a = true ∧ well_formed dev_id a = true :=
    fun a ha => ⟨hkind a ha, hwf a ha⟩
  have hlen := encode_args_length dev_id args total_group_size hall
  have hres := setup_kernel_args_loop_ok dev_id (arg_space + max_args_size) args 0
    { heap := heap, write_pos := arg_space, total_group_size := total_group_size,
      writes := [], derefs := [] } hall (by simpa using hfit)
  rw [setup_kernel_args_eq_loop, hres]
  refine ⟨rfl, hlen, ?_, ?_⟩
  · intro k hk
    exact memcpy_inside _ _ _ _ (by rw [hlen]; exact hk)
  · intro k hk
    exact memcpy_outside _ _ _ _ (by rw [hlen]; exact hk)

/-- C1, on `[scalar int32 7, pointer to device address 0x1000, local of size 256]` with
a 20-byte buffer at address 64 and the counter at 0: the hypotheses hold, and the
encoding is 4 bytes `7`, 8 bytes `0x1000`, 8 bytes of the counter before adding 256. -/
theorem setup_kernel_args_layout_witness :
    encode_args 0 0 [ex_scalar7, ex_pointer, ex_local256] =
      [7, 0, 0, 0, 0, 16, 0, 0, 0, 0, 0, 0, 0, 0, 0, 0, 0, 0, 0, 0] ∧
    ((setup_kernel_args 0 [ex_scalar7, ex_pointer, ex_local256] ex_heap 64 20 0).2 = none ∧
    (encode_args 0 0 [ex_scalar7, ex_pointer, ex_local256]).length =
      args_size [ex_scalar7, ex_pointer, ex_local256] ∧
    (∀ k, k < args_size [ex_scalar7, ex_pointer, ex_local256] →
      (setup_kernel_args 0 [ex_scalar7, ex_pointer, ex_local256] ex_heap 64 20 0).1.heap
          (64 + k) = (encode_args 0 0 [ex_scalar7, ex_pointer, ex_local256]).getD k 0) ∧
    (∀ k, ¬ (64 ≤ k ∧ k < 64 + args_size [ex_scalar7, ex_pointer, ex_local256]) →
      (setup_kernel_args 0 [ex_scalar7, ex_pointer, ex_local256] ex_heap 64 20 0).1.heap k
        = ex_heap k)) :=
  ⟨by decide,
    setup_kernel_args_layout 0 [ex_scalar7, ex_pointer, ex_local256] ex_heap 64 20 0
      (by decide) (by decide) (by decide)⟩

/-- C4. For every argument list and every position holding a non-local pointer argument
whose value is `NULL`, a successful `setup_kernel_args` made for that argument one copy
of exactly 8 bytes at the argument's position, the 8 bytes there are zero, and the
argument's index is not among the dereferenced memory objects. -/
theorem setup_kernel_args_null_pointer (dev_id : Nat) (pre post : List kernel_arg)
    (a : kernel_arg) (heap : Nat → Nat) (arg_space max_args_size total_group_size : Nat)
    (hloc : a.info.is_local = false) (hptr : a.info.type = .POCL_ARG_TYPE_POINTER)
    (hnull : a.al.value = .null)
    (hok : (setup_kernel_args dev_id (pre ++ a :: post) heap arg_space max_args_size
      total_group_size).2 = none) :
    (setup_kernel_args dev_id (pre ++ a :: post) heap arg_space max_args_size
        total_group_size).1.writes[pre.length]? = some (arg_space + args_size pre, 8) ∧
    (∀ k, k < 8 →
      (setup_kernel_args dev_id (pre ++ a :: post) heap arg_space max_args_size
        total_group_size).1.heap (arg_space + args_size pre + k) = 0) ∧
    pre.length ∉ (setup_kernel_args dev_id (pre ++ a :: post) heap arg_space max_args_size
        total_group_size).1.derefs := by
  obtain ⟨hall, hres⟩ := setup_kernel_args_success _ _ _ _ _ _ hok
  have hkind : kind_of a = .pointer := by simp [kind_of, hloc, hptr]
  have hsize : encoded_size a = 8 := by simp [encoded_size, hkind]
  have henc : ∀ c, encode_arg dev_id c a = le_bytes 8 0 := by
    intro c
    simp [encode_arg, hkind, hnull]
  have hpre : ∀ b ∈ pre, marshallable b = true ∧ well_formed dev_id b = true :=
    fun b hb => hall b (List.mem_append_left _ hb)
  have hprelen := encode_args_length dev_id pre total_group_size hpre
  rw [hres]
  refine ⟨?_, ?_, ?_⟩
  · simp only [marshalled, List.nil_append, layout_append, layout, hsize]
    rw [List.getElem?_append_right (by rw [layout_length])]
    simp [layout_length]
  · intro k hk
    simp only [marshalled, encode_args_append, encode_args, henc]
    rw [Nat.add_assoc, memcpy_inside]
    · rw [List.getD_append_right _ _ _ _ (by omega), hprelen]
      have h1 : args_size pre + k - args_size pre = k := by omega
      rw [h1, List.getD_append _ _ _ _ (by rw [le_bytes_length]; exact hk),
        le_bytes_getD _ _ _ hk]
      simp
    · simp only [List.length_append, le_bytes_length, hprelen]
      omega
  · intro hmem
    simp only [marshalled, List.nil_append] at hmem
    obtain ⟨_, b, hb, _, hb2⟩ := mem_deref_indices _ _ _ hmem
    have ha : (pre ++ a :: post)[pre.length - 0]? = some a := by
      rw [Nat.sub_zero, List.getElem?_append_right (Nat.le_refl _)]
      simp
    rw [ha] at hb
    cases hb
    exact hb2 hnull

/-- C4, on `[scalar int32 7, NULL pointer]` with a 12-byte buffer at address 64. -/
theorem setup_kernel_args_null_pointer_witness :
    (setup_kernel_args 0 ([ex_scalar7] ++ ex_null_pointer :: []) ex_heap 64 12 0).2 = none ∧
    ((setup_kernel_args 0 ([ex_scalar7] ++ ex_null_pointer :: []) ex_heap 64 12
        0).1.writes[[ex_scalar7].length]? = some (64 + args_size [ex_scalar7], 8) ∧
    (∀ k, k < 8 →
      (setup_kernel_args 0 ([ex_scalar7] ++ ex_null_pointer :: []) ex_heap 64 12
        0).1.heap (64 + args_size [ex_scalar7] + k) = 0) ∧
    [ex_scalar7].length ∉ (setup_kernel_args 0 ([ex_scalar7] ++ ex_null_pointer :: [])
        ex_heap 64 12 0).1.derefs) :=
  ⟨by decide,
    setup_kernel_args_null_pointer 0 [ex_scalar7] [] ex_null_pointer ex_heap 64 12 0
      rfl rfl rfl (by decide)⟩

theorem finRange_split {n : Nat} (i : Fin n) :
    ∃ pre post, List.finRange n = pre ++ i :: post ∧ (∀ a ∈ pre, a < i) ∧
      (∀ a ∈ post, i < a) := by
  obtain ⟨pre, post, h⟩ := List.append_of_mem (List.mem_finRange i)
  have hs := List.pairwise_lt_finRange n
  rw [h, List.pairwise_append] at hs
  refine ⟨pre, post, h, fun a ha => hs.2.2 a ha i (List.mem_cons_self _ _), fun a ha => ?_⟩
  exact (List.pairwise_cons.mp hs.2.1).1 a ha

theorem mem_pre_of_lt {n : Nat} (i a : Fin n) (pre post : List (Fin n))
    (h : List.finRange n = pre ++ i :: post) (ha : a < i) : a ∈ pre := by
  have hs := List.pairwise_lt_finRange n
  rw [h, List.pairwise_append] at hs
  have hmem : a ∈ pre ++ i :: post := h ▸ List.mem_finRange a
  rcases List.mem_append.mp hmem with h1 | h1
  · exact h1
  · rcases List.mem_cons.mp h1 with h2 | h2
    · subst h2
      exact absurd ha (lt_irrefl _)
    · have := (List.pairwise_cons.mp hs.2.1).1 a h2
      exact absurd ha (not_lt.mpr (le_of_lt this))

theorem find_finRange_first {n : Nat} (P : Fin n → Bool) (i : Fin n) (hi : P i = true)
    (h : ∀ a, a < i → P a = false) : (List.finRange n).find? P = some i := by
  obtain ⟨pre, post, hsplit, hpre, _⟩ := finRange_split i
  rw [hsplit, List.find?_append]
  have h1 : pre.find? P = none := by
    rw [List.find?_eq_none]
    intro a ha
    simp [h a (hpre a ha)]
  rw [h1, List.find?_cons_of_pos _ hi]
  rfl

theorem find_finRange_some {n : Nat} (P : Fin n → Bool) (i : Fin n)
    (h : (List.finRange n).find? P = some i) :
    P i = true ∧ ∀ a, a < i → P a = false := by
  rw [List.find?_eq_some] at h
  obtain ⟨hi, as, bs, hsplit, has⟩ := h
  refine ⟨hi, fun a ha => ?_⟩
  have hs := List.pairwise_lt_finRange n
  rw [hsplit, List.pairwise_append] at hs
  have hmem : a ∈ as ++ i :: bs := hsplit ▸ List.mem_finRange a
  rcases List.mem_append.mp hmem with h1 | h1
  · simpa using has a h1
  · rcases List.mem_cons.mp h1 with h2 | h2
    · subst h2
      exact absurd ha (lt_irrefl _)
    · have := (List.pairwise_cons.mp hs.2.1).1 a h2
      exact absurd ha (not_lt.mpr (le_of_lt this))

theorem find_finRange_none {n : Nat} (P : Fin n → Bool)
    (h : (List.finRange n).find? P = none) : ∀ a, P a = false := by
  intro a
  rw [List.find?_eq_none] at h
  simpa using h a (List.mem_finRange a)

theorem keys_eq_refl (d : pocl_hsa_device_data) : keys_eq d d :=
  ⟨rfl, rfl, rfl, rfl, rfl, fun _ => ⟨rfl, rfl, rfl⟩⟩

theorem keys_eq_trans {d1 d2 d3 : pocl_hsa_device_data} (h12 : keys_eq d1 d2)
    (h23 : keys_eq d2 d3) : keys_eq d1 d3 := by
  obtain ⟨a1, a2, a3, a4, a5, a6⟩ := h12
  obtain ⟨b1, b2, b3, b4, b5, b6⟩ := h23
  refine ⟨b1.trans a1, b2.trans a2, b3.trans a3, b4.trans a4, b5.trans a5, fun i => ?_⟩
  exact ⟨(b6 i).1.trans (a6 i).1, (b6 i).2.1.trans (a6 i).2.1, (b6 i).2.2.trans (a6 i).2.2⟩

/-- Taking a kernel entry of slot `i` leaves everything but the counter of slot `i`. -/
theorem keys_eq_bump (d : pocl_hsa_device_data) (i : Fin HSA_PROGRAM_CACHE_SIZE) :
    keys_eq d { d with program_cache := (Function.update d.program_cache i
      { (d.program_cache i) with
        kernel_cache_lastptr := (d.program_cache i).kernel_cache_lastptr + 1 }) } := by
  refine ⟨rfl, rfl, rfl, rfl, rfl, fun k => ?_⟩
  by_cases hk : k = i
  · subst hk
    simp
  · simp [Function.update_noteq hk]

/-- The scan changes nothing but counters `kernel_cache_lastptr`. -/
theorem scan_programs_keys (kernel code_object : Nat)
    (l : List (Fin HSA_PROGRAM_CACHE_SIZE)) :
    ∀ s : scan_state, keys_eq s.d (scan_programs kernel code_object l s).d := by
  induction l with
  | nil => intro s; exact keys_eq_refl _
  | cons i rest ih =>
    intro s
    rw [scan_programs]
    split
    · split
      · exact keys_eq_refl _
      · split
        · exact keys_eq_trans (keys_eq_bump s.d i) (ih _)
        · exact ih _
    · exact ih _

theorem find_kernel_congr (p q : hsa_program_cache_t) (kernel : Nat)
    (h : q.kernel_cache = p.kernel_cache) : find_kernel q kernel = find_kernel p kernel := by
  simp [find_kernel, h]

theorem keys_eq_lookup {d d1 : pocl_hsa_device_data} (h : keys_eq d d1) (kernel : Nat)
    (a : Fin HSA_PROGRAM_CACHE_SIZE) :
    (d1.program_cache a).code_object = (d.program_cache a).code_object ∧
      find_kernel (d1.program_cache a) kernel = find_kernel (d.program_cache a) kernel :=
  ⟨(h.2.2.2.2.2 a).2.1, find_kernel_congr _ _ _ (h.2.2.2.2.2 a).2.2⟩

/-- A scan that meets no matching slot before slot `i`, which matches and holds the
kernel at entry `j`, returns that entry and changes nothing. -/
theorem scan_programs_hit (kernel code_object : Nat) (i : Fin HSA_PROGRAM_CACHE_SIZE)
    (j : Fin HSA_KERNEL_CACHE_SIZE) (post : List (Fin HSA_PROGRAM_CACHE_SIZE)) :
    ∀ (pre : List (Fin HSA_PROGRAM_CACHE_SIZE)) (s : scan_state),
      (∀ a ∈ pre, (s.d.program_cache a).code_object ≠ code_object) →
      (s.d.program_cache i).code_object = code_object →
      find_kernel (s.d.program_cache i) kernel = some j →
      scan_programs kernel code_object (pre ++ i :: post) s = .found s.d i j := by
  intro pre
  induction pre with
  | nil =>
    intro s _ hi hj
    rw [List.nil_append, scan_programs, if_pos hi, hj]
  | cons a pre ih =>
    intro s hpre hi hj
    rw [List.cons_append, scan_programs, if_neg (hpre a (List.mem_cons_self _ _))]
    exact ih s (fun b hb => hpre b (List.mem_cons_of_mem _ hb)) hi hj

/-- A scan in which every matching slot before slot `i` lacks the kernel, and slot `i`
matches and holds the kernel at entry `j`, returns that entry. -/
theorem scan_programs_first (kernel code_object : Nat) (i : Fin HSA_PROGRAM_CACHE_SIZE)
    (j : Fin HSA_KERNEL_CACHE_SIZE) (post : List (Fin HSA_PROGRAM_CACHE_SIZE)) :
    ∀ (pre : List (Fin HSA_PROGRAM_CACHE_SIZE)) (s : scan_state),
      (∀ a ∈ pre, (s.d.program_cache a).code_object = code_object →
        find_kernel (s.d.program_cache a) kernel = none) →
      (s.d.program_cache i).code_object = code_object →
      find_kernel (s.d.program_cache i) kernel = some j →
      ∃ d1, scan_programs kernel code_object (pre ++ i :: post) s = .found d1 i j := by
  intro pre
  induction pre with
  | nil =>
    intro s _ hi hj
    exact ⟨s.d, by rw [List.nil_append, scan_programs, if_pos hi, hj]⟩
  | cons a pre ih =>
    intro s hpre hi hj
    have hrest : ∀ (s1 : scan_state), keys_eq s.d s1.d →
        ∃ d1, scan_programs kernel code_object (pre ++ i :: post) s1 = .found d1 i j := by
      intro s1 hk
      refine ih s1 (fun b hb hb1 => ?_) ?_ ?_
      · rw [(keys_eq_lookup hk kernel b).2]
        rw [(keys_eq_lookup hk kernel b).1] at hb1
        exact hpre b (List.mem_cons_of_mem _ hb) hb1
      · rw [(keys_eq_lookup hk kernel i).1]
        exact hi
      · rw [(keys_eq_lookup hk kernel i).2]
        exact hj
    rw [List.cons_append, scan_programs]
    split
    · rename_i ha
      rw [hpre a (List.mem_cons_self _ _) ha]
      simp only
      split
      · exact hrest _ (keys_eq_bump s.d a)
      · exact hrest _ (keys_eq_refl _)
    · exact hrest _ (keys_eq_refl _)

/-- What a scan that returned an entry has seen. -/
theorem scan_programs_found (kernel code_object : Nat) (i : Fin HSA_PROGRAM_CACHE_SIZE)
    (j : Fin HSA_KERNEL_CACHE_SIZE) (d1 : pocl_hsa_device_data) :
    ∀ (l : List (Fin HSA_PROGRAM_CACHE_SIZE)) (s : scan_state),
      scan_programs kernel code_object l s = .found d1 i j →
      ∃ pre post, l = pre ++ i :: post ∧
        (∀ a ∈ pre, (s.d.program_cache a).code_object = code_object →
          find_kernel (s.d.program_cache a) kernel = none) ∧
        (s.d.program_cache i).code_object = code_object ∧
        find_kernel (s.d.program_cache i) kernel = some j := by
  intro l
  induction l with
  | nil =>
    intro s h
    simp [scan_programs] at h
  | cons a rest ih =>
    intro s h
    have hrest : ∀ (s1 : scan_state), keys_eq s.d s1.d →
        ((s.d.program_cache a).code_object = code_object →
          find_kernel (s.d.program_cache a) kernel = none) →
        scan_programs kernel code_object rest s1 = .found d1 i j →
        ∃ pre post, a :: rest = pre ++ i :: post ∧
          (∀ b ∈ pre, (s.d.program_cache b).code_object = code_object →
            find_kernel (s.d.program_cache b) kernel = none) ∧
          (s.d.program_cache i).code_object = code_object ∧
          find_kernel (s.d.program_cache i) kernel = some j := by
      intro s1 hk ha h1
      obtain ⟨pre, post, hsplit, hpre, hi, hj⟩ := ih s1 h1
      refine ⟨a :: pre, post, by rw [hsplit, List.cons_append], fun b hb hb1 => ?_, ?_, ?_⟩
      · rcases List.mem_cons.mp hb with h2 | h2
        · subst h2
          exact ha hb1
        · rw [← (keys_eq_lookup hk kernel b).2]
          rw [← (keys_eq_lookup hk kernel b).1] at hb1
          exact hpre b h2 hb1
      · rw [← (keys_eq_lookup hk kernel i).1]
        exact hi
      · rw [← (keys_eq_lookup hk kernel i).2]
        exact hj
    rw [scan_programs] at h
    split at h
    · rename_i ha
      split at h
      · rename_i j1 hj1
        cases h
        exact ⟨[], rest, rfl, by simp, ha, hj1⟩
      · rename_i hnone
        split at h
        · exact hrest _ (keys_eq_bump s.d a) (fun _ => hnone) h
        · exact hrest { s with p_out := some (a, .stack_cache) } (keys_eq_refl _)
            (fun _ => hnone) h
    · rename_i ha
      exact hrest s (keys_eq_refl _) (fun h1 => absurd h1 ha) h

/-- What a scan that ran through has seen: no matching slot holds the kernel, and an
entry it selected lies in a matching slot. -/
theorem scan_programs_fell_through (kernel code_object : Nat) :
    ∀ (l : List (Fin HSA_PROGRAM_CACHE_SIZE)) (s s1 : scan_state),
      scan_programs kernel code_object l s = .fell_through s1 →
      (∀ a ∈ l, (s.d.program_cache a).code_object = code_object →
        find_kernel (s.d.program_cache a) kernel = none) ∧
      (∀ i0 i j, s1.p_out = some (i0, .slot i j) →
        s.p_out = some (i0, .slot i j) ∨
          (i ∈ l ∧ (s.d.program_cache i).code_object = code_object)) := by
  intro l
  induction l with
  | nil =>
    intro s s1 h
    simp only [scan_programs, scan_result.fell_through.injEq] at h
    subst h
    exact ⟨by simp, fun i0 i j h1 => Or.inl h1⟩
  | cons a rest ih =>
    intro s s1 h
    have hrest : ∀ (s2 : scan_state), keys_eq s.d s2.d →
        ((s.d.program_cache a).code_object = code_object →
          find_kernel (s.d.program_cache a) kernel = none) →
        (∀ i0 i j, s2.p_out = some (i0, .slot i j) →
          s.p_out = some (i0, .slot i j) ∨
            (i = a ∧ (s.d.program_cache a).code_object = code_object)) →
        scan_programs kernel code_object rest s2 = .fell_through s1 →
        (∀ b ∈ a :: rest, (s.d.program_cache b).code_object = code_object →
          find_kernel (s.d.program_cache b) kernel = none) ∧
        (∀ i0 i j, s1.p_out = some (i0, .slot i j) →
          s.p_out = some (i0, .slot i j) ∨
            (i ∈ a :: rest ∧ (s.d.program_cache i).code_object = code_object)) := by
      intro s2 hk ha hout h1
      obtain ⟨hall, hsel⟩ := ih s2 s1 h1
      refine ⟨fun b hb hb1 => ?_, fun i0 i j hs1 => ?_⟩
      · rcases List.mem_cons.mp hb with h2 | h2
        · subst h2
          exact ha hb1
        · rw [← (keys_eq_lookup hk kernel b).2]
          rw [← (keys_eq_lookup hk kernel b).1] at hb1
          exact hall b h2 hb1
      · rcases hsel i0 i j hs1 with h2 | ⟨h2, h3⟩
        · rcases hout i0 i j h2 with h4 | ⟨h4, h5⟩
          · exact Or.inl h4
          · subst h4
            exact Or.inr ⟨List.mem_cons_self _ _, h5⟩
        · rw [(keys_eq_lookup hk kernel i).1] at h3
          exact Or.inr ⟨List.mem_cons_of_mem _ h2, h3⟩
    rw [scan_programs] at h
    split at h
    · rename_i ha
      split at h
      · cases h
      · rename_i hnone
        split at h
        · refine hrest _ (keys_eq_bump s.d a) (fun _ => hnone) (fun i0 i j h1 => ?_) h
          simp only [Option.some.injEq, Prod.mk.injEq, cache_ref.slot.injEq] at h1
          exact Or.inr ⟨h1.2.1.symm, ha⟩
        · refine hrest { s with p_out := some (a, .stack_cache) } (keys_eq_refl _)
            (fun _ => hnone) (fun i0 i j h1 => ?_) h
          simp at h1
    · rename_i ha
      exact hrest s (keys_eq_refl _) (fun h1 => absurd h1 ha) (fun i0 i j h1 => Or.inl h1) h

theorem checked_call_ok {α : Type} (rt : runtime) (tr tr1 : List effect) (c : effect)
    (msg : pocl_abort_msg) (next : Nat → List effect → List effect × Except pocl_stop α)
    (a : α) (h : checked_call rt tr c msg next = (tr1, .ok a)) :
    (rt.reply tr c).status = HSA_STATUS_SUCCESS ∧
      next (rt.reply tr c).value (tr ++ [c]) = (tr1, .ok a) := by
  unfold checked_call at h
  split at h
  · cases h
  · rename_i hs
    exact ⟨not_not.mp hs, h⟩

theorem build_dispatch_data_kernel (rt : runtime) (kernel : _cl_kernel)
    (agent kernarg_region code_object : Nat) (e : hsa_kernel_cache_t)
    (tr tr1 : List effect)
    (h : build_dispatch_data rt kernel agent kernarg_region code_object tr = (tr1, .ok e)) :
    e.kernel = kernel.addr := by
  unfold build_dispatch_data at h
  have h := (checked_call_ok _ _ _ _ _ _ _ h).2
  have h := (checked_call_ok _ _ _ _ _ _ _ h).2
  have h := (checked_call_ok _ _ _ _ _ _ _ h).2
  have h := (checked_call_ok _ _ _ _ _ _ _ h).2
  dsimp only at h
  split at h
  · cases h
  have h := (checked_call_ok _ _ _ _ _ _ _ h).2
  have h := (checked_call_ok _ _ _ _ _ _ _ h).2
  have h := (checked_call_ok _ _ _ _ _ _ _ h).2
  have h := (checked_call_ok _ _ _ _ _ _ _ h).2
  have h := (checked_call_ok _ _ _ _ _ _ _ h).2
  have h := (checked_call_ok _ _ _ _ _ _ _ h).2
  simp only [Prod.mk.injEq, Except.ok.injEq] at h
  rw [← h.2]

theorem cache_kernel_dispatch_data_found (rt : runtime) (kernel : _cl_kernel)
    (code_object : Nat) (stack_cache : hsa_kernel_cache_t) (m : machine)
    (d1 : pocl_hsa_device_data) (i : Fin HSA_PROGRAM_CACHE_SIZE)
    (j : Fin HSA_KERNEL_CACHE_SIZE)
    (h : scan_programs kernel.addr code_object (List.finRange HSA_PROGRAM_CACHE_SIZE)
      { d := m.d, p_out := none } = .found d1 i j) :
    cache_kernel_dispatch_data rt kernel code_object stack_cache m =
      .returned { m with d := d1 } (.slot i j, stack_cache) := by
  simp only [cache_kernel_dispatch_data, h]

theorem scan_programs_keys_found (kernel code_object : Nat) (d d1 : pocl_hsa_device_data)
    (i : Fin HSA_PROGRAM_CACHE_SIZE) (j : Fin HSA_KERNEL_CACHE_SIZE)
    (l : List (Fin HSA_PROGRAM_CACHE_SIZE))
    (h : scan_programs kernel code_object l { d := d, p_out := none } = .found d1 i j) :
    keys_eq d d1 := by
  have hk := scan_programs_keys kernel code_object l { d := d, p_out := none }
  rw [h] at hk
  exact hk

theorem scan_programs_keys_fell_through (kernel code_object : Nat) (d : pocl_hsa_device_data)
    (s : scan_state) (l : List (Fin HSA_PROGRAM_CACHE_SIZE))
    (h : scan_programs kernel code_object l { d := d, p_out := none } = .fell_through s) :
    keys_eq d s.d := by
  have hk := scan_programs_keys kernel code_object l { d := d, p_out := none }
  rw [h] at hk
  exact hk

/-- A resolution on a device in which every matching slot before slot `i` lacks the
kernel, and slot `i` matches and holds the kernel at entry `j`, returns that entry and
changes nothing but counters `kernel_cache_lastptr`. -/
theorem cache_kernel_dispatch_data_first (rt : runtime) (kernel : _cl_kernel)
    (code_object : Nat) (stack_cache : hsa_kernel_cache_t) (m : machine)
    (i : Fin HSA_PROGRAM_CACHE_SIZE) (j : Fin HSA_KERNEL_CACHE_SIZE)
    (hpre : ∀ a, a < i → (m.d.program_cache a).code_object = code_object →
      find_kernel (m.d.program_cache a) kernel.addr = none)
    (hi : (m.d.program_cache i).code_object = code_object)
    (hj : find_kernel (m.d.program_cache i) kernel.addr = some j) :
    ∃ d2, keys_eq m.d d2 ∧
      cache_kernel_dispatch_data rt kernel code_object stack_cache m =
        .returned { m with d := d2 } (.slot i j, stack_cache) := by
  obtain ⟨pre, post, hsplit, hlt, _⟩ := finRange_split i
  obtain ⟨d2, hscan⟩ := scan_programs_first kernel.addr code_object i j post pre
    { d := m.d, p_out := none } (fun a ha => hpre a (hlt a ha)) hi hj
  rw [← hsplit] at hscan
  exact ⟨d2, scan_programs_keys_found _ _ _ _ _ _ _ hscan,
    cache_kernel_dispatch_data_found rt kernel code_object stack_cache m d2 i j hscan⟩

/-- What the state is like after a resolution that returned a cache entry: every matching
slot before the entry's slot lacks the kernel, and the entry is the first one of its
slot that holds the kernel. -/
theorem cache_kernel_dispatch_data_slot (rt : runtime) (kernel : _cl_kernel)
    (code_object : Nat) (stack_cache st1 : hsa_kernel_cache_t)
    (m m1 : machine) (i : Fin HSA_PROGRAM_CACHE_SIZE) (j : Fin HSA_KERNEL_CACHE_SIZE)
    (h1 : cache_kernel_dispatch_data rt kernel code_object stack_cache m =
      .returned m1 (.slot i j, st1)) :
    (∀ a, a < i → (m1.d.program_cache a).code_object = code_object →
      find_kernel (m1.d.program_cache a) kernel.addr = none) ∧
    (m1.d.program_cache i).code_object = code_object ∧
    find_kernel (m1.d.program_cache i) kernel.addr = some j := by
  unfold cache_kernel_dispatch_data at h1
  split at h1
  · rename_i d1 i1 j1 hscan
    simp only [outcome.returned.injEq, Prod.mk.injEq, cache_ref.slot.injEq] at h1
    obtain ⟨hm1, ⟨hi1, hj1⟩, _⟩ := h1
    subst hi1 hj1
    have hd : m1.d = d1 := by rw [← hm1]
    have hk := scan_programs_keys_found _ _ _ _ _ _ _ hscan
    rw [← hd] at hk
    obtain ⟨pre, post, hsplit, hpre, hi, hj⟩ :=
      scan_programs_found kernel.addr code_object i1 j1 d1 _ _ hscan
    refine ⟨fun a ha ha1 => ?_, ?_, ?_⟩
    · rw [(keys_eq_lookup hk kernel.addr a).2]
      rw [(keys_eq_lookup hk kernel.addr a).1] at ha1
      exact hpre a (mem_pre_of_lt i1 a pre post hsplit ha) ha1
    · rw [(keys_eq_lookup hk kernel.addr i1).1]
      exact hi
    · rw [(keys_eq_lookup hk kernel.addr i1).2]
      exact hj
  · rename_i s hscan
    have hk := scan_programs_keys_fell_through _ _ _ _ _ hscan
    obtain ⟨hall, hsel⟩ := scan_programs_fell_through kernel.addr code_object _ _ _ hscan
    dsimp only at h1
    split at h1
    · rename_i e hbuild
      simp only [outcome.returned.injEq, Prod.mk.injEq] at h1
      obtain ⟨hm1, hout, _⟩ := h1
      have hker := build_dispatch_data_kernel _ _ _ _ _ _ _ _ (Prod.ext rfl hbuild)
      have hsome : ∃ i0, s.p_out = some (i0, .slot i j) := by
        unfold selected_out at hout
        cases hp : s.p_out with
        | none => rw [hp] at hout; cases hout
        | some v =>
          rw [hp] at hout
          simp only at hout
          exact ⟨v.1, by rw [← hout]⟩
      obtain ⟨i0, hp⟩ := hsome
      have hmatch : (m.d.program_cache i).code_object = code_object := by
        rcases hsel i0 i j hp with h2 | ⟨_, h2⟩
        · cases h2
        · exact h2
      rw [hout] at hm1
      have hd1 : ∀ a, a ≠ i → m1.d.program_cache a = s.d.program_cache a := by
        intro a ha
        rw [← hm1]
        simp [write_ref, Function.update_noteq ha]
      have hd1i : (m1.d.program_cache i).code_object = (s.d.program_cache i).code_object ∧
          (m1.d.program_cache i).kernel_cache =
            Function.update (s.d.program_cache i).kernel_cache j e := by
        rw [← hm1]
        simp [write_ref]
      refine ⟨fun a ha ha1 => ?_, ?_, ?_⟩
      · have hne : a ≠ i := ne_of_lt ha
        rw [hd1 a hne] at ha1 ⊢
        rw [(keys_eq_lookup hk kernel.addr a).2]
        rw [(keys_eq_lookup hk kernel.addr a).1] at ha1
        exact hall a (List.mem_finRange a) ha1
      · rw [hd1i.1, (keys_eq_lookup hk kernel.addr i).1]
        exact hmatch
      · have hnone := hall i (List.mem_finRange i) hmatch
        rw [← (keys_eq_lookup hk kernel.addr i).2] at hnone
        have hno := find_finRange_none _ hnone
        apply find_finRange_first
        · rw [hd1i.2]
          simp [hker]
        · intro a ha
          rw [hd1i.2, Function.update_noteq (ne_of_lt ha)]
          exact hno a
    · cases h1

/-- The second of two consecutive resolutions, when the first returned a cache entry. -/
theorem cache_kernel_dispatch_data_again (rt : runtime) (kernel : _cl_kernel)
    (code_object : Nat) (stack_cache stack_cache2 st1 : hsa_kernel_cache_t)
    (m m1 : machine) (i : Fin HSA_PROGRAM_CACHE_SIZE) (j : Fin HSA_KERNEL_CACHE_SIZE)
    (h1 : cache_kernel_dispatch_data rt kernel code_object stack_cache m =
      .returned m1 (.slot i j, st1)) :
    ∃ d2, keys_eq m1.d d2 ∧
      cache_kernel_dispatch_data rt kernel code_object stack_cache2 m1 =
        .returned { m1 with d := d2 } (.slot i j, stack_cache2) := by
  obtain ⟨hpre, hi, hj⟩ :=
    cache_kernel_dispatch_data_slot rt kernel code_object stack_cache st1 m m1 i j h1
  exact cache_kernel_dispatch_data_first rt kernel code_object stack_cache2 m1 i j hpre hi hj

theorem outcome_returned_of_isSome {α : Type} (o : outcome α)
    (h : o.value?.isSome = true) : ∃ a, o = .returned o.machine a := by
  cases o with
  | returned m a => exact ⟨a, rfl⟩
  | stopped m e => cases h

theorem outcome_of_value {α : Type} (o : outcome α) (a : α) (h : o.value? = some a) :
    o = .returned o.machine a := by
  cases o with
  | returned m b =>
    simp only [outcome.value?, Option.some.injEq] at h
    rw [h]
    rfl
  | stopped m e => cases h

/-! ## The kernel cache: hits and repeated resolution -/

/-- C9, as the code has it: when the first (lowest-index) program slot whose code object
matches holds an entry for the kernel, `cache_kernel_dispatch_data` returns the first
such entry of that slot and the whole state is unchanged: no program slot, kernel entry
or `kernel_cache_lastptr` changes and no runtime call is made (the trace is the same),
so no executable, signal or argument buffer is created. -/
theorem cache_hit_side_effect_free (rt : runtime) (kernel : _cl_kernel) (code_object : Nat)
    (stack_cache : hsa_kernel_cache_t) (m : machine) (i : Fin HSA_PROGRAM_CACHE_SIZE)
    (j : Fin HSA_KERNEL_CACHE_SIZE)
    (hfirst : ∀ a, a < i → (m.d.program_cache a).code_object ≠ code_object)
    (hmatch : (m.d.program_cache i).code_object = code_object)
    (hentry : ((m.d.program_cache i).kernel_cache j).kernel = kernel.addr) :
    ∃ j0, j0 ≤ j ∧ ((m.d.program_cache i).kernel_cache j0).kernel = kernel.addr ∧
      cache_kernel_dispatch_data rt kernel code_object stack_cache m =
        .returned m (.slot i j0, stack_cache) := by
  cases hfk : find_kernel (m.d.program_cache i) kernel.addr with
  | none =>
    have := find_finRange_none _ hfk j
    simp [hentry] at this
  | some j0 =>
    obtain ⟨hj0, hlt⟩ := find_finRange_some _ _ hfk
    refine ⟨j0, ?_, by simpa using hj0, ?_⟩
    · by_contra hcon
      have := hlt j (not_le.mp hcon)
      simp [hentry] at this
    · obtain ⟨pre, post, hsplit, hpre, _⟩ := finRange_split i
      have hscan := scan_programs_hit kernel.addr code_object i j0 post pre
        { d := m.d, p_out := none } (fun a ha => hfirst a (hpre a ha)) hmatch hfk
      rw [← hsplit] at hscan
      exact cache_kernel_dispatch_data_found rt kernel code_object stack_cache m m.d i j0 hscan

/-- C9 as amended, on a device whose only slot with code object 5 is slot 1, which holds
an entry for the kernel. -/
theorem cache_hit_side_effect_free_witness :
    (∀ a : Fin HSA_PROGRAM_CACHE_SIZE, a < 1 →
      (ex_cached_device.program_cache a).code_object ≠ 5) ∧
    (ex_cached_device.program_cache 1).code_object = 5 ∧
    ((ex_cached_device.program_cache 1).kernel_cache 0).kernel = ex_kernel.addr ∧
    (∃ j0, j0 ≤ (0 : Fin HSA_KERNEL_CACHE_SIZE) ∧
      ((ex_cached_device.program_cache 1).kernel_cache j0).kernel = ex_kernel.addr ∧
      cache_kernel_dispatch_data ex_runtime ex_kernel 5 zero_kernel_entry
          { ex_machine with d := ex_cached_device } =
        .returned { ex_machine with d := ex_cached_device }
          (.slot 1 j0, zero_kernel_entry)) :=
  ⟨by decide, by decide, by decide,
    cache_hit_side_effect_free ex_runtime ex_kernel 5 zero_kernel_entry
      { ex_machine with d := ex_cached_device } 1 0 (by decide) (by decide) (by decide)⟩

/-- C9 as stated fails: program slots 0 and 1 hold the same code object, slot 1 holds an
entry for the kernel, slot 0 does not.  The call returns the existing entry of slot 1,
and `kernel_cache_lastptr` of slot 0 has gone from 0 to 1. -/
theorem cache_hit_side_effect_counterexample :
    (ex_shared_device.program_cache 1).code_object = 5 ∧
    ((ex_shared_device.program_cache 1).kernel_cache 0).kernel = ex_kernel.addr ∧
    (cache_kernel_dispatch_data ex_runtime ex_kernel 5 zero_kernel_entry
      { ex_machine with d := ex_shared_device }).value? =
        some (.slot 1 0, zero_kernel_entry) ∧
    (ex_shared_device.program_cache 0).kernel_cache_lastptr = 0 ∧
    ((cache_kernel_dispatch_data ex_runtime ex_kernel 5 zero_kernel_entry
      { ex_machine with d := ex_shared_device }).machine.d.program_cache 0).kernel_cache_lastptr
        = 1 := by
  decide

/-- C10, as the code has it: when a resolution by `cache_kernel_dispatch_data` returned
an entry of a kernel cache (not the caller's stack record), the next resolution of the
same kernel and code object returns the same entry with the same content, so `kernargs`
and `code_handle` are identical on both calls. -/
theorem kernel_metadata_stable (rt : runtime) (kernel : _cl_kernel) (code_object : Nat)
    (stack_cache stack_cache2 st1 : hsa_kernel_cache_t) (m : machine)
    (i : Fin HSA_PROGRAM_CACHE_SIZE) (j : Fin HSA_KERNEL_CACHE_SIZE)
    (h1 : (cache_kernel_dispatch_data rt kernel code_object stack_cache m).value? =
      some (.slot i j, st1)) :
    (cache_kernel_dispatch_data rt kernel code_object stack_cache2
      (cache_kernel_dispatch_data rt kernel code_object stack_cache m).machine).value? =
        some (.slot i j, stack_cache2) ∧
    read_ref (cache_kernel_dispatch_data rt kernel code_object stack_cache2
        (cache_kernel_dispatch_data rt kernel code_object stack_cache m).machine).machine.d
        stack_cache2 (.slot i j) =
      read_ref (cache_kernel_dispatch_data rt kernel code_object stack_cache m).machine.d
        st1 (.slot i j) ∧
    (read_ref (cache_kernel_dispatch_data rt kernel code_object stack_cache2
        (cache_kernel_dispatch_data rt kernel code_object stack_cache m).machine).machine.d
        stack_cache2 (.slot i j)).kernargs =
      (read_ref (cache_kernel_dispatch_data rt kernel code_object stack_cache m).machine.d
        st1 (.slot i j)).kernargs ∧
    (read_ref (cache_kernel_dispatch_data rt kernel code_object stack_cache2
        (cache_kernel_dispatch_data rt kernel code_object stack_cache m).machine).machine.d
        stack_cache2 (.slot i j)).code_handle =
      (read_ref (cache_kernel_dispatch_data rt kernel code_object stack_cache m).machine.d
        st1 (.slot i j)).code_handle := by
  have h := outcome_of_value _ _ h1
  obtain ⟨d2, hk, h2⟩ := cache_kernel_dispatch_data_again rt kernel code_object stack_cache
    stack_cache2 st1 m _ i j h
  have hentry : read_ref d2 stack_cache2 (.slot i j) =
      read_ref (cache_kernel_dispatch_data rt kernel code_object stack_cache m).machine.d
        st1 (.slot i j) := by
    simp only [read_ref]
    rw [(hk.2.2.2.2.2 i).2.2]
  have hv2 : (cache_kernel_dispatch_data rt kernel code_object stack_cache2
      (cache_kernel_dispatch_data rt kernel code_object stack_cache m).machine).value? =
        some (.slot i j, stack_cache2) := by
    rw [h2]
    rfl
  have hm2 : (cache_kernel_dispatch_data rt kernel code_object stack_cache2
      (cache_kernel_dispatch_data rt kernel code_object stack_cache m).machine).machine.d =
        d2 := by
    rw [h2]
    rfl
  rw [hm2]
  exact ⟨hv2, hentry, by rw [hentry], by rw [hentry]⟩

/-- C10 as amended, on a device whose program slot 0 holds code object 5 and has a free
kernel entry: the first resolution builds the dispatch data into entry 0 of slot 0, the
second returns that entry. -/
theorem kernel_metadata_stable_witness :
    (cache_kernel_dispatch_data ex_runtime ex_kernel 5 zero_kernel_entry
      { ex_machine with d := ex_uncached_device }).value? =
        some (.slot 0 0, zero_kernel_entry) ∧
    (cache_kernel_dispatch_data ex_runtime ex_kernel 5 zero_kernel_entry
      (cache_kernel_dispatch_data ex_runtime ex_kernel 5 zero_kernel_entry
        { ex_machine with d := ex_uncached_device }).machine).value? =
          some (.slot 0 0, zero_kernel_entry) :=
  ⟨by decide,
    (kernel_metadata_stable ex_runtime ex_kernel 5 zero_kernel_entry zero_kernel_entry
      zero_kernel_entry { ex_machine with d := ex_uncached_device } 0 0 (by decide)).1⟩

/-- C10 as stated fails: the program cache is full and none of its slots holds code
object 5, so both resolutions build the dispatch data into the caller's stack record, and
the second one gets a newly allocated argument buffer and a newly loaded executable:
`kernargs` is 45056 the first time and 90112 the second, `code_handle` 24576 and
69632. -/
theorem kernel_metadata_counterexample :
    (cache_kernel_dispatch_data ex_runtime ex_kernel 5 zero_kernel_entry
      { ex_machine with d := ex_full_device }).value?.map
      (fun r => (r.1, r.2.kernargs, r.2.code_handle)) =
        some (.stack_cache, 45056, 24576) ∧
    (cache_kernel_dispatch_data ex_runtime ex_kernel 5 zero_kernel_entry
      (cache_kernel_dispatch_data ex_runtime ex_kernel 5 zero_kernel_entry
        { ex_machine with d := ex_full_device }).machine).value?.map
      (fun r => (r.1, r.2.kernargs, r.2.code_handle)) =
        some (.stack_cache, 90112, 69632) := by
  decide

/-! ## Lemmas on the dispatch -/

@[simp] theorem packet_store_d (m : machine) (slot : Nat) (f : packet_field) (v : Nat) :
    (packet_store m slot f v).d = m.d := rfl

@[simp] theorem packet_store_heap (m : machine) (slot : Nat) (f : packet_field) (v : Nat) :
    (packet_store m slot f v).heap = m.heap := rfl

theorem packet_store_packets (m : machine) (slot : Nat) (f : packet_field) (v : Nat) :
    (packet_store m slot f v).packets slot = (m.packets slot).set f v := by
  simp [packet_store]

theorem counter_after_all_eq (args : List kernel_arg) :
    ∀ c : Nat, counter_after_all (c % 2 ^ 32) args = (c + local_sizes args) % 2 ^ 32 := by
  induction args with
  | nil => intro c; simp [counter_after_all, local_sizes]
  | cons a rest ih =>
    intro c
    by_cases hloc : a.info.is_local = true
    · have h1 : counter_after (c % 2 ^ 32) a = (c + a.al.size) % 2 ^ 32 := by
        simp only [counter_after, hloc, if_true]
        omega
      have h2 : local_sizes (a :: rest) = a.al.size + local_sizes rest := by
        simp [local_sizes, hloc]
      rw [h2]
      show counter_after_all (counter_after (c % 2 ^ 32) a) rest = _
      rw [h1, ih, Nat.add_assoc]
    · have h1 : counter_after (c % 2 ^ 32) a = c % 2 ^ 32 := by
        simp [counter_after, hloc]
      have h2 : local_sizes (a :: rest) = local_sizes rest := by
        simp [local_sizes, hloc]
      rw [h2]
      show counter_after_all (counter_after (c % 2 ^ 32) a) rest = _
      rw [h1, ih]

@[simp] theorem trace_add_d (m : machine) (e : effect) : (trace_add m e).d = m.d := rfl

@[simp] theorem trace_add_heap (m : machine) (e : effect) : (trace_add m e).heap = m.heap :=
  rfl

@[simp] theorem trace_add_packets (m : machine) (e : effect) :
    (trace_add m e).packets = m.packets := rfl

@[simp] theorem set_heap_d (m : machine) (heap : Nat → Nat) : (set_heap m heap).d = m.d := rfl

@[simp] theorem set_heap_heap (m : machine) (heap : Nat → Nat) :
    (set_heap m heap).heap = heap := rfl

@[simp] theorem set_heap_packets (m : machine) (heap : Nat → Nat) :
    (set_heap m heap).packets = m.packets := rfl

@[simp] theorem fill_packet_d (cmd : _cl_command_node) (data : hsa_kernel_cache_t)
    (slot : Nat) (m : machine) : (fill_packet cmd data slot m).d = m.d := by
  simp only [fill_packet, packet_store_d, trace_add_d]

@[simp] theorem fill_packet_heap (cmd : _cl_command_node) (data : hsa_kernel_cache_t)
    (slot : Nat) (m : machine) : (fill_packet cmd data slot m).heap = m.heap := by
  simp only [fill_packet, packet_store_heap, trace_add_heap]

@[simp] theorem publish_d (data : hsa_kernel_cache_t) (slot queue_index : Nat) (m : machine) :
    (publish data slot queue_index m).d = m.d := rfl

@[simp] theorem publish_heap (data : hsa_kernel_cache_t) (slot queue_index : Nat)
    (m : machine) : (publish data slot queue_index m).heap = m.heap := rfl

theorem publish_group_segment_size (data : hsa_kernel_cache_t) (slot queue_index : Nat)
    (m : machine) :
    ((publish data slot queue_index m).packets slot).group_segment_size =
      (m.packets slot).group_segment_size := by
  simp [publish, packet_store, trace_add, hsa_kernel_dispatch_packet_t.set]

@[simp] theorem release_d (cached_data : cache_ref) (data : hsa_kernel_cache_t)
    (m : machine) : (release cached_data data m).d = m.d := by
  unfold release
  split <;> rfl

@[simp] theorem release_heap (cached_data : cache_ref) (data : hsa_kernel_cache_t)
    (m : machine) : (release cached_data data m).heap = m.heap := by
  unfold release
  split <;> rfl

@[simp] theorem release_packets (cached_data : cache_ref) (data : hsa_kernel_cache_t)
    (m : machine) : (release cached_data data m).packets = m.packets := by
  unfold release
  split <;> rfl

/-- What a dispatch that returned has done to the memory, the device data and the
group-segment field of its packet. -/
theorem dispatch_returned (rt : runtime) (cmd : _cl_command_node) (cached_data : cache_ref)
    (stack_cache : hsa_kernel_cache_t) (m : machine) (r : run_locals)
    (h : (dispatch rt cmd cached_data stack_cache m).value? = some r) :
    (setup_kernel_args cmd.device.dev_id (kernel_args cmd) m.heap
      (read_ref m.d stack_cache cached_data).kernargs
      (read_ref m.d stack_cache cached_data).args_segment_size
      ((read_ref m.d stack_cache cached_data).static_group_size % 2 ^ 32)).2 = none ∧
    (dispatch rt cmd cached_data stack_cache m).machine.heap =
      (setup_kernel_args cmd.device.dev_id (kernel_args cmd) m.heap
        (read_ref m.d stack_cache cached_data).kernargs
        (read_ref m.d stack_cache cached_data).args_segment_size
        ((read_ref m.d stack_cache cached_data).static_group_size % 2 ^ 32)).1.heap ∧
    (dispatch rt cmd cached_data stack_cache m).machine.d = m.d ∧
    r.cached_data = cached_data ∧ r.stack_cache = stack_cache ∧
    r.total_group_size =
      (setup_kernel_args cmd.device.dev_id (kernel_args cmd) m.heap
        (read_ref m.d stack_cache cached_data).kernargs
        (read_ref m.d stack_cache cached_data).args_segment_size
        ((read_ref m.d stack_cache cached_data).static_group_size % 2 ^ 32)).1.total_group_size ∧
    ((dispatch rt cmd cached_data stack_cache m).machine.packets
        (packet_slot m.d r.queue_index)).group_segment_size = r.total_group_size := by
  unfold dispatch at h ⊢
  simp only [fill_packet_heap, trace_add_heap] at h ⊢
  split at h
  · cases h
  · rename_i hm
    rw [hm]
    simp only
    split at h
    · cases h
    · rename_i hmem
      rw [if_neg hmem]
      split at h
      · cases h
      · rename_i hwait
        rw [if_neg hwait]
        simp only [outcome.value?, Option.some.injEq] at h
        subst h
        simp only [outcome.machine, release_heap, release_d, release_packets, trace_add_heap,
          trace_add_d, trace_add_packets, publish_heap, publish_d, packet_store_heap,
          packet_store_d, set_heap_heap, set_heap_d, fill_packet_d, packet_slot,
          publish_group_segment_size, packet_store_packets,
          hsa_kernel_dispatch_packet_t.set, and_self]


/-- The bytes at the position of one argument after all arguments were marshalled. -/
theorem encode_args_at (dev_id : Nat) (pre post : List kernel_arg) (a : kernel_arg)
    (heap : Nat → Nat) (p c k : Nat)
    (hall : ∀ b ∈ pre ++ a :: post, marshallable b = true ∧ well_formed dev_id b = true)
    (hk : k < encoded_size a) :
    memcpy heap p (encode_args dev_id c (pre ++ a :: post)) (p + args_size pre + k) =
      (encode_arg dev_id (counter_after_all c pre) a).getD k 0 := by
  have hpre : ∀ b ∈ pre, marshallable b = true ∧ well_formed dev_id b = true :=
    fun b hb => hall b (List.mem_append_left _ hb)
  have ha := hall a (by simp)
  have hprelen := encode_args_length dev_id pre c hpre
  have halen := encode_arg_length dev_id (counter_after_all c pre) a ha.1 ha.2
  rw [encode_args_append, encode_args, Nat.add_assoc, memcpy_inside]
  · rw [List.getD_append_right _ _ _ _ (by omega), hprelen]
    have h1 : args_size pre + k - args_size pre = k := by omega
    rw [h1, List.getD_append _ _ _ _ (by omega)]
  · simp only [List.length_append, hprelen, halen]
    omega

/-- What a run of `pocl_hsa_run` that returned has done: the code object was there, the
metadata was resolved, and the rest is the dispatch on the resolved metadata. -/
theorem pocl_hsa_run_returned (rt : runtime) (cmd : _cl_command_node)
    (stack_cache : hsa_kernel_cache_t) (m : machine) (r : run_locals)
    (h : (pocl_hsa_run rt cmd stack_cache m).value? = some r) :
    ∃ co m0 cd st, cmd.run.device_data = some co ∧
      cache_kernel_dispatch_data rt cmd.run.kernel co stack_cache
        { m with d := { m.d with current_kernel := cmd.run.kernel.addr } } =
          .returned m0 (cd, st) ∧
      pocl_hsa_run rt cmd stack_cache m = dispatch rt cmd cd st m0 := by
  unfold pocl_hsa_run at h ⊢
  dsimp only at h ⊢
  split at h
  · cases h
  · rename_i co hco
    split at h
    · cases h
    · rename_i m0 cd st hres
      exact ⟨co, m0, cd, st, hco, hres, rfl⟩

/-- The memory and the packet after a run of `pocl_hsa_run` that returned, in terms of the
metadata it used (`read_ref` of the returned pointer in the final state). -/
theorem pocl_hsa_run_marshalled (rt : runtime) (cmd : _cl_command_node)
    (stack_cache : hsa_kernel_cache_t) (m : machine) (r : run_locals)
    (h : (pocl_hsa_run rt cmd stack_cache m).value? = some r) :
    ∃ heap0,
      (∀ a ∈ kernel_args cmd, marshallable a = true ∧
        well_formed cmd.device.dev_id a = true) ∧
      (pocl_hsa_run rt cmd stack_cache m).machine.heap =
        memcpy heap0
          (read_ref (pocl_hsa_run rt cmd stack_cache m).machine.d r.stack_cache
            r.cached_data).kernargs
          (encode_args cmd.device.dev_id
            ((read_ref (pocl_hsa_run rt cmd stack_cache m).machine.d r.stack_cache
              r.cached_data).static_group_size % 2 ^ 32) (kernel_args cmd)) ∧
      r.total_group_size =
        ((read_ref (pocl_hsa_run rt cmd stack_cache m).machine.d r.stack_cache
          r.cached_data).static_group_size + local_sizes (kernel_args cmd)) % 2 ^ 32 ∧
      ((pocl_hsa_run rt cmd stack_cache m).machine.packets
        (packet_slot (pocl_hsa_run rt cmd stack_cache m).machine.d
          r.queue_index)).group_segment_size = r.total_group_size := by
  obtain ⟨co, m0, cd, st, _, _, hrun⟩ := pocl_hsa_run_returned rt cmd stack_cache m r h
  rw [hrun] at h ⊢
  obtain ⟨hok, hheap, hd, hcd, hst, htotal, hpacket⟩ := dispatch_returned rt cmd cd st m0 r h
  obtain ⟨hall, hres⟩ := setup_kernel_args_success _ _ _ _ _ _ hok
  rw [hd, hcd, hst]
  refine ⟨m0.heap, hall, ?_, ?_, hpacket⟩
  · rw [hheap, hres]
    rfl
  · rw [htotal, hres]
    exact counter_after_all_eq _ _

/-! ## The dispatch: local-memory offsets and the group-segment size -/

theorem checked_call_trace {α : Type} (rt : runtime) (tr : List effect) (c : effect)
    (msg : pocl_abort_msg) (next : Nat → List effect → List effect × Except pocl_stop α)
    (P : List effect → Prop) (hstop : P (tr ++ [c]))
    (hnext : ∀ v, P (next v (tr ++ [c])).1) :
    P (checked_call rt tr c msg next).1 := by
  unfold checked_call
  split
  · exact hstop
  · exact hnext _

/-- The finalization sequence invokes no external tool. -/
theorem finalize_program_toolchain (rt : runtime) (agent : Nat) (brigfile : String)
    (tr : List effect) :
    toolchain_calls (finalize_program rt agent brigfile tr).1 = toolchain_calls tr := by
  unfold finalize_program
  refine checked_call_trace rt _ _ _ _ (fun t => toolchain_calls t = toolchain_calls tr)
    ?_ (fun _ => ?_)
  · simp [toolchain_calls]
  refine checked_call_trace rt _ _ _ _ (fun t => toolchain_calls t = toolchain_calls tr)
    ?_ (fun _ => ?_)
  · simp [toolchain_calls]
  refine checked_call_trace rt _ _ _ _ (fun t => toolchain_calls t = toolchain_calls tr)
    ?_ (fun _ => ?_)
  · simp [toolchain_calls]
  refine checked_call_trace rt _ _ _ _ (fun t => toolchain_calls t = toolchain_calls tr)
    ?_ (fun _ => ?_)
  · simp [toolchain_calls]
  refine checked_call_trace rt _ _ _ _ (fun t => toolchain_calls t = toolchain_calls tr)
    ?_ (fun _ => ?_)
  · simp [toolchain_calls]
  refine checked_call_trace rt _ _ _ _ (fun t => toolchain_calls t = toolchain_calls tr)
    ?_ (fun _ => ?_)
  · simp [toolchain_calls]
  simp [toolchain_calls]

/-- The tools `compile_parallel_bc_to_brig` invokes when it returns 0: none when the
BRIG file exists, else the lowering step and then the assembling step, once each. -/
theorem compile_parallel_bc_to_brig_toolchain (cfg : toolchain_config) (rt : runtime)
    (tmpdir : String) (tr : List effect)
    (h : (compile_parallel_bc_to_brig cfg rt tmpdir tr).1 = 0) :
    toolchain_calls (compile_parallel_bc_to_brig cfg rt tmpdir tr).2 = toolchain_calls tr ∨
    toolchain_calls (compile_parallel_bc_to_brig cfg rt tmpdir tr).2 =
      toolchain_calls tr ++
        [.system (llc_command cfg tmpdir), .system (hsailasm_command cfg tmpdir)] := by
  unfold compile_parallel_bc_to_brig at h ⊢
  dsimp only at h ⊢
  split
  · left
    simp [toolchain_calls]
  · rename_i h1
    rw [if_neg h1] at h
    split
    · rename_i h2
      rw [if_pos h2] at h
      exact absurd h h2
    · rename_i h2
      rw [if_neg h2] at h
      split
      · rename_i h3
        rw [if_pos h3] at h
        exact absurd h h3
      · right
        simp [toolchain_calls]

theorem find_program_some (d : pocl_hsa_device_data) (program : Nat)
    (i : Fin HSA_PROGRAM_CACHE_SIZE) (h : find_program d program = some i) :
    (d.program_cache i).program = program := by
  have := (find_finRange_some _ _ h).1
  simpa using this

theorem find_program_none (d : pocl_hsa_device_data) (program : Nat)
    (h : find_program d program = none) (i : Fin HSA_PROGRAM_CACHE_SIZE) :
    (d.program_cache i).program ≠ program := by
  have := find_finRange_none _ h i
  simpa using this

/-- A compile call whose program is in the cache returns the cached code object and
leaves the whole state as it is. -/
theorem compile_hit (cfg : toolchain_config) (rt : runtime) (cmd : _cl_command_node)
    (m : machine) (i : Fin HSA_PROGRAM_CACHE_SIZE)
    (hty : cmd.type = .CL_COMMAND_NDRANGE_KERNEL)
    (hfind : find_program m.d cmd.run.kernel.program = some i) :
    pocl_hsa_compile_submitted_kernels cfg rt cmd m =
      .returned m
        { cmd with
          run := { cmd.run with device_data := some (m.d.program_cache i).code_object } } := by
  simp [pocl_hsa_compile_submitted_kernels, hty, hfind]

/-- Every outcome of a compile call whose program is not in the cache: the process
stopped with the device data untouched, or the call returned with a finalized code
object, stored in slot `program_cache_lastptr` if that is below the capacity and nowhere
otherwise. -/
theorem compile_miss (cfg : toolchain_config) (rt : runtime) (cmd : _cl_command_node)
    (m : machine) (hty : cmd.type = .CL_COMMAND_NDRANGE_KERNEL)
    (hfind : find_program m.d cmd.run.kernel.program = none) :
    (∃ tr stop, pocl_hsa_compile_submitted_kernels cfg rt cmd m =
        .stopped { m with trace := tr } stop) ∨
    (∃ tr code_object,
      (compile_parallel_bc_to_brig cfg rt cmd.run.tmp_dir m.trace).1 = 0 ∧
      finalize_program rt m.d.agent (brig_file cfg cmd.run.tmp_dir)
        (compile_parallel_bc_to_brig cfg rt cmd.run.tmp_dir m.trace).2 =
          (tr, .ok code_object) ∧
      ((∃ h : m.d.program_cache_lastptr < HSA_PROGRAM_CACHE_SIZE,
        pocl_hsa_compile_submitted_kernels cfg rt cmd m =
          .returned
            { m with
              trace := tr
              d := { m.d with
                program_cache := (Function.update m.d.program_cache
                  ⟨m.d.program_cache_lastptr, h⟩
                  { (m.d.program_cache ⟨m.d.program_cache_lastptr, h⟩) with
                    code_object := code_object, program := cmd.run.kernel.program })
                program_cache_lastptr := m.d.program_cache_lastptr + 1 } }
            { cmd with run := { cmd.run with device_data := some code_object } }) ∨
       (¬ m.d.program_cache_lastptr < HSA_PROGRAM_CACHE_SIZE ∧
        pocl_hsa_compile_submitted_kernels cfg rt cmd m =
          .returned { m with trace := tr }
            { cmd with run := { cmd.run with device_data := some code_object } }))) := by
  unfold pocl_hsa_compile_submitted_kernels
  simp only [hty, ne_eq, not_true_eq_false, if_false, hfind]
  split
  · exact Or.inl ⟨_, _, rfl⟩
  · rename_i hc
    split
    · rename_i tr stop hfin
      exact Or.inl ⟨_, _, rfl⟩
    · rename_i tr code_object hfin
      refine Or.inr ⟨tr, code_object, not_not.mp hc, hfin, ?_⟩
      split
      · rename_i h
        exact Or.inl ⟨h, rfl⟩
      · rename_i h
        exact Or.inr ⟨h, rfl⟩

theorem programs_eq_of_keys_eq {d d1 : pocl_hsa_device_data} (h : keys_eq d d1) :
    programs_eq d d1 :=
  ⟨h.2.2.2.2.1, fun i => ⟨(h.2.2.2.2.2 i).1, (h.2.2.2.2.2 i).2.1⟩⟩

theorem programs_eq_trans {d1 d2 d3 : pocl_hsa_device_data} (h12 : programs_eq d1 d2)
    (h23 : programs_eq d2 d3) : programs_eq d1 d3 :=
  ⟨h23.1.trans h12.1, fun i =>
    ⟨(h23.2 i).1.trans (h12.2 i).1, (h23.2 i).2.trans (h12.2 i).2⟩⟩

theorem programs_eq_write_ref (d : pocl_hsa_device_data) (stack_cache e : hsa_kernel_cache_t)
    (out : cache_ref) : programs_eq d (write_ref d stack_cache out e).1 := by
  cases out with
  | stack_cache => exact ⟨rfl, fun _ => ⟨rfl, rfl⟩⟩
  | slot i j =>
    refine ⟨rfl, fun k => ?_⟩
    by_cases hk : k = i
    · subst hk
      simp [write_ref]
    · simp [write_ref, Function.update_noteq hk]

/-- Resolving dispatch metadata never touches a program identity, a code object or
`program_cache_lastptr`, whatever its outcome. -/
theorem cache_kernel_dispatch_data_programs (rt : runtime) (kernel : _cl_kernel)
    (code_object : Nat) (stack_cache : hsa_kernel_cache_t) (m : machine) :
    programs_eq m.d
      (cache_kernel_dispatch_data rt kernel code_object stack_cache m).machine.d := by
  unfold cache_kernel_dispatch_data
  split
  · rename_i d1 i j hscan
    exact programs_eq_of_keys_eq (scan_programs_keys_found _ _ _ _ _ _ _ hscan)
  · rename_i s hscan
    have hk := programs_eq_of_keys_eq (scan_programs_keys_fell_through _ _ _ _ _ hscan)
    dsimp only
    split
    · exact programs_eq_trans hk (programs_eq_write_ref _ _ _ _)
    · exact hk

/-- The dispatch proper never changes the device data, whatever its outcome. -/
theorem dispatch_d (rt : runtime) (cmd : _cl_command_node) (cached_data : cache_ref)
    (stack_cache : hsa_kernel_cache_t) (m : machine) :
    (dispatch rt cmd cached_data stack_cache m).machine.d = m.d := by
  unfold dispatch
  dsimp only
  split
  · simp [outcome.machine]
  · split
    · simp [outcome.machine]
    · split
      · simp [outcome.machine]
      · simp [outcome.machine]

/-- A dispatch call never touches a program identity, a code object or
`program_cache_lastptr`, whatever its outcome. -/
theorem pocl_hsa_run_programs (rt : runtime) (cmd : _cl_command_node)
    (stack_cache : hsa_kernel_cache_t) (m : machine) :
    programs_eq m.d (pocl_hsa_run rt cmd stack_cache m).machine.d := by
  unfold pocl_hsa_run
  dsimp only
  split
  · exact ⟨rfl, fun _ => ⟨rfl, rfl⟩⟩
  · rename_i co hco
    have hc := cache_kernel_dispatch_data_programs rt cmd.run.kernel co stack_cache
      { m with d := { m.d with current_kernel := cmd.run.kernel.addr } }
    split
    · rename_i m1 stop hres
      rw [hres] at hc
      exact hc
    · rename_i m1 cd st hres
      rw [hres] at hc
      rw [dispatch_d]
      exact hc

/-- A compile call changes no program slot below `program_cache_lastptr` and keeps
`program_cache_lastptr` within the capacity, whatever its outcome. -/
theorem compile_frame (cfg : toolchain_config) (rt : runtime) (cmd : _cl_command_node)
    (m : machine) :
    (∀ i : Fin HSA_PROGRAM_CACHE_SIZE, i.val < m.d.program_cache_lastptr →
      (pocl_hsa_compile_submitted_kernels cfg rt cmd m).machine.d.program_cache i =
        m.d.program_cache i) ∧
    (m.d.program_cache_lastptr ≤ HSA_PROGRAM_CACHE_SIZE →
      (pocl_hsa_compile_submitted_kernels cfg rt cmd m).machine.d.program_cache_lastptr ≤
        HSA_PROGRAM_CACHE_SIZE) := by
  by_cases hty : cmd.type = .CL_COMMAND_NDRANGE_KERNEL
  · cases hfind : find_program m.d cmd.run.kernel.program with
    | some i =>
      rw [compile_hit cfg rt cmd m i hty hfind]
      exact ⟨fun _ _ => rfl, fun h => h⟩
    | none =>
      rcases compile_miss cfg rt cmd m hty hfind with
        ⟨tr, stop, h⟩ | ⟨tr, co, _, _, ⟨hlt, h⟩ | ⟨_, h⟩⟩
      · rw [h]
        exact ⟨fun _ _ => rfl, fun h => h⟩
      · rw [h]
        refine ⟨fun i hi => ?_, fun _ => hlt⟩
        have hne : i ≠ ⟨m.d.program_cache_lastptr, hlt⟩ := by
          intro heq
          rw [heq] at hi
          exact absurd hi (lt_irrefl _)
        simp [outcome.machine, Function.update_noteq hne]
      · rw [h]
        exact ⟨fun _ _ => rfl, fun h => h⟩
  · have h : pocl_hsa_compile_submitted_kernels cfg rt cmd m = .returned m cmd := by
      simp [pocl_hsa_compile_submitted_kernels, hty]
    rw [h]
    exact ⟨fun _ _ => rfl, fun h => h⟩

/-- In every reachable state `program_cache_lastptr` is within the capacity. -/
theorem reachable_lastptr (m : machine) (h : reachable m) :
    m.d.program_cache_lastptr ≤ HSA_PROGRAM_CACHE_SIZE := by
  induction h with
  | init => simp [zero_device]
  | compile cfg rt cmd cmd1 m m1 _ hstep ih =>
    have := (compile_frame cfg rt cmd m).2 ih
    rw [hstep] at this
    exact this
  | run rt cmd stack_cache m m1 r _ hstep ih =>
    have := (pocl_hsa_run_programs rt cmd stack_cache m).1
    rw [hstep] at this
    simp only [outcome.machine] at this
    rw [this]
    exact ih
  | memory m heap packets _ ih => exact ih

theorem checked_call_succeeds {α : Type} (rt : runtime) (tr : List effect) (c : effect)
    (msg : pocl_abort_msg) (next : Nat → List effect → List effect × Except pocl_stop α)
    (h : all_succeed rt) :
    checked_call rt tr c msg next = next (rt.reply tr c).value (tr ++ [c]) := by
  unfold checked_call
  rw [if_neg (not_not.mpr (h.1 tr c))]

/-- In a world in which no call fails, the compilation and the finalization succeed. -/
theorem finalize_program_succeeds (rt : runtime) (agent : Nat) (brigfile : String)
    (tr : List effect) (h : all_succeed rt) :
    ∃ tr1 code_object, finalize_program rt agent brigfile tr = (tr1, .ok code_object) := by
  unfold finalize_program
  simp only [checked_call_succeeds _ _ _ _ _ h]
  exact ⟨_, _, rfl⟩

theorem compile_parallel_bc_to_brig_succeeds (cfg : toolchain_config) (rt : runtime)
    (tmpdir : String) (tr : List effect) (h : all_succeed rt) :
    (compile_parallel_bc_to_brig cfg rt tmpdir tr).1 = 0 := by
  unfold compile_parallel_bc_to_brig
  dsimp only
  split
  · rfl
  · rw [if_neg (not_not.mpr (h.2 _ _))]
    split
    · rename_i h3
      exact absurd (h.2 _ _) h3
    · rfl

theorem ex_runtime_all_succeed : all_succeed ex_runtime := by
  refine ⟨fun tr c => ?_, fun tr command => rfl⟩
  cases c with
  | hsa_executable_symbol_get_info symbol attr => cases attr <;> rfl
  | _ => rfl

/-- From a reachable state with a free program slot, compiling a program that is in no
slot leads to a reachable state with one more slot taken. -/
theorem reachable_fill_one (m : machine) (n : Nat) (hreach : reachable m)
    (hn : m.d.program_cache_lastptr = n) (hlt : n < HSA_PROGRAM_CACHE_SIZE)
    (hle : ∀ i, (m.d.program_cache i).program ≤ n) :
    ∃ m1, reachable m1 ∧ m1.d.program_cache_lastptr = n + 1 ∧
      ∀ i, (m1.d.program_cache i).program ≤ n + 1 := by
  have hfind : find_program m.d (n + 1) = none := by
    unfold find_program
    rw [List.find?_eq_none]
    intro i _
    have := hle i
    simp only [decide_eq_true_eq]
    omega
  have hrun := compile_miss ex_config ex_runtime
    { (ex_command []) with
      run := { (ex_command []).run with kernel := { ex_kernel with program := n + 1 } } }
    m rfl hfind
  have hnot : ∀ tr stop, pocl_hsa_compile_submitted_kernels ex_config ex_runtime
      { (ex_command []) with
        run := { (ex_command []).run with kernel := { ex_kernel with program := n + 1 } } }
      m ≠ .stopped { m with trace := tr } stop := by
    intro tr stop h
    have hzero := compile_parallel_bc_to_brig_succeeds ex_config ex_runtime "/tmp" m.trace
      ex_runtime_all_succeed
    obtain ⟨tr1, co, hfin⟩ := finalize_program_succeeds ex_runtime m.d.agent
      (brig_file ex_config "/tmp")
      (compile_parallel_bc_to_brig ex_config ex_runtime "/tmp" m.trace).2
      ex_runtime_all_succeed
    unfold pocl_hsa_compile_submitted_kernels at h
    simp only [ex_command, ne_eq, not_true_eq_false, if_false, hfind, hzero, hfin] at h
    split at h <;> cases h
  rcases hrun with ⟨tr, stop, h⟩ | ⟨tr, co, _, _, ⟨hlt1, h⟩ | ⟨hnot1, _⟩⟩
  · exact absurd h (hnot tr stop)
  · refine ⟨_, reachable.compile _ _ _ _ _ _ hreach h, by simp [hn], fun i => ?_⟩
    by_cases hi : i = ⟨m.d.program_cache_lastptr, hlt1⟩
    · subst hi
      simp
    · have := hle i
      simp only [Function.update_noteq hi]
      omega
  · exact absurd (hn ▸ hlt) hnot1

theorem reachable_fill (n : Nat) (hn : n ≤ HSA_PROGRAM_CACHE_SIZE) :
    ∃ m, reachable m ∧ m.d.program_cache_lastptr = n ∧
      ∀ i, (m.d.program_cache i).program ≤ n := by
  induction n with
  | zero =>
    exact ⟨ex_machine,
      reachable.init 1 2 { size := 4, doorbell_signal := 9 } ex_heap (fun _ => zero_packet) [],
      rfl, fun _ => Nat.le_refl _⟩
  | succ k ih =>
    obtain ⟨m, hreach, hk, hle⟩ := ih (Nat.le_of_succ_le hn)
    exact reachable_fill_one m k hreach hk hn hle

/-- A state in which all 32 program slots are taken is reachable. -/
theorem reachable_full :
    ∃ m, reachable m ∧ m.d.program_cache_lastptr = HSA_PROGRAM_CACHE_SIZE := by
  obtain ⟨m, hreach, hfull, _⟩ := reachable_fill HSA_PROGRAM_CACHE_SIZE (Nat.le_refl _)
  exact ⟨m, hreach, hfull⟩

/-! ## The program cache: repeated compilation and the append-only invariant -/

/-- C7, as the code has it: when the program is already in the program cache, or the
cache still has a free slot, then after a compile call for a kernel-dispatch command
that returned, the next compile call for a command of the same program returns the same
code-object handle and leaves the whole state as it is (no tool is invoked, nothing is
finalized, the program cache does not change); the first call invoked the tools at most
once (nothing, or the lowering step followed by the assembling step); and on a
program-cache hit the first call too returns the cached code object and changes
nothing. -/
theorem compile_twice (cfg : toolchain_config) (rt : runtime) (cmd cmd2 : _cl_command_node)
    (m : machine) (hty : cmd.type = .CL_COMMAND_NDRANGE_KERNEL)
    (hty2 : cmd2.type = .CL_COMMAND_NDRANGE_KERNEL)
    (hprog : cmd2.run.kernel.program = cmd.run.kernel.program)
    (hroom : (find_program m.d cmd.run.kernel.program).isSome = true ∨
      m.d.program_cache_lastptr < HSA_PROGRAM_CACHE_SIZE)
    (h1 : (pocl_hsa_compile_submitted_kernels cfg rt cmd m).value?.isSome = true) :
    ∃ code_object,
      (pocl_hsa_compile_submitted_kernels cfg rt cmd m).value?.map
        (fun c => c.run.device_data) = some (some code_object) ∧
      pocl_hsa_compile_submitted_kernels cfg rt cmd2
          (pocl_hsa_compile_submitted_kernels cfg rt cmd m).machine =
        .returned (pocl_hsa_compile_submitted_kernels cfg rt cmd m).machine
          { cmd2 with run := { cmd2.run with device_data := some code_object } } ∧
      (toolchain_calls (pocl_hsa_compile_submitted_kernels cfg rt cmd m).machine.trace =
          toolchain_calls m.trace ∨
        toolchain_calls (pocl_hsa_compile_submitted_kernels cfg rt cmd m).machine.trace =
          toolchain_calls m.trace ++
            [.system (llc_command cfg cmd.run.tmp_dir),
              .system (hsailasm_command cfg cmd.run.tmp_dir)]) ∧
      (∀ i, find_program m.d cmd.run.kernel.program = some i →
        (pocl_hsa_compile_submitted_kernels cfg rt cmd m).machine = m ∧
          code_object = (m.d.program_cache i).code_object) := by
  cases hfind : find_program m.d cmd.run.kernel.program with
  | some i =>
    have hres := compile_hit cfg rt cmd m i hty hfind
    rw [hres]
    refine ⟨(m.d.program_cache i).code_object, rfl, ?_, Or.inl rfl, fun i1 hi1 => ?_⟩
    · exact compile_hit cfg rt cmd2 m i hty2 (by rw [hprog]; exact hfind)
    · cases hi1
      exact ⟨rfl, rfl⟩
  | none =>
    have hlt : m.d.program_cache_lastptr < HSA_PROGRAM_CACHE_SIZE := by
      rcases hroom with h | h
      · rw [hfind] at h
        cases h
      · exact h
    rcases compile_miss cfg rt cmd m hty hfind with
      ⟨tr, stop, h⟩ | ⟨tr, co, hzero, hfin, ⟨hlt1, h⟩ | ⟨hnot, _⟩⟩
    · rw [h] at h1
      cases h1
    · rw [h]
      refine ⟨co, rfl, ?_, ?_, fun i1 hi1 => by cases hi1⟩
      · generalize hm1 : (outcome.returned
            { m with
              trace := tr
              d := { m.d with
                program_cache := (Function.update m.d.program_cache
                  ⟨m.d.program_cache_lastptr, hlt1⟩
                  { (m.d.program_cache ⟨m.d.program_cache_lastptr, hlt1⟩) with
                    code_object := co, program := cmd.run.kernel.program })
                program_cache_lastptr := m.d.program_cache_lastptr + 1 } }
            { cmd with run := { cmd.run with device_data := some co } } :
              outcome _cl_command_node).machine = m1
        have hd1 : m1.d.program_cache = Function.update m.d.program_cache
            ⟨m.d.program_cache_lastptr, hlt1⟩
            { (m.d.program_cache ⟨m.d.program_cache_lastptr, hlt1⟩) with
              code_object := co, program := cmd.run.kernel.program } := by
          rw [← hm1]
          rfl
        have hfind2 : find_program m1.d cmd2.run.kernel.program =
            some ⟨m.d.program_cache_lastptr, hlt1⟩ := by
          apply find_finRange_first
          · rw [hd1]
            simp [hprog]
          · intro a ha
            have hne : a ≠ ⟨m.d.program_cache_lastptr, hlt1⟩ := ne_of_lt ha
            rw [hd1]
            simp only [Function.update_noteq hne, hprog, decide_eq_false_iff_not]
            exact find_program_none m.d _ hfind a
        rw [compile_hit cfg rt cmd2 m1 _ hty2 hfind2, hd1]
        simp
      · have h2 := finalize_program_toolchain rt m.d.agent (brig_file cfg cmd.run.tmp_dir)
          (compile_parallel_bc_to_brig cfg rt cmd.run.tmp_dir m.trace).2
        rw [hfin] at h2
        simp only [outcome.machine]
        rw [h2]
        exact compile_parallel_bc_to_brig_toolchain cfg rt cmd.run.tmp_dir m.trace hzero
    · exact absurd hlt hnot

/-- C7 as amended, on a freshly initialised device: the first compile of program 3
finalizes code object 24576 and stores it in slot 0, the second returns it from there. -/
theorem compile_twice_witness :
    (ex_command []).type = .CL_COMMAND_NDRANGE_KERNEL ∧
    ((find_program ex_machine.d (ex_command []).run.kernel.program).isSome = true ∨
      ex_machine.d.program_cache_lastptr < HSA_PROGRAM_CACHE_SIZE) ∧
    (pocl_hsa_compile_submitted_kernels ex_config ex_runtime (ex_command [])
      ex_machine).value?.isSome = true ∧
    (∃ code_object,
      (pocl_hsa_compile_submitted_kernels ex_config ex_runtime (ex_command [])
        ex_machine).value?.map (fun c => c.run.device_data) = some (some code_object) ∧
      pocl_hsa_compile_submitted_kernels ex_config ex_runtime (ex_command [])
          (pocl_hsa_compile_submitted_kernels ex_config ex_runtime (ex_command [])
            ex_machine).machine =
        .returned
          (pocl_hsa_compile_submitted_kernels ex_config ex_runtime (ex_command [])
            ex_machine).machine
          { (ex_command []) with
            run := { (ex_command []).run with device_data := some code_object } }) := by
  refine ⟨rfl, Or.inr (by decide), by decide, ?_⟩
  obtain ⟨co, h1, h2, _⟩ := compile_twice ex_config ex_runtime (ex_command []) (ex_command [])
    ex_machine rfl rfl rfl (Or.inr (by decide)) (by decide)
  exact ⟨co, h1, h2⟩

/-- C7 as stated fails: all 32 program slots are taken by other programs.  Two consecutive
compile calls for program 3 both return, the first with code object 24576 and the second
with code object 53248, and the second call finalizes again. -/
theorem compile_twice_counterexample :
    find_program ex_full_device (ex_command []).run.kernel.program = none ∧
    (pocl_hsa_compile_submitted_kernels ex_config ex_runtime (ex_command [])
      { ex_machine with d := ex_full_device }).value?.map (fun c => c.run.device_data) =
        some (some 24576) ∧
    (pocl_hsa_compile_submitted_kernels ex_config ex_runtime (ex_command [])
      (pocl_hsa_compile_submitted_kernels ex_config ex_runtime (ex_command [])
        { ex_machine with d := ex_full_device }).machine).value?.map
          (fun c => c.run.device_data) = some (some 53248) ∧
    (finalize_calls
      (pocl_hsa_compile_submitted_kernels ex_config ex_runtime (ex_command [])
        (pocl_hsa_compile_submitted_kernels ex_config ex_runtime (ex_command [])
          { ex_machine with d := ex_full_device }).machine).machine.trace).length = 2 := by
  decide

/-- C8. In every state reachable from a zero-initialised device by compile and dispatch
calls, `program_cache_lastptr` is at most 32; no compile call and no dispatch call,
whatever its outcome, changes the program identity or the code object of an occupied
program slot (a dispatch call changes none at all, nor `program_cache_lastptr`); and when
all 32 slots are occupied, a compile of a program that is not in the cache leaves the
device data unchanged, returns with a code object whenever it returns, and does return
when no call of the outside world fails. -/
theorem program_cache_append_only (m : machine) (hreach : reachable m) :
    m.d.program_cache_lastptr ≤ HSA_PROGRAM_CACHE_SIZE ∧
    (∀ (cfg : toolchain_config) (rt : runtime) (cmd : _cl_command_node)
        (i : Fin HSA_PROGRAM_CACHE_SIZE), i.val < m.d.program_cache_lastptr →
      ((pocl_hsa_compile_submitted_kernels cfg rt cmd m).machine.d.program_cache i).program =
          (m.d.program_cache i).program ∧
        ((pocl_hsa_compile_submitted_kernels cfg rt cmd m).machine.d.program_cache
          i).code_object = (m.d.program_cache i).code_object) ∧
    (∀ (rt : runtime) (cmd : _cl_command_node) (stack_cache : hsa_kernel_cache_t),
      (pocl_hsa_run rt cmd stack_cache m).machine.d.program_cache_lastptr =
          m.d.program_cache_lastptr ∧
        ∀ i : Fin HSA_PROGRAM_CACHE_SIZE,
          ((pocl_hsa_run rt cmd stack_cache m).machine.d.program_cache i).program =
              (m.d.program_cache i).program ∧
            ((pocl_hsa_run rt cmd stack_cache m).machine.d.program_cache i).code_object =
              (m.d.program_cache i).code_object) ∧
    (m.d.program_cache_lastptr = HSA_PROGRAM_CACHE_SIZE →
      ∀ (cfg : toolchain_config) (rt : runtime) (cmd : _cl_command_node),
        cmd.type = .CL_COMMAND_NDRANGE_KERNEL →
        find_program m.d cmd.run.kernel.program = none →
        (pocl_hsa_compile_submitted_kernels cfg rt cmd m).machine.d = m.d ∧
        (∀ cmd1, (pocl_hsa_compile_submitted_kernels cfg rt cmd m).value? = some cmd1 →
          ∃ code_object, cmd1.run.device_data = some code_object) ∧
        (all_succeed rt →
          ∃ cmd1, (pocl_hsa_compile_submitted_kernels cfg rt cmd m).value? = some cmd1)) := by
  refine ⟨reachable_lastptr m hreach, fun cfg rt cmd i hi => ?_, fun rt cmd stack_cache => ?_,
    fun hfull cfg rt cmd hty hfind => ?_⟩
  · rw [(compile_frame cfg rt cmd m).1 i hi]
    exact ⟨rfl, rfl⟩
  · exact pocl_hsa_run_programs rt cmd stack_cache m
  · have hnot : ¬ m.d.program_cache_lastptr < HSA_PROGRAM_CACHE_SIZE := by
      rw [hfull]
      exact lt_irrefl _
    refine ⟨?_, ?_, ?_⟩
    · rcases compile_miss cfg rt cmd m hty hfind with
        ⟨tr, stop, h⟩ | ⟨tr, co, _, _, ⟨hlt, _⟩ | ⟨_, h⟩⟩
      · rw [h]
        rfl
      · exact absurd hlt hnot
      · rw [h]
        rfl
    · intro cmd1 hret
      rcases compile_miss cfg rt cmd m hty hfind with
        ⟨tr, stop, h⟩ | ⟨tr, co, _, _, ⟨hlt, _⟩ | ⟨_, h⟩⟩
      · rw [h] at hret
        cases hret
      · exact absurd hlt hnot
      · rw [h] at hret
        simp only [outcome.value?, Option.some.injEq] at hret
        exact ⟨co, by rw [← hret]⟩
    · intro hall
      rcases compile_miss cfg rt cmd m hty hfind with
        ⟨tr, stop, h⟩ | ⟨tr, co, _, _, ⟨hlt, _⟩ | ⟨_, h⟩⟩
      · exfalso
        have hzero := compile_parallel_bc_to_brig_succeeds cfg rt cmd.run.tmp_dir m.trace hall
        obtain ⟨tr1, co, hfin⟩ := finalize_program_succeeds rt m.d.agent
          (brig_file cfg cmd.run.tmp_dir)
          (compile_parallel_bc_to_brig cfg rt cmd.run.tmp_dir m.trace).2 hall
        unfold pocl_hsa_compile_submitted_kernels at h
        simp only [hty, ne_eq, not_true_eq_false, if_false, hfind, hzero, hfin, dif_neg hnot]
          at h
        cases h
      · exact absurd hlt hnot
      · rw [h]
        exact ⟨_, rfl⟩

/-- A compile call returns when no call of the outside world fails. -/
theorem compile_returns (cfg : toolchain_config) (rt : runtime) (cmd : _cl_command_node)
    (m : machine) (hall : all_succeed rt) :
    (pocl_hsa_compile_submitted_kernels cfg rt cmd m).value?.isSome = true := by
  by_cases hty : cmd.type = .CL_COMMAND_NDRANGE_KERNEL
  · cases hfind : find_program m.d cmd.run.kernel.program with
    | some i0 =>
      rw [compile_hit cfg rt cmd m i0 hty hfind]
      rfl
    | none =>
      have hzero := compile_parallel_bc_to_brig_succeeds cfg rt cmd.run.tmp_dir m.trace hall
      obtain ⟨tr1, co, hfin⟩ := finalize_program_succeeds rt m.d.agent
        (brig_file cfg cmd.run.tmp_dir)
        (compile_parallel_bc_to_brig cfg rt cmd.run.tmp_dir m.trace).2 hall
      unfold pocl_hsa_compile_submitted_kernels
      simp only [hty, ne_eq, not_true_eq_false, if_false, hfind, hzero, hfin]
      split <;> rfl
  · have h : pocl_hsa_compile_submitted_kernels cfg rt cmd m = .returned m cmd := by
      simp [pocl_hsa_compile_submitted_kernels, hty]
    rw [h]
    rfl

/-- The states `ex_filled n` are reachable. -/
theorem ex_filled_reachable (n : Nat) : reachable (ex_filled n) := by
  induction n with
  | zero =>
    exact reachable.init 1 2 { size := 4, doorbell_signal := 9 } ex_heap
      (fun _ => zero_packet) []
  | succ k ih =>
    obtain ⟨cmd1, h⟩ := outcome_returned_of_isSome
      (pocl_hsa_compile_submitted_kernels ex_config ex_runtime (ex_command_of (k + 1))
        (ex_filled k))
      (compile_returns _ _ _ _ ex_runtime_all_succeed)
    exact reachable.compile _ _ _ _ _ _ ih h

/-- After `n` of the compile calls, `n` program slots are taken, by programs up to `n`. -/
theorem ex_filled_programs (n : Nat) (hn : n ≤ HSA_PROGRAM_CACHE_SIZE) :
    (ex_filled n).d.program_cache_lastptr = n ∧
      ∀ i, ((ex_filled n).d.program_cache i).program ≤ n := by
  induction n with
  | zero => exact ⟨rfl, fun _ => Nat.le_refl _⟩
  | succ k ih =>
    obtain ⟨hk, hle⟩ := ih (Nat.le_of_succ_le hn)
    have hfind : find_program (ex_filled k).d (ex_command_of (k + 1)).run.kernel.program =
        none := by
      unfold find_program
      rw [List.find?_eq_none]
      intro i _
      have := hle i
      simp only [ex_command_of, ex_kernel, decide_eq_true_eq]
      omega
    have hret := compile_returns ex_config ex_runtime (ex_command_of (k + 1)) (ex_filled k)
      ex_runtime_all_succeed
    have hm : ex_filled (k + 1) =
        (pocl_hsa_compile_submitted_kernels ex_config ex_runtime (ex_command_of (k + 1))
          (ex_filled k)).machine := rfl
    rw [hm]
    rcases compile_miss ex_config ex_runtime (ex_command_of (k + 1)) (ex_filled k) rfl hfind
      with ⟨tr, stop, h⟩ | ⟨tr, co, _, _, ⟨hlt1, h⟩ | ⟨hnot1, _⟩⟩
    · rw [h] at hret
      cases hret
    · rw [h]
      refine ⟨by simp [outcome.machine, hk], fun i => ?_⟩
      by_cases hi : i = ⟨(ex_filled k).d.program_cache_lastptr, hlt1⟩
      · subst hi
        simp [outcome.machine, ex_command_of, ex_kernel]
      · have := hle i
        simp only [outcome.machine, Function.update_noteq hi]
        omega
    · exact absurd (by rw [hk]; exact hn) hnot1

theorem ex_filled_full : (ex_filled 32).d.program_cache_lastptr = 32 :=
  (ex_filled_programs 32 (Nat.le_refl _)).1

theorem ex_filled_uncached :
    find_program (ex_filled 32).d (ex_command_of 99).run.kernel.program = none := by
  unfold find_program
  rw [List.find?_eq_none]
  intro i _
  have := (ex_filled_programs 32 (Nat.le_refl _)).2 i
  simp only [ex_command_of, ex_kernel, decide_eq_true_eq]
  omega

/-- C8, on two reachable states.  After one compile call slot 0 is occupied and 31 slots
are free: a compile of program 2 leaves the program and the code object of slot 0.
After 32 compile calls all 32 slots are occupied: the counter is 32; a compile of
program 99, which is not in the cache, and a dispatch leave the program and the code
object of slot 31 and the counter; and the compile of program 99 leaves the device data
unchanged and returns. -/
theorem program_cache_append_only_witness :
    (reachable (ex_filled 1) ∧
      (0 : Fin HSA_PROGRAM_CACHE_SIZE).val < (ex_filled 1).d.program_cache_lastptr ∧
      ((pocl_hsa_compile_submitted_kernels ex_config ex_runtime (ex_command_of 2)
          (ex_filled 1)).machine.d.program_cache 0).program =
        ((ex_filled 1).d.program_cache 0).program ∧
      ((pocl_hsa_compile_submitted_kernels ex_config ex_runtime (ex_command_of 2)
          (ex_filled 1)).machine.d.program_cache 0).code_object =
        ((ex_filled 1).d.program_cache 0).code_object) ∧
    (reachable (ex_filled 32) ∧
      (ex_filled 32).d.program_cache_lastptr ≤ HSA_PROGRAM_CACHE_SIZE ∧
      (31 : Fin HSA_PROGRAM_CACHE_SIZE).val < (ex_filled 32).d.program_cache_lastptr ∧
      (((pocl_hsa_compile_submitted_kernels ex_config ex_runtime (ex_command_of 99)
            (ex_filled 32)).machine.d.program_cache 31).program =
          ((ex_filled 32).d.program_cache 31).program ∧
        ((pocl_hsa_compile_submitted_kernels ex_config ex_runtime (ex_command_of 99)
            (ex_filled 32)).machine.d.program_cache 31).code_object =
          ((ex_filled 32).d.program_cache 31).code_object) ∧
      ((pocl_hsa_run ex_runtime (ex_command []) zero_kernel_entry
            (ex_filled 32)).machine.d.program_cache_lastptr =
          (ex_filled 32).d.program_cache_lastptr ∧
        ((pocl_hsa_run ex_runtime (ex_command []) zero_kernel_entry
            (ex_filled 32)).machine.d.program_cache 31).program =
          ((ex_filled 32).d.program_cache 31).program ∧
        ((pocl_hsa_run ex_runtime (ex_command []) zero_kernel_entry
            (ex_filled 32)).machine.d.program_cache 31).code_object =
          ((ex_filled 32).d.program_cache 31).code_object) ∧
      (ex_filled 32).d.program_cache_lastptr = HSA_PROGRAM_CACHE_SIZE ∧
      (ex_command_of 99).type = .CL_COMMAND_NDRANGE_KERNEL ∧
      find_program (ex_filled 32).d (ex_command_of 99).run.kernel.program = none ∧
      all_succeed ex_runtime ∧
      (pocl_hsa_compile_submitted_kernels ex_config ex_runtime (ex_command_of 99)
        (ex_filled 32)).machine.d = (ex_filled 32).d ∧
      (∃ cmd1, (pocl_hsa_compile_submitted_kernels ex_config ex_runtime (ex_command_of 99)
        (ex_filled 32)).value? = some cmd1)) :=
  ⟨⟨ex_filled_reachable 1, by decide,
      (program_cache_append_only (ex_filled 1) (ex_filled_reachable 1)).2.1 ex_config
        ex_runtime (ex_command_of 2) 0 (by decide)⟩,
    ⟨ex_filled_reachable 32,
      (program_cache_append_only (ex_filled 32) (ex_filled_reachable 32)).1,
      by rw [ex_filled_full]; decide,
      (program_cache_append_only (ex_filled 32) (ex_filled_reachable 32)).2.1 ex_config
        ex_runtime (ex_command_of 99) 31 (by rw [ex_filled_full]; decide),
      ⟨((program_cache_append_only (ex_filled 32) (ex_filled_reachable 32)).2.2.1
          ex_runtime (ex_command []) zero_kernel_entry).1,
        ((program_cache_append_only (ex_filled 32) (ex_filled_reachable 32)).2.2.1
          ex_runtime (ex_command []) zero_kernel_entry).2 31⟩,
      ex_filled_full, rfl, ex_filled_uncached, ex_runtime_all_succeed,
      ((program_cache_append_only (ex_filled 32) (ex_filled_reachable 32)).2.2.2
        ex_filled_full ex_config ex_runtime (ex_command_of 99) rfl ex_filled_uncached).1,
      ((program_cache_append_only (ex_filled 32) (ex_filled_reachable 32)).2.2.2
        ex_filled_full ex_config ex_runtime (ex_command_of 99) rfl ex_filled_uncached).2.2
        ex_runtime_all_succeed⟩⟩

/-! ## Lemmas on building the dispatch data -/

theorem build_dispatch_data_ok (rt : runtime) (kernel : _cl_kernel)
    (agent kernarg_region code_object : Nat) (e : hsa_kernel_cache_t)
    (tr tr1 : List effect)
    (h : build_dispatch_data rt kernel agent kernarg_region code_object tr = (tr1, .ok e)) :
    ∃ kernel_symbol,
      tr1 = tr ++ metadata_calls kernel agent kernarg_region code_object kernel_symbol e ∧
      complete_metadata rt tr
        (metadata_calls kernel agent kernarg_region code_object kernel_symbol e) kernel
        kernel_symbol e := by
  unfold build_dispatch_data at h
  have h := (checked_call_ok _ _ _ _ _ _ _ h).2
  have h := (checked_call_ok _ _ _ _ _ _ _ h).2
  have h := (checked_call_ok _ _ _ _ _ _ _ h).2
  have h := (checked_call_ok _ _ _ _ _ _ _ h).2
  dsimp only at h
  split at h
  · cases h
  rename_i hkind
  have h := (checked_call_ok _ _ _ _ _ _ _ h).2
  have h := (checked_call_ok _ _ _ _ _ _ _ h).2
  have h := (checked_call_ok _ _ _ _ _ _ _ h).2
  have h := (checked_call_ok _ _ _ _ _ _ _ h).2
  have h := (checked_call_ok _ _ _ _ _ _ _ h).2
  have h := (checked_call_ok _ _ _ _ _ _ _ h).2
  simp only [Prod.mk.injEq, Except.ok.injEq] at h
  obtain ⟨htr, he⟩ := h
  simp only [List.append_assoc, List.singleton_append, List.cons_append,
    List.nil_append] at htr hkind he
  subst he
  refine ⟨?_, ?_, ?_⟩
  pick_goal 2
  · exact htr.symm
  · simp only [complete_metadata, reply_value, metadata_calls, List.getElem?_cons_zero,
      List.getElem?_cons_succ, List.take_zero, List.take_succ_cons, List.append_nil,
      List.append_assoc, List.singleton_append, List.cons_append, List.nil_append,
      true_and, and_true]
    exact not_not.mp hkind

/-- In a world in which no call fails and every symbol is a kernel, the dispatch data is
built. -/
theorem build_dispatch_data_succeeds (rt : runtime) (kernel : _cl_kernel)
    (agent kernarg_region code_object : Nat) (tr : List effect) (hall : all_succeed rt)
    (hkern : symbols_are_kernels rt) :
    ∃ tr1 e, build_dispatch_data rt kernel agent kernarg_region code_object tr =
      (tr1, .ok e) := by
  unfold symbols_are_kernels at hkern
  unfold build_dispatch_data
  simp only [checked_call_succeeds _ _ _ _ _ hall, hkern, ne_eq, not_true_eq_false, if_false]
  exact ⟨_, _, rfl⟩

/-! ## Lemmas on the scan when one program slot matches, or none -/

theorem find_kernel_none (p : hsa_program_cache_t) (kernel : Nat)
    (h : ∀ j, (p.kernel_cache j).kernel ≠ kernel) : find_kernel p kernel = none := by
  unfold find_kernel
  rw [List.find?_eq_none]
  intro j _
  simpa using h j

theorem scan_programs_no_match (kernel code_object : Nat) :
    ∀ (l : List (Fin HSA_PROGRAM_CACHE_SIZE)) (s : scan_state),
      (∀ a ∈ l, (s.d.program_cache a).code_object ≠ code_object) →
      scan_programs kernel code_object l s = .fell_through s := by
  intro l
  induction l with
  | nil => intro s _; rfl
  | cons a rest ih =>
    intro s h
    rw [scan_programs, if_neg (h a (List.mem_cons_self _ _))]
    exact ih s (fun b hb => h b (List.mem_cons_of_mem _ hb))

theorem scan_programs_skip (kernel code_object : Nat)
    (rest : List (Fin HSA_PROGRAM_CACHE_SIZE)) :
    ∀ (pre : List (Fin HSA_PROGRAM_CACHE_SIZE)) (s : scan_state),
      (∀ a ∈ pre, (s.d.program_cache a).code_object ≠ code_object) →
      scan_programs kernel code_object (pre ++ rest) s =
        scan_programs kernel code_object rest s := by
  intro pre
  induction pre with
  | nil => intro s _; rfl
  | cons a pre ih =>
    intro s h
    rw [List.cons_append, scan_programs, if_neg (h a (List.mem_cons_self _ _))]
    exact ih s (fun b hb => h b (List.mem_cons_of_mem _ hb))

/-- The scan when slot `i` is the only matching slot, lacks the kernel and is full. -/
theorem scan_programs_unique_full (kernel code_object : Nat) (d : pocl_hsa_device_data)
    (i : Fin HSA_PROGRAM_CACHE_SIZE)
    (hmatch : (d.program_cache i).code_object = code_object)
    (hunique : ∀ a, (d.program_cache a).code_object = code_object → a = i)
    (hnone : find_kernel (d.program_cache i) kernel = none)
    (hfull : ¬ (d.program_cache i).kernel_cache_lastptr < HSA_KERNEL_CACHE_SIZE) :
    scan_programs kernel code_object (List.finRange HSA_PROGRAM_CACHE_SIZE)
        { d := d, p_out := none } =
      .fell_through { d := d, p_out := some (i, .stack_cache) } := by
  obtain ⟨pre, post, hsplit, hpre, hpost⟩ := finRange_split i
  rw [hsplit, scan_programs_skip kernel code_object _ pre _
    (fun a ha h => absurd (hunique a h) (ne_of_lt (hpre a ha))),
    scan_programs, if_pos hmatch]
  simp only [hnone, dif_neg hfull]
  exact scan_programs_no_match kernel code_object post _
    (fun a ha h => absurd (hunique a h) (ne_of_gt (hpost a ha)))

/-- The scan when slot `i` is the only matching slot, lacks the kernel and has a free
entry. -/
theorem scan_programs_unique_free (kernel code_object : Nat) (d : pocl_hsa_device_data)
    (i : Fin HSA_PROGRAM_CACHE_SIZE)
    (hmatch : (d.program_cache i).code_object = code_object)
    (hunique : ∀ a, (d.program_cache a).code_object = code_object → a = i)
    (hnone : find_kernel (d.program_cache i) kernel = none)
    (hfree : (d.program_cache i).kernel_cache_lastptr < HSA_KERNEL_CACHE_SIZE) :
    scan_programs kernel code_object (List.finRange HSA_PROGRAM_CACHE_SIZE)
        { d := d, p_out := none } =
      .fell_through
        { d := { d with program_cache := (Function.update d.program_cache i
                  { (d.program_cache i) with
                    kernel_cache_lastptr := (d.program_cache i).kernel_cache_lastptr + 1 }) }
          p_out := some (i, .slot i ⟨(d.program_cache i).kernel_cache_lastptr, hfree⟩) } := by
  obtain ⟨pre, post, hsplit, hpre, hpost⟩ := finRange_split i
  rw [hsplit, scan_programs_skip kernel code_object _ pre _
    (fun a ha h => absurd (hunique a h) (ne_of_lt (hpre a ha))),
    scan_programs, if_pos hmatch]
  simp only [hnone, dif_pos hfree]
  refine scan_programs_no_match kernel code_object post _ (fun a ha h => ?_)
  have hne : a ≠ i := ne_of_gt (hpost a ha)
  simp only [Function.update_noteq hne] at h
  exact hne (hunique a h)

theorem cache_kernel_dispatch_data_built (rt : runtime) (kernel : _cl_kernel)
    (code_object : Nat) (stack_cache : hsa_kernel_cache_t) (m : machine) (s : scan_state)
    (tr1 : List effect) (e : hsa_kernel_cache_t)
    (hscan : scan_programs kernel.addr code_object (List.finRange HSA_PROGRAM_CACHE_SIZE)
      { d := m.d, p_out := none } = .fell_through s)
    (hbuild : build_dispatch_data rt kernel s.d.agent s.d.kernarg_region code_object
      m.trace = (tr1, .ok e)) :
    cache_kernel_dispatch_data rt kernel code_object stack_cache m =
      .returned
        { m with d := (write_ref s.d stack_cache (selected_out s) e).1, trace := tr1 }
        (selected_out s, (write_ref s.d stack_cache (selected_out s) e).2) := by
  simp only [cache_kernel_dispatch_data, hscan, hbuild]

theorem cache_kernel_dispatch_data_failed (rt : runtime) (kernel : _cl_kernel)
    (code_object : Nat) (stack_cache : hsa_kernel_cache_t) (m : machine) (s : scan_state)
    (tr1 : List effect) (stop : pocl_stop)
    (hscan : scan_programs kernel.addr code_object (List.finRange HSA_PROGRAM_CACHE_SIZE)
      { d := m.d, p_out := none } = .fell_through s)
    (hbuild : build_dispatch_data rt kernel s.d.agent s.d.kernarg_region code_object
      m.trace = (tr1, .error stop)) :
    cache_kernel_dispatch_data rt kernel code_object stack_cache m =
      .stopped { m with d := s.d, trace := tr1 } stop := by
  simp only [cache_kernel_dispatch_data, hscan, hbuild]

/-- Every outcome of a resolution whose scan ran through: the dispatch data was built
and stored where the scan selected, or a runtime call failed. -/
theorem cache_kernel_dispatch_data_fell_through (rt : runtime) (kernel : _cl_kernel)
    (code_object : Nat) (stack_cache : hsa_kernel_cache_t) (m : machine) (s : scan_state)
    (hscan : scan_programs kernel.addr code_object (List.finRange HSA_PROGRAM_CACHE_SIZE)
      { d := m.d, p_out := none } = .fell_through s) :
    (∃ tr1 e kernel_symbol,
      tr1 = m.trace ++
        metadata_calls kernel s.d.agent s.d.kernarg_region code_object kernel_symbol e ∧
      complete_metadata rt m.trace
        (metadata_calls kernel s.d.agent s.d.kernarg_region code_object kernel_symbol e)
        kernel kernel_symbol e ∧
      cache_kernel_dispatch_data rt kernel code_object stack_cache m =
        .returned
          { m with d := (write_ref s.d stack_cache (selected_out s) e).1, trace := tr1 }
          (selected_out s, (write_ref s.d stack_cache (selected_out s) e).2)) ∨
    (∃ tr1 stop, cache_kernel_dispatch_data rt kernel code_object stack_cache m =
        .stopped { m with d := s.d, trace := tr1 } stop ∧
      (all_succeed rt → symbols_are_kernels rt → False)) := by
  cases hb : build_dispatch_data rt kernel s.d.agent s.d.kernarg_region code_object
      m.trace with
  | mk tr1 res =>
    cases res with
    | ok e =>
      obtain ⟨sym, htr, hcomplete⟩ := build_dispatch_data_ok _ _ _ _ _ _ _ _ hb
      exact Or.inl ⟨tr1, e, sym, htr, hcomplete,
        cache_kernel_dispatch_data_built rt kernel code_object stack_cache m s tr1 e hscan hb⟩
    | error stop =>
      refine Or.inr ⟨tr1, stop,
        cache_kernel_dispatch_data_failed rt kernel code_object stack_cache m s tr1 stop
          hscan hb, fun hall hkern => ?_⟩
      obtain ⟨tr2, e, h2⟩ := build_dispatch_data_succeeds rt kernel s.d.agent
        s.d.kernarg_region code_object m.trace hall hkern
      rw [hb] at h2
      cases h2

/-! ## Lemmas on the counters `kernel_cache_lastptr` -/

theorem scan_programs_lastptr (kernel code_object : Nat) :
    ∀ (l : List (Fin HSA_PROGRAM_CACHE_SIZE)) (s : scan_state),
      (∀ a, (s.d.program_cache a).kernel_cache_lastptr ≤ HSA_KERNEL_CACHE_SIZE) →
      ∀ a, ((scan_programs kernel code_object l s).d.program_cache a).kernel_cache_lastptr ≤
        HSA_KERNEL_CACHE_SIZE := by
  intro l
  induction l with
  | nil => intro s h; exact h
  | cons i rest ih =>
    intro s h
    rw [scan_programs]
    split
    · split
      · exact h
      · split
        · rename_i hlt
          refine ih _ (fun a => ?_)
          by_cases ha : a = i
          · subst ha
            simp only [Function.update_same]
            omega
          · simp only [Function.update_noteq ha]
            exact h a
        · exact ih _ h
    · exact ih _ h

theorem write_ref_lastptr (d : pocl_hsa_device_data) (stack_cache e : hsa_kernel_cache_t)
    (out : cache_ref) (a : Fin HSA_PROGRAM_CACHE_SIZE) :
    ((write_ref d stack_cache out e).1.program_cache a).kernel_cache_lastptr =
      (d.program_cache a).kernel_cache_lastptr := by
  cases out with
  | stack_cache => rfl
  | slot i j =>
    by_cases ha : a = i
    · subst ha
      simp [write_ref]
    · simp [write_ref, Function.update_noteq ha]

theorem cache_kernel_dispatch_data_lastptr (rt : runtime) (kernel : _cl_kernel)
    (code_object : Nat) (stack_cache : hsa_kernel_cache_t) (m : machine)
    (h : ∀ a, (m.d.program_cache a).kernel_cache_lastptr ≤ HSA_KERNEL_CACHE_SIZE) :
    ∀ a, ((cache_kernel_dispatch_data rt kernel code_object stack_cache
      m).machine.d.program_cache a).kernel_cache_lastptr ≤ HSA_KERNEL_CACHE_SIZE := by
  have hs := scan_programs_lastptr kernel.addr code_object
    (List.finRange HSA_PROGRAM_CACHE_SIZE) { d := m.d, p_out := none } h
  unfold cache_kernel_dispatch_data
  split
  · rename_i d1 i j hscan
    rw [hscan] at hs
    exact hs
  · rename_i s hscan
    rw [hscan] at hs
    dsimp only
    split
    · intro a
      simp only [outcome.machine, write_ref_lastptr]
      exact hs a
    · exact hs

theorem pocl_hsa_run_lastptr (rt : runtime) (cmd : _cl_command_node)
    (stack_cache : hsa_kernel_cache_t) (m : machine)
    (h : ∀ a, (m.d.program_cache a).kernel_cache_lastptr ≤ HSA_KERNEL_CACHE_SIZE) :
    ∀ a, ((pocl_hsa_run rt cmd stack_cache m).machine.d.program_cache
      a).kernel_cache_lastptr ≤ HSA_KERNEL_CACHE_SIZE := by
  unfold pocl_hsa_run
  dsimp only
  split
  · exact h
  · rename_i co hco
    have hc := cache_kernel_dispatch_data_lastptr rt cmd.run.kernel co stack_cache
      { m with d := { m.d with current_kernel := cmd.run.kernel.addr } } h
    split
    · rename_i m1 stop hres
      rw [hres] at hc
      exact hc
    · rename_i m1 cd st hres
      rw [hres] at hc
      rw [dispatch_d]
      exact hc

/-- A compile call changes no kernel entry and no counter `kernel_cache_lastptr`,
whatever its outcome. -/
theorem compile_kernel_caches (cfg : toolchain_config) (rt : runtime)
    (cmd : _cl_command_node) (m : machine) (i : Fin HSA_PROGRAM_CACHE_SIZE) :
    ((pocl_hsa_compile_submitted_kernels cfg rt cmd m).machine.d.program_cache
        i).kernel_cache = (m.d.program_cache i).kernel_cache ∧
    ((pocl_hsa_compile_submitted_kernels cfg rt cmd m).machine.d.program_cache
        i).kernel_cache_lastptr = (m.d.program_cache i).kernel_cache_lastptr := by
  by_cases hty : cmd.type = .CL_COMMAND_NDRANGE_KERNEL
  · cases hfind : find_program m.d cmd.run.kernel.program with
    | some i0 =>
      rw [compile_hit cfg rt cmd m i0 hty hfind]
      exact ⟨rfl, rfl⟩
    | none =>
      rcases compile_miss cfg rt cmd m hty hfind with
        ⟨tr, stop, h⟩ | ⟨tr, co, _, _, ⟨hlt, h⟩ | ⟨_, h⟩⟩
      · rw [h]
        exact ⟨rfl, rfl⟩
      · rw [h]
        by_cases hi : i = ⟨m.d.program_cache_lastptr, hlt⟩
        · subst hi
          simp [outcome.machine]
        · simp [outcome.machine, Function.update_noteq hi]
      · rw [h]
        exact ⟨rfl, rfl⟩
  · have h : pocl_hsa_compile_submitted_kernels cfg rt cmd m = .returned m cmd := by
      simp [pocl_hsa_compile_submitted_kernels, hty]
    rw [h]
    exact ⟨rfl, rfl⟩

/-- In every reachable state every `kernel_cache_lastptr` is within the capacity. -/
theorem reachable_kernel_lastptr (m : machine) (h : reachable m) :
    ∀ a, (m.d.program_cache a).kernel_cache_lastptr ≤ HSA_KERNEL_CACHE_SIZE := by
  induction h with
  | init => intro a; simp [zero_device, zero_program_slot]
  | compile cfg rt cmd cmd1 m m1 _ hstep ih =>
    intro a
    have := (compile_kernel_caches cfg rt cmd m a).2
    rw [hstep] at this
    simp only [outcome.machine] at this
    rw [this]
    exact ih a
  | run rt cmd stack_cache m m1 r _ hstep ih =>
    have := pocl_hsa_run_lastptr rt cmd stack_cache m ih
    rw [hstep] at this
    exact this
  | memory m heap packets _ ih => exact ih

theorem write_ref_slot (d : pocl_hsa_device_data) (i : Fin HSA_PROGRAM_CACHE_SIZE)
    (j : Fin HSA_KERNEL_CACHE_SIZE) (stack_cache e : hsa_kernel_cache_t) :
    (write_ref
      { d with program_cache := (Function.update d.program_cache i
          { (d.program_cache i) with
            kernel_cache_lastptr := (d.program_cache i).kernel_cache_lastptr + 1 }) }
      stack_cache (.slot i j) e).1 = with_entry d i j e := by
  simp [write_ref, with_entry]

/-! ## The kernel cache: overflow and misses -/

/-- C11. When the program slot matching the code object (slot `i`, the only slot whose
code object is equal to it) has `kernel_cache_lastptr = 64` and holds no entry for the
kernel, `cache_kernel_dispatch_data` returns the caller's stack record, filled with
complete dispatch data (the executable created and loaded, the code handle, the private
and static group sizes, the argument buffer and its size, the completion signal created
with value 1, the kernel identity), unless one of the runtime calls that build the data
fails (it does return when none fails); whatever the outcome the device data is
unchanged, so the 64 kernel entries of the slot and its `kernel_cache_lastptr` are.  In
every reachable state every `kernel_cache_lastptr` is at most 64. -/
theorem kernel_cache_overflow_fallback (rt : runtime) (kernel : _cl_kernel)
    (code_object : Nat) (stack_cache : hsa_kernel_cache_t) (m : machine)
    (i : Fin HSA_PROGRAM_CACHE_SIZE)
    (hmatch : (m.d.program_cache i).code_object = code_object)
    (hunique : ∀ a, (m.d.program_cache a).code_object = code_object → a = i)
    (hfull : (m.d.program_cache i).kernel_cache_lastptr = HSA_KERNEL_CACHE_SIZE)
    (hmiss : ∀ j, ((m.d.program_cache i).kernel_cache j).kernel ≠ kernel.addr)
    (m2 : machine) (hreach : reachable m2) :
    ((∃ e kernel_symbol,
        complete_metadata rt m.trace
          (metadata_calls kernel m.d.agent m.d.kernarg_region code_object kernel_symbol e)
          kernel kernel_symbol e ∧
        cache_kernel_dispatch_data rt kernel code_object stack_cache m =
          .returned
            { m with
              trace := m.trace ++
                metadata_calls kernel m.d.agent m.d.kernarg_region code_object
                  kernel_symbol e }
            (.stack_cache, e)) ∨
      (∃ tr1 stop,
        cache_kernel_dispatch_data rt kernel code_object stack_cache m =
          .stopped { m with trace := tr1 } stop ∧
        ¬ (all_succeed rt ∧ symbols_are_kernels rt))) ∧
    (cache_kernel_dispatch_data rt kernel code_object stack_cache m).machine.d = m.d ∧
    ∀ a, (m2.d.program_cache a).kernel_cache_lastptr ≤ HSA_KERNEL_CACHE_SIZE := by
  have hscan := scan_programs_unique_full kernel.addr code_object m.d i hmatch hunique
    (find_kernel_none _ _ hmiss) (by rw [hfull]; exact lt_irrefl _)
  have hcases := cache_kernel_dispatch_data_fell_through rt kernel code_object stack_cache m
    _ hscan
  refine ⟨?_, ?_, reachable_kernel_lastptr m2 hreach⟩
  · rcases hcases with ⟨tr1, e, sym, htr, hcomplete, hres⟩ | ⟨tr1, stop, hres, hfail⟩
    · subst htr
      exact Or.inl ⟨e, sym, hcomplete, hres⟩
    · exact Or.inr ⟨tr1, stop, hres, fun h => hfail h.1 h.2⟩
  · rcases hcases with ⟨tr1, e, sym, htr, hcomplete, hres⟩ | ⟨tr1, stop, hres, hfail⟩
    · rw [hres]
      rfl
    · rw [hres]
      rfl

/-- C11, on a device whose slot 0 holds code object 5 and 64 entries of other kernels. -/
theorem kernel_cache_overflow_fallback_witness :
    (ex_saturated_device.program_cache 0).code_object = 5 ∧
    (∀ a, (ex_saturated_device.program_cache a).code_object = 5 → a = 0) ∧
    (ex_saturated_device.program_cache 0).kernel_cache_lastptr = HSA_KERNEL_CACHE_SIZE ∧
    (∀ j, ((ex_saturated_device.program_cache 0).kernel_cache j).kernel ≠ ex_kernel.addr) ∧
    (cache_kernel_dispatch_data ex_runtime ex_kernel 5 zero_kernel_entry
      { ex_machine with d := ex_saturated_device }).value? =
        some (.stack_cache,
          { kernel := 7, hsa_exe := 4096, code_handle := 24576, private_size := 0,
            static_group_size := 16, kernel_completion_signal := 36864, kernargs := 45056,
            args_segment_size := 64 }) ∧
    (cache_kernel_dispatch_data ex_runtime ex_kernel 5 zero_kernel_entry
      { ex_machine with d := ex_saturated_device }).machine.d = ex_saturated_device ∧
    ∀ a, (ex_machine.d.program_cache a).kernel_cache_lastptr ≤ HSA_KERNEL_CACHE_SIZE :=
  ⟨by decide, by decide, by decide, by decide, by decide,
    (kernel_cache_overflow_fallback ex_runtime ex_kernel 5 zero_kernel_entry
      { ex_machine with d := ex_saturated_device } 0 (by decide) (by decide) (by decide)
      (by decide) ex_machine
      (reachable.init 1 2 { size := 4, doorbell_signal := 9 } ex_heap
        (fun _ => zero_packet) [])).2.1,
    (kernel_cache_overflow_fallback ex_runtime ex_kernel 5 zero_kernel_entry
      { ex_machine with d := ex_saturated_device } 0 (by decide) (by decide) (by decide)
      (by decide) ex_machine
      (reachable.init 1 2 { size := 4, doorbell_signal := 9 } ex_heap
        (fun _ => zero_packet) [])).2.2⟩

/-- C19. When exactly one program slot (slot `i`) has a code object equal to the given
one, that slot holds no entry for the kernel and its `kernel_cache_lastptr` is below 64,
`cache_kernel_dispatch_data` returns the entry at the old `kernel_cache_lastptr` of that
slot, in a state in which that counter is one more, that entry holds the newly built
dispatch data with the kernel identity, and no other kernel entry and no other program
slot is different (`with_entry`), unless a runtime call that builds the data fails.  When
no program slot of `m2` matches the code object, it returns the caller's stack record
with the dispatch data and the device data is unchanged. -/
theorem kernel_cache_miss_one_slot (rt : runtime) (kernel : _cl_kernel)
    (code_object : Nat) (stack_cache : hsa_kernel_cache_t) (m : machine)
    (i : Fin HSA_PROGRAM_CACHE_SIZE)
    (hmatch : (m.d.program_cache i).code_object = code_object)
    (hunique : ∀ a, (m.d.program_cache a).code_object = code_object → a = i)
    (hmiss : ∀ j, ((m.d.program_cache i).kernel_cache j).kernel ≠ kernel.addr)
    (hfree : (m.d.program_cache i).kernel_cache_lastptr < HSA_KERNEL_CACHE_SIZE)
    (m2 : machine) (hnone : ∀ a, (m2.d.program_cache a).code_object ≠ code_object) :
    ((∃ e kernel_symbol,
        complete_metadata rt m.trace
          (metadata_calls kernel m.d.agent m.d.kernarg_region code_object kernel_symbol e)
          kernel kernel_symbol e ∧
        cache_kernel_dispatch_data rt kernel code_object stack_cache m =
          .returned
            { m with
              d := with_entry m.d i ⟨(m.d.program_cache i).kernel_cache_lastptr, hfree⟩ e
              trace := m.trace ++
                metadata_calls kernel m.d.agent m.d.kernarg_region code_object
                  kernel_symbol e }
            (.slot i ⟨(m.d.program_cache i).kernel_cache_lastptr, hfree⟩, stack_cache)) ∨
      (∃ m1 stop,
        cache_kernel_dispatch_data rt kernel code_object stack_cache m = .stopped m1 stop ∧
        ¬ (all_succeed rt ∧ symbols_are_kernels rt))) ∧
    ((∃ e kernel_symbol,
        complete_metadata rt m2.trace
          (metadata_calls kernel m2.d.agent m2.d.kernarg_region code_object kernel_symbol e)
          kernel kernel_symbol e ∧
        cache_kernel_dispatch_data rt kernel code_object stack_cache m2 =
          .returned
            { m2 with
              trace := m2.trace ++
                metadata_calls kernel m2.d.agent m2.d.kernarg_region code_object
                  kernel_symbol e }
            (.stack_cache, e)) ∨
      (∃ tr1 stop,
        cache_kernel_dispatch_data rt kernel code_object stack_cache m2 =
          .stopped { m2 with trace := tr1 } stop ∧
        ¬ (all_succeed rt ∧ symbols_are_kernels rt))) := by
  constructor
  · have hscan := scan_programs_unique_free kernel.addr code_object m.d i hmatch hunique
      (find_kernel_none _ _ hmiss) hfree
    rcases cache_kernel_dispatch_data_fell_through rt kernel code_object stack_cache m
      _ hscan with ⟨tr1, e, sym, htr, hcomplete, hres⟩ | ⟨tr1, stop, hres, hfail⟩
    · subst htr
      refine Or.inl ⟨e, sym, hcomplete, ?_⟩
      rw [hres]
      simp only [selected_out, write_ref_slot]
      rfl
    · exact Or.inr ⟨_, stop, hres, fun h => hfail h.1 h.2⟩
  · have hscan := scan_programs_no_match kernel.addr code_object
      (List.finRange HSA_PROGRAM_CACHE_SIZE) { d := m2.d, p_out := none }
      (fun a _ => hnone a)
    rcases cache_kernel_dispatch_data_fell_through rt kernel code_object stack_cache m2
      _ hscan with ⟨tr1, e, sym, htr, hcomplete, hres⟩ | ⟨tr1, stop, hres, hfail⟩
    · subst htr
      exact Or.inl ⟨e, sym, hcomplete, hres⟩
    · exact Or.inr ⟨tr1, stop, hres, fun h => hfail h.1 h.2⟩

/-- C19, on a device whose slot 0 is the only slot with code object 5 and has no kernel
entry in use, and on the freshly initialised device, where no slot has code object 5. -/
theorem kernel_cache_miss_one_slot_witness :
    (ex_uncached_device.program_cache 0).code_object = 5 ∧
    (∀ a, (ex_uncached_device.program_cache a).code_object = 5 → a = 0) ∧
    (∀ j, ((ex_uncached_device.program_cache 0).kernel_cache j).kernel ≠ ex_kernel.addr) ∧
    (ex_uncached_device.program_cache 0).kernel_cache_lastptr < HSA_KERNEL_CACHE_SIZE ∧
    (∀ a, (ex_machine.d.program_cache a).code_object ≠ 5) ∧
    (cache_kernel_dispatch_data ex_runtime ex_kernel 5 zero_kernel_entry
      { ex_machine with d := ex_uncached_device }).value? =
        some (.slot 0 0, zero_kernel_entry) ∧
    ((cache_kernel_dispatch_data ex_runtime ex_kernel 5 zero_kernel_entry
      { ex_machine with d := ex_uncached_device }).machine.d.program_cache
        0).kernel_cache_lastptr = 1 ∧
    (cache_kernel_dispatch_data ex_runtime ex_kernel 5 zero_kernel_entry
      ex_machine).value?.map (fun r => r.1) = some .stack_cache ∧
    ((∃ e kernel_symbol,
        complete_metadata ex_runtime ex_machine.trace
          (metadata_calls ex_kernel ex_machine.d.agent ex_machine.d.kernarg_region 5
            kernel_symbol e) ex_kernel kernel_symbol e ∧
        cache_kernel_dispatch_data ex_runtime ex_kernel 5 zero_kernel_entry ex_machine =
          .returned
            { ex_machine with
              trace := ex_machine.trace ++
                metadata_calls ex_kernel ex_machine.d.agent ex_machine.d.kernarg_region 5
                  kernel_symbol e }
            (.stack_cache, e)) ∨
      (∃ tr1 stop,
        cache_kernel_dispatch_data ex_runtime ex_kernel 5 zero_kernel_entry ex_machine =
          .stopped { ex_machine with trace := tr1 } stop ∧
        ¬ (all_succeed ex_runtime ∧ symbols_are_kernels ex_runtime))) :=
  ⟨by decide, by decide, by decide, by decide, by decide, by decide, by decide, by decide,
    (kernel_cache_miss_one_slot ex_runtime ex_kernel 5 zero_kernel_entry
      { ex_machine with d := ex_uncached_device } 0 (by decide) (by decide) (by decide)
      (by decide) ex_machine (by decide)).2⟩

/-! ## Lemmas on the effects and the packet of a dispatch -/

theorem pocl_hsa_run_eq (rt : runtime) (cmd : _cl_command_node)
    (stack_cache : hsa_kernel_cache_t) (m : machine) :
    pocl_hsa_run rt cmd stack_cache m =
      match run_resolve rt cmd stack_cache m with
      | .stopped m1 stop => .stopped m1 stop
      | .returned m1 (cd, st) => dispatch rt cmd cd st m1 := by
  unfold pocl_hsa_run run_resolve
  dsimp only
  cases cmd.run.device_data with
  | none => rfl
  | some co => rfl

@[simp] theorem packet_store_trace (m : machine) (slot : Nat) (f : packet_field) (v : Nat) :
    (packet_store m slot f v).trace = m.trace ++ [.packet_store slot f v] := rfl

@[simp] theorem trace_add_trace (m : machine) (e : effect) :
    (trace_add m e).trace = m.trace ++ [e] := rfl

@[simp] theorem set_heap_trace (m : machine) (heap : Nat → Nat) :
    (set_heap m heap).trace = m.trace := rfl

theorem fill_packet_trace (cmd : _cl_command_node) (data : hsa_kernel_cache_t)
    (slot : Nat) (m : machine) :
    (fill_packet cmd data slot m).trace =
      m.trace ++ fill_effects cmd data slot (m.packets slot).setup := by
  simp only [fill_packet, packet_store_trace, trace_add_trace, fill_effects,
    List.append_assoc, List.singleton_append, List.cons_append, List.nil_append]

theorem fill_packet_packets (cmd : _cl_command_node) (data : hsa_kernel_cache_t)
    (slot : Nat) (m : machine) :
    (fill_packet cmd data slot m).packets slot = filled_packet cmd data (m.packets slot) := by
  simp only [fill_packet, packet_store_packets, trace_add_packets,
    hsa_kernel_dispatch_packet_t.set, filled_packet]

theorem publish_trace (data : hsa_kernel_cache_t) (slot queue_index : Nat) (m : machine) :
    (publish data slot queue_index m).trace =
      m.trace ++ effect.packet_store slot .kernarg_address data.kernargs ::
        publish_effects slot queue_index m.d.queue.doorbell_signal := by
  simp [publish, publish_effects, packet_store, trace_add]

theorem publish_packets (data : hsa_kernel_cache_t) (slot queue_index : Nat) (m : machine) :
    (publish data slot queue_index m).packets slot =
      { (m.packets slot) with kernarg_address := data.kernargs, header := dispatch_header } := by
  simp [publish, packet_store, trace_add, hsa_kernel_dispatch_packet_t.set]

theorem release_trace (cached_data : cache_ref) (data : hsa_kernel_cache_t) (m : machine) :
    (release cached_data data m).trace = m.trace ++ release_effects cached_data data := by
  unfold release release_effects
  split <;> simp [trace_add]

/-- Every outcome of the dispatch proper, with the effects it has added to the trace and
the content of the reserved packet slot: the marshalling stopped; the local-memory check
aborted; the wait never returned; or the dispatch returned. -/
theorem dispatch_cases (rt : runtime) (cmd : _cl_command_node) (cached_data : cache_ref)
    (stack_cache : hsa_kernel_cache_t) (m : machine) (data : hsa_kernel_cache_t)
    (queue_index slot : Nat) (ms : args_state × Option pocl_stop)
    (hdata : data = read_ref m.d stack_cache cached_data)
    (hindex : queue_index = reserved_index rt m)
    (hslot : slot = packet_slot m.d queue_index)
    (hms : ms = setup_kernel_args cmd.device.dev_id (kernel_args cmd) m.heap data.kernargs
      data.args_segment_size (data.static_group_size % 2 ^ 32)) :
    (∃ stop m1, ms.2 = some stop ∧
      dispatch rt cmd cached_data stack_cache m = .stopped m1 stop ∧
      m1.trace = m.trace ++ (effect.hsa_queue_load_write_index_relaxed ::
        fill_effects cmd data slot (m.packets slot).setup) ∧
      m1.packets slot = filled_packet cmd data (m.packets slot)) ∨
    (∃ m1, ms.2 = none ∧ ms.1.total_group_size > cmd.device.local_mem_size ∧
      dispatch rt cmd cached_data stack_cache m =
        .stopped m1 (.POCL_ABORT .local_memory_exceeds_device) ∧
      m1.trace = m.trace ++ (effect.hsa_queue_load_write_index_relaxed ::
        (fill_effects cmd data slot (m.packets slot).setup ++
          [effect.packet_store slot .group_segment_size ms.1.total_group_size])) ∧
      m1.packets slot =
        { filled_packet cmd data (m.packets slot) with
          group_segment_size := ms.1.total_group_size }) ∨
    (∃ m1, ms.2 = none ∧ ¬ ms.1.total_group_size > cmd.device.local_mem_size ∧
      dispatch rt cmd cached_data stack_cache m = .stopped m1 .wait_never_returns ∧
      m1.trace = m.trace ++ (effect.hsa_queue_load_write_index_relaxed ::
        (fill_effects cmd data slot (m.packets slot).setup ++
          (effect.packet_store slot .group_segment_size ms.1.total_group_size ::
            effect.packet_store slot .kernarg_address data.kernargs ::
            (publish_effects slot queue_index m.d.queue.doorbell_signal ++
              [effect.hsa_signal_wait_acquire data.kernel_completion_signal])))) ∧
      m1.packets slot =
        { filled_packet cmd data (m.packets slot) with
          group_segment_size := ms.1.total_group_size
          kernarg_address := data.kernargs
          header := dispatch_header }) ∨
    (∃ m1, ms.2 = none ∧ ¬ ms.1.total_group_size > cmd.device.local_mem_size ∧
      dispatch rt cmd cached_data stack_cache m =
        .returned m1
          { cached_data := cached_data, stack_cache := stack_cache,
            queue_index := queue_index, total_group_size := ms.1.total_group_size } ∧
      m1.trace = m.trace ++ (effect.hsa_queue_load_write_index_relaxed ::
        (fill_effects cmd data slot (m.packets slot).setup ++
          (effect.packet_store slot .group_segment_size ms.1.total_group_size ::
            effect.packet_store slot .kernarg_address data.kernargs ::
            (publish_effects slot queue_index m.d.queue.doorbell_signal ++
              (effect.hsa_signal_wait_acquire data.kernel_completion_signal ::
                release_effects cached_data data))))) ∧
      m1.packets slot =
        { filled_packet cmd data (m.packets slot) with
          group_segment_size := ms.1.total_group_size
          kernarg_address := data.kernargs
          header := dispatch_header }) := by
  have hq : (rt.reply m.trace .hsa_queue_load_write_index_relaxed).value % 2 ^ 64 =
      queue_index := hindex.symm
  have hsl : queue_index &&& ((m.d.queue.size + 2 ^ 32 - 1) % 2 ^ 32) = slot := hslot.symm
  clear hindex hslot
  subst hdata hms
  unfold dispatch
  dsimp only
  simp only [fill_packet_heap, trace_add_heap, hq, hsl]
  split
  · rename_i stop hstop
    refine Or.inl ⟨stop, _, hstop, rfl, ?_, ?_⟩
    · simp only [set_heap_trace, fill_packet_trace, trace_add_trace, trace_add_packets,
        List.append_assoc, List.singleton_append]
    · simp only [set_heap_packets]
      exact fill_packet_packets _ _ _ _
  · rename_i hnone
    split
    · rename_i hmem
      refine Or.inr (Or.inl ⟨_, hnone, hmem, rfl, ?_, ?_⟩)
      · simp only [packet_store_trace, set_heap_trace, fill_packet_trace, trace_add_trace,
          trace_add_packets, List.append_assoc, List.singleton_append, List.cons_append, List.nil_append]
      · simp only [packet_store_packets, set_heap_packets, hsa_kernel_dispatch_packet_t.set]
        rw [fill_packet_packets]
        rfl
    · rename_i hmem
      split
      · rename_i hwait
        refine Or.inr (Or.inr (Or.inl ⟨_, hnone, hmem, rfl, ?_, ?_⟩))
        · simp only [publish_trace, packet_store_trace, set_heap_trace, fill_packet_trace,
            trace_add_trace, trace_add_packets, List.append_assoc, List.singleton_append,
            List.cons_append, List.nil_append, packet_store_d, set_heap_d, fill_packet_d, trace_add_d]
        · simp only [trace_add_packets, publish_packets, packet_store_packets,
            set_heap_packets, hsa_kernel_dispatch_packet_t.set]
          rw [fill_packet_packets]
          rfl
      · rename_i hwait
        refine Or.inr (Or.inr (Or.inr ⟨_, hnone, hmem, rfl, ?_, ?_⟩))
        · simp only [release_trace, publish_trace, packet_store_trace, set_heap_trace,
            fill_packet_trace, trace_add_trace, trace_add_packets, List.append_assoc,
            List.singleton_append, List.cons_append, List.nil_append, packet_store_d, set_heap_d,
            fill_packet_d, trace_add_d]
        · simp only [release_packets, trace_add_packets, publish_packets,
            packet_store_packets, set_heap_packets, hsa_kernel_dispatch_packet_t.set]
          rw [fill_packet_packets]
          rfl

/-- The reasons `setup_kernel_args` can stop with. -/
theorem setup_kernel_args_stop (dev_id : Nat) (args : List kernel_arg) (heap : Nat → Nat)
    (arg_space max_args_size total_group_size : Nat) (e : pocl_stop)
    (h : (setup_kernel_args dev_id args heap arg_space max_args_size total_group_size).2 =
      some e) :
    e = .POCL_ABORT .too_many_kernel_arguments ∨ (∃ msg, e = .POCL_ABORT_UNIMPLEMENTED msg) ∨
      e = .undefined_behaviour := by
  rw [setup_kernel_args_eq_loop] at h
  exact setup_kernel_args_loop_stop dev_id (arg_space + max_args_size) args 0 _ e h

theorem checked_call_result {α : Type} (rt : runtime) (tr : List effect) (c : effect)
    (msg : pocl_abort_msg) (next : Nat → List effect → List effect × Except pocl_stop α)
    (P : List effect × Except pocl_stop α → Prop)
    (hstop : P (tr ++ [c], .error (.POCL_ABORT msg)))
    (hnext : ∀ v, P (next v (tr ++ [c]))) :
    P (checked_call rt tr c msg next) := by
  unfold checked_call
  split
  · exact hstop
  · exact hnext _

/-- When building the dispatch data stops, it is by `POCL_ABORT`. -/
theorem build_dispatch_data_error (rt : runtime) (kernel : _cl_kernel)
    (agent kernarg_region code_object : Nat) (tr : List effect) :
    ∀ stop, (build_dispatch_data rt kernel agent kernarg_region code_object tr).2 =
      .error stop → ∃ msg, stop = .POCL_ABORT msg := by
  unfold build_dispatch_data
  refine checked_call_result rt _ _ _ _
    (fun r => ∀ stop, r.2 = .error stop → ∃ msg, stop = .POCL_ABORT msg) ?_ (fun _ => ?_)
  · intro stop h; cases h; exact ⟨_, rfl⟩
  refine checked_call_result rt _ _ _ _
    (fun r => ∀ stop, r.2 = .error stop → ∃ msg, stop = .POCL_ABORT msg) ?_ (fun _ => ?_)
  · intro stop h; cases h; exact ⟨_, rfl⟩
  refine checked_call_result rt _ _ _ _
    (fun r => ∀ stop, r.2 = .error stop → ∃ msg, stop = .POCL_ABORT msg) ?_ (fun _ => ?_)
  · intro stop h; cases h; exact ⟨_, rfl⟩
  refine checked_call_result rt _ _ _ _
    (fun r => ∀ stop, r.2 = .error stop → ∃ msg, stop = .POCL_ABORT msg) ?_ (fun _ => ?_)
  · intro stop h; cases h; exact ⟨_, rfl⟩
  dsimp only
  split
  · intro stop h; cases h; exact ⟨_, rfl⟩
  refine checked_call_result rt _ _ _ _
    (fun r => ∀ stop, r.2 = .error stop → ∃ msg, stop = .POCL_ABORT msg) ?_ (fun _ => ?_)
  · intro stop h; cases h; exact ⟨_, rfl⟩
  refine checked_call_result rt _ _ _ _
    (fun r => ∀ stop, r.2 = .error stop → ∃ msg, stop = .POCL_ABORT msg) ?_ (fun _ => ?_)
  · intro stop h; cases h; exact ⟨_, rfl⟩
  refine checked_call_result rt _ _ _ _
    (fun r => ∀ stop, r.2 = .error stop → ∃ msg, stop = .POCL_ABORT msg) ?_ (fun _ => ?_)
  · intro stop h; cases h; exact ⟨_, rfl⟩
  refine checked_call_result rt _ _ _ _
    (fun r => ∀ stop, r.2 = .error stop → ∃ msg, stop = .POCL_ABORT msg) ?_ (fun _ => ?_)
  · intro stop h; cases h; exact ⟨_, rfl⟩
  refine checked_call_result rt _ _ _ _
    (fun r => ∀ stop, r.2 = .error stop → ∃ msg, stop = .POCL_ABORT msg) ?_ (fun _ => ?_)
  · intro stop h; cases h; exact ⟨_, rfl⟩
  refine checked_call_result rt _ _ _ _
    (fun r => ∀ stop, r.2 = .error stop → ∃ msg, stop = .POCL_ABORT msg) ?_ (fun _ => ?_)
  · intro stop h; cases h; exact ⟨_, rfl⟩
  intro stop h
  cases h

theorem metadata_calls_kind (kernel : _cl_kernel)
    (agent kernarg_region code_object kernel_symbol : Nat) (e : hsa_kernel_cache_t) :
    ∀ x ∈ metadata_calls kernel agent kernarg_region code_object kernel_symbol e,
      x.kind = .metadata := by
  intro x hx
  simp only [metadata_calls, List.mem_cons, List.mem_singleton, List.not_mem_nil,
    or_false] at hx
  rcases hx with h | h | h | h | h | h | h | h | h | h | h <;> subst h <;> rfl

/-- What a resolution that returned has done: it has added calls that build dispatch
data to the trace (or none), and left memory, packets and queue as they were. -/
theorem run_resolve_returned (rt : runtime) (cmd : _cl_command_node)
    (stack_cache st : hsa_kernel_cache_t) (m m1 : machine) (cd : cache_ref)
    (h : run_resolve rt cmd stack_cache m = .returned m1 (cd, st)) :
    ∃ resolution, m1.trace = m.trace ++ resolution ∧
      (∀ x ∈ resolution, x.kind = .metadata) ∧
      m1.heap = m.heap ∧ m1.packets = m.packets ∧ m1.d.queue = m.d.queue := by
  unfold run_resolve at h
  split at h
  · cases h
  · rename_i co hco
    unfold cache_kernel_dispatch_data at h
    split at h
    · rename_i d1 i j hscan
      have hk := scan_programs_keys_found _ _ _ _ _ _ _ hscan
      simp only [outcome.returned.injEq] at h
      obtain ⟨hm1, _⟩ := h
      subst hm1
      exact ⟨[], by simp, by simp, rfl, rfl, hk.2.2.2.1⟩
    · rename_i s hscan
      have hk := scan_programs_keys_fell_through _ _ _ _ _ hscan
      dsimp only at h
      split at h
      · rename_i e hbuild
        obtain ⟨sym, htr, _⟩ := build_dispatch_data_ok _ _ _ _ _ _ _ _ (Prod.ext rfl hbuild)
        simp only [outcome.returned.injEq] at h
        obtain ⟨hm1, _⟩ := h
        subst hm1
        refine ⟨_, htr, metadata_calls_kind _ _ _ _ _ _, rfl, rfl, ?_⟩
        have hq : (write_ref s.d stack_cache (selected_out s) e).1.queue = s.d.queue := by
          cases selected_out s <;> rfl
        simp only [hq]
        exact hk.2.2.2.1
      · cases h

/-- When the resolution stops, it is not in the wait. -/
theorem run_resolve_stopped (rt : runtime) (cmd : _cl_command_node)
    (stack_cache : hsa_kernel_cache_t) (m m1 : machine) (stop : pocl_stop)
    (h : run_resolve rt cmd stack_cache m = .stopped m1 stop) :
    stop = .undefined_behaviour ∨ ∃ msg, stop = .POCL_ABORT msg := by
  unfold run_resolve at h
  split at h
  · simp only [outcome.stopped.injEq] at h
    exact Or.inl h.2.symm
  · rename_i co hco
    unfold cache_kernel_dispatch_data at h
    split at h
    · cases h
    · rename_i s hscan
      dsimp only at h
      split at h
      · cases h
      · rename_i stop1 hbuild
        simp only [outcome.stopped.injEq] at h
        rw [← h.2]
        exact Or.inr (build_dispatch_data_error _ _ _ _ _ _ stop1 hbuild)

theorem fill_effects_kind (cmd : _cl_command_node) (data : hsa_kernel_cache_t)
    (slot old_setup : Nat) :
    ∀ x ∈ fill_effects cmd data slot old_setup,
      x.kind = .packet_field slot ∨ x.kind = .signal_store := by
  intro x hx
  simp only [fill_effects, List.mem_cons, List.mem_singleton, List.not_mem_nil,
    or_false] at hx
  rcases hx with h | h | h | h | h | h | h | h | h | h | h | h | h | h <;> subst h <;>
    first
      | exact Or.inl rfl
      | exact Or.inr rfl

theorem release_effects_kind (cached_data : cache_ref) (data : hsa_kernel_cache_t) :
    ∀ x ∈ release_effects cached_data data, x.kind = .destroy := by
  intro x hx
  unfold release_effects at hx
  split at hx
  · simp only [List.mem_cons, List.mem_singleton, List.not_mem_nil, or_false] at hx
    rcases hx with h | h <;> subst h <;> rfl
  · cases hx

/-! ## The dispatch: the order in which a packet is published -/

theorem run_resolve_code_object (rt : runtime) (cmd : _cl_command_node)
    (stack_cache : hsa_kernel_cache_t) (m m1 : machine)
    (v : cache_ref × hsa_kernel_cache_t)
    (h : run_resolve rt cmd stack_cache m = .returned m1 v) :
    ∃ co, cmd.run.device_data = some co ∧
      cache_kernel_dispatch_data rt cmd.run.kernel co stack_cache
        { m with d := { m.d with current_kernel := cmd.run.kernel.addr } } =
          .returned m1 v := by
  unfold run_resolve at h
  split at h
  · cases h
  · rename_i co hco
    exact ⟨co, hco, h⟩

theorem not_destroyed (l : List effect) (h : ∀ x ∈ l, x.kind ≠ .destroy) :
    destroyed_executables l = [] ∧ destroyed_signals l = [] := by
  unfold destroyed_executables destroyed_signals
  simp only [List.filterMap_eq_nil_iff]
  constructor <;>
  · intro x hx
    have := h x hx
    cases x <;> first | rfl | exact absurd rfl this

theorem destroyed_executables_append (l1 l2 : List effect) :
    destroyed_executables (l1 ++ l2) = destroyed_executables l1 ++ destroyed_executables l2 := by
  simp [destroyed_executables, List.filterMap_append]

theorem destroyed_signals_append (l1 l2 : List effect) :
    destroyed_signals (l1 ++ l2) = destroyed_signals l1 ++ destroyed_signals l2 := by
  simp [destroyed_signals, List.filterMap_append]

theorem release_effects_destroyed (cached_data : cache_ref) (data : hsa_kernel_cache_t) :
    destroyed_executables (release_effects cached_data data) =
      (if cached_data = .stack_cache then [data.hsa_exe] else []) ∧
    destroyed_signals (release_effects cached_data data) =
      (if cached_data = .stack_cache then [data.kernel_completion_signal] else []) := by
  unfold release_effects
  split <;> simp [destroyed_executables, destroyed_signals]

/-- The effects of a run of `pocl_hsa_run` that returned: effects that destroy nothing,
followed by the release of the dispatch data. -/
theorem pocl_hsa_run_effects (rt : runtime) (cmd : _cl_command_node)
    (stack_cache : hsa_kernel_cache_t) (m : machine) (r : run_locals)
    (hret : (pocl_hsa_run rt cmd stack_cache m).value? = some r) :
    ∃ m1 before,
      run_resolve rt cmd stack_cache m = .returned m1 (r.cached_data, r.stack_cache) ∧
      (pocl_hsa_run rt cmd stack_cache m).machine.d = m1.d ∧
      (pocl_hsa_run rt cmd stack_cache m).machine.trace =
        m.trace ++ (before ++ release_effects r.cached_data (read_ref m1.d r.stack_cache
          r.cached_data)) ∧
      ∀ x ∈ before, x.kind ≠ .destroy := by
  rw [pocl_hsa_run_eq] at hret ⊢
  cases hres : run_resolve rt cmd stack_cache m with
  | stopped m1 stop =>
    rw [hres] at hret
    cases hret
  | returned m1 v =>
    obtain ⟨cd, st1⟩ := v
    obtain ⟨resolution, htr, hres_kind, _, _, _⟩ :=
      run_resolve_returned rt cmd stack_cache st1 m m1 cd hres
    rw [hres] at hret
    simp only at hret ⊢
    have hd := dispatch_d rt cmd cd st1 m1
    rcases dispatch_cases rt cmd cd st1 m1 _ _ _ _ rfl rfl rfl rfl with
      ⟨stop, m2, _, hrun, _, _⟩ | ⟨m2, _, _, hrun, _, _⟩ | ⟨m2, _, _, hrun, _, _⟩ |
      ⟨m2, _, _, hrun, htr2, _⟩
    · rw [hrun] at hret
      cases hret
    · rw [hrun] at hret
      cases hret
    · rw [hrun] at hret
      cases hret
    · rw [hrun] at hret hd ⊢
      simp only [outcome.value?, Option.some.injEq] at hret
      subst hret
      simp only [outcome.machine] at hd ⊢
      refine ⟨m1,
        resolution ++ (effect.hsa_queue_load_write_index_relaxed ::
          (fill_effects cmd (read_ref m1.d st1 cd) (packet_slot m1.d (reserved_index rt m1))
              (m1.packets (packet_slot m1.d (reserved_index rt m1))).setup ++
            (effect.packet_store (packet_slot m1.d (reserved_index rt m1)) .group_segment_size
                (setup_kernel_args cmd.device.dev_id (kernel_args cmd) m1.heap
                  (read_ref m1.d st1 cd).kernargs (read_ref m1.d st1 cd).args_segment_size
                  ((read_ref m1.d st1 cd).static_group_size % 2 ^ 32)).1.total_group_size ::
              effect.packet_store (packet_slot m1.d (reserved_index rt m1)) .kernarg_address
                (read_ref m1.d st1 cd).kernargs ::
              (publish_effects (packet_slot m1.d (reserved_index rt m1))
                  (reserved_index rt m1) m1.d.queue.doorbell_signal ++
                [effect.hsa_signal_wait_acquire
                  (read_ref m1.d st1 cd).kernel_completion_signal])))),
        rfl, hd, ?_, ?_⟩
      · rw [htr2, htr]
        simp only [List.append_assoc, List.cons_append, List.nil_append,
          List.singleton_append]
      · intro x hx
        simp only [List.mem_append, List.mem_cons, List.mem_singleton, publish_effects,
          List.not_mem_nil, or_false] at hx
        rcases hx with h | h | h | h | h | (h | h | h) | h
        · rw [hres_kind x h]
          decide
        · subst h
          decide
        · rcases fill_effects_kind _ _ _ _ x h with h1 | h1 <;> rw [h1] <;> simp
        all_goals subst h; simp [effect.kind]

/-! ## The dispatch: releasing the dispatch data -/

/-- C12. After a run of `pocl_hsa_run` that returned, the effects of the run contain one
destruction of the executable and one of the completion signal of the dispatch data it
used when that data is the caller's stack record (`cached_data == &stack_cache`), and no
destruction of an executable or a signal otherwise; so each is destroyed exactly once if
and only if the stack record was used.  When the data came from kernel entry `j` of
program slot `i`, that entry still holds it, and a resolution of the same kernel and
code object in any state with this program cache returns that entry and changes nothing
but counters `kernel_cache_lastptr`. -/
theorem run_cache_reconciliation (rt : runtime) (cmd : _cl_command_node)
    (stack_cache : hsa_kernel_cache_t) (m : machine) (r : run_locals)
    (hret : (pocl_hsa_run rt cmd stack_cache m).value? = some r) :
    ∃ new co,
      cmd.run.device_data = some co ∧
      (pocl_hsa_run rt cmd stack_cache m).machine.trace = m.trace ++ new ∧
      destroyed_executables new =
        (if r.cached_data = .stack_cache then [(run_metadata rt cmd stack_cache m).hsa_exe]
          else []) ∧
      destroyed_signals new =
        (if r.cached_data = .stack_cache then
          [(run_metadata rt cmd stack_cache m).kernel_completion_signal] else []) ∧
      ((destroyed_executables new).length = 1 ∧ (destroyed_signals new).length = 1 ↔
        r.cached_data = .stack_cache) ∧
      (∀ i j, r.cached_data = .slot i j →
        ((pocl_hsa_run rt cmd stack_cache m).machine.d.program_cache i).kernel_cache j =
          run_metadata rt cmd stack_cache m ∧
        ∀ (rt2 : runtime) (stack_cache2 : hsa_kernel_cache_t) (m2 : machine),
          m2.d.program_cache = (pocl_hsa_run rt cmd stack_cache m).machine.d.program_cache →
          ∃ d2, keys_eq m2.d d2 ∧
            cache_kernel_dispatch_data rt2 cmd.run.kernel co stack_cache2 m2 =
              .returned { m2 with d := d2 } (.slot i j, stack_cache2)) := by
  obtain ⟨m1, before, hres, hd, htr, hbefore⟩ :=
    pocl_hsa_run_effects rt cmd stack_cache m r hret
  obtain ⟨co, hco, hckdd⟩ := run_resolve_code_object rt cmd stack_cache m m1 _ hres
  have hmeta : run_metadata rt cmd stack_cache m =
      read_ref m1.d r.stack_cache r.cached_data := by
    simp only [run_metadata, hres]
  have hexe : destroyed_executables (before ++ release_effects r.cached_data
      (read_ref m1.d r.stack_cache r.cached_data)) =
      (if r.cached_data = .stack_cache then
        [(read_ref m1.d r.stack_cache r.cached_data).hsa_exe] else []) := by
    rw [destroyed_executables_append, (not_destroyed before hbefore).1,
      (release_effects_destroyed _ _).1, List.nil_append]
  have hsig : destroyed_signals (before ++ release_effects r.cached_data
      (read_ref m1.d r.stack_cache r.cached_data)) =
      (if r.cached_data = .stack_cache then
        [(read_ref m1.d r.stack_cache r.cached_data).kernel_completion_signal] else []) := by
    rw [destroyed_signals_append, (not_destroyed before hbefore).2,
      (release_effects_destroyed _ _).2, List.nil_append]
  refine ⟨_, co, hco, htr, ?_, ?_, ?_, ?_⟩
  · rw [hexe, hmeta]
  · rw [hsig, hmeta]
  · rw [hexe, hsig]
    by_cases hst : r.cached_data = .stack_cache <;> simp [hst]
  · intro i j hslot
    rw [hd, hmeta, hslot]
    refine ⟨rfl, fun rt2 stack_cache2 m2 hpc => ?_⟩
    rw [hslot] at hckdd
    obtain ⟨hpre, hi, hj⟩ := cache_kernel_dispatch_data_slot rt cmd.run.kernel co stack_cache
      r.stack_cache _ m1 i j hckdd
    exact cache_kernel_dispatch_data_first rt2 cmd.run.kernel co stack_cache2 m2 i j
      (by rw [hpc]; exact hpre) (by rw [hpc]; exact hi) (by rw [hpc]; exact hj)

/-- C12, on two dispatches of kernel 7: with a full program cache the stack record is
used and the run destroys its executable 4096 and its signal 36864; after the compile
step the data is in entry 0 of slot 0 and the run destroys nothing. -/
theorem run_cache_reconciliation_witness :
    (pocl_hsa_run ex_runtime (ex_command [ex_scalar7]) zero_kernel_entry
      { ex_machine with d := ex_full_device }).value? =
        some { cached_data := .stack_cache
               stack_cache :=
                 { kernel := 7, hsa_exe := 4096, code_handle := 24576, private_size := 0,
                   static_group_size := 16, kernel_completion_signal := 36864,
                   kernargs := 45056, args_segment_size := 64 }
               queue_index := 0, total_group_size := 16 } ∧
    (∃ new,
      (pocl_hsa_run ex_runtime (ex_command [ex_scalar7]) zero_kernel_entry
        { ex_machine with d := ex_full_device }).machine.trace = [] ++ new ∧
      destroyed_executables new = [4096] ∧ destroyed_signals new = [36864]) ∧
    (pocl_hsa_run ex_runtime (ex_command [ex_scalar7]) zero_kernel_entry
      ex_compiled_machine).value? =
        some { cached_data := .slot 0 0, stack_cache := zero_kernel_entry,
               queue_index := 0, total_group_size := 16 } ∧
    (∃ new,
      (pocl_hsa_run ex_runtime (ex_command [ex_scalar7]) zero_kernel_entry
        ex_compiled_machine).machine.trace = ex_compiled_machine.trace ++ new ∧
      destroyed_executables new = [] ∧ destroyed_signals new = []) := by
  refine ⟨by decide, ?_, by decide, ?_⟩
  · obtain ⟨new, co, _, htr, hexe, hsig, _, _⟩ :=
      run_cache_reconciliation ex_runtime (ex_command [ex_scalar7]) zero_kernel_entry
        { ex_machine with d := ex_full_device }
        { cached_data := .stack_cache
          stack_cache :=
            { kernel := 7, hsa_exe := 4096, code_handle := 24576, private_size := 0,
              static_group_size := 16, kernel_completion_signal := 36864,
              kernargs := 45056, args_segment_size := 64 }
          queue_index := 0, total_group_size := 16 } (by decide)
    refine ⟨new, htr, ?_, ?_⟩
    · rw [hexe]
      decide
    · rw [hsig]
      decide
  · obtain ⟨new, co, _, htr, hexe, hsig, _, _⟩ :=
      run_cache_reconciliation ex_runtime (ex_command [ex_scalar7]) zero_kernel_entry
        ex_compiled_machine
        { cached_data := .slot 0 0, stack_cache := zero_kernel_entry,
          queue_index := 0, total_group_size := 16 } (by decide)
    exact ⟨new, htr, by rw [hexe]; decide, by rw [hsig]; decide⟩

/-- The reserved packet after a run of `pocl_hsa_run` whose resolution returned: the
filled packet, in which at most the group-segment size, the argument address and the
header have been stored after the filling. -/
theorem pocl_hsa_run_filled (rt : runtime) (cmd : _cl_command_node)
    (stack_cache : hsa_kernel_cache_t) (m : machine)
    (hres : (run_resolve rt cmd stack_cache m).value?.isSome = true) :
    ∃ group_segment_size kernarg_address header,
      (pocl_hsa_run rt cmd stack_cache m).machine.packets (run_slot rt cmd stack_cache m) =
        { filled_packet cmd (run_metadata rt cmd stack_cache m)
            (m.packets (run_slot rt cmd stack_cache m)) with
          group_segment_size := group_segment_size
          kernarg_address := kernarg_address
          header := header } := by
  rw [pocl_hsa_run_eq]
  cases hr : run_resolve rt cmd stack_cache m with
  | stopped m1 stop =>
    rw [hr] at hres
    cases hres
  | returned m1 v =>
    obtain ⟨cd, st1⟩ := v
    obtain ⟨_, _, _, _, hpk, _⟩ := run_resolve_returned rt cmd stack_cache st1 m m1 cd hr
    have hslot : run_slot rt cmd stack_cache m = packet_slot m1.d (reserved_index rt m1) := by
      simp only [run_slot, run_index, hr, outcome.machine]
    have hmeta : run_metadata rt cmd stack_cache m = read_ref m1.d st1 cd := by
      simp only [run_metadata, hr]
    rw [hslot, hmeta, ← hpk]
    simp only
    rcases dispatch_cases rt cmd cd st1 m1 _ _ _ _ rfl rfl rfl rfl with
      ⟨stop, m2, _, hrun, _, hp⟩ | ⟨m2, _, _, hrun, _, hp⟩ | ⟨m2, _, _, hrun, _, hp⟩ |
      ⟨m2, _, _, hrun, _, hp⟩
    · rw [hrun]
      exact ⟨_, _, _, hp⟩
    · rw [hrun]
      exact ⟨_, _, _, hp⟩
    · rw [hrun]
      exact ⟨_, _, _, hp⟩
    · rw [hrun]
      exact ⟨_, _, _, hp⟩

/-! ## The dispatch: the geometry of the packet -/

/-- C17, as the code has it: in every run of `pocl_hsa_run` whose resolution of the
dispatch data returned, the reserved packet has, on each axis, the requested local size
reduced modulo `2 ^ 16` as workgroup size (the members are `uint16_t`) and the number of
groups times the requested local size, reduced modulo `2 ^ 32`, as grid size (the members
are `uint32_t`); the workgroup size is the requested local size when that is below
`2 ^ 16`, and the grid size is the product when that is below `2 ^ 32`. -/
theorem run_packet_geometry (rt : runtime) (cmd : _cl_command_node)
    (stack_cache : hsa_kernel_cache_t) (m : machine)
    (hres : (run_resolve rt cmd stack_cache m).value?.isSome = true) :
    (((pocl_hsa_run rt cmd stack_cache m).machine.packets
        (run_slot rt cmd stack_cache m)).workgroup_size_x = cmd.run.local_x % 2 ^ 16 ∧
      ((pocl_hsa_run rt cmd stack_cache m).machine.packets
        (run_slot rt cmd stack_cache m)).workgroup_size_y = cmd.run.local_y % 2 ^ 16 ∧
      ((pocl_hsa_run rt cmd stack_cache m).machine.packets
        (run_slot rt cmd stack_cache m)).workgroup_size_z = cmd.run.local_z % 2 ^ 16 ∧
      ((pocl_hsa_run rt cmd stack_cache m).machine.packets
        (run_slot rt cmd stack_cache m)).grid_size_x =
          cmd.run.pc.num_groups 0 * cmd.run.local_x % 2 ^ 32 ∧
      ((pocl_hsa_run rt cmd stack_cache m).machine.packets
        (run_slot rt cmd stack_cache m)).grid_size_y =
          cmd.run.pc.num_groups 1 * cmd.run.local_y % 2 ^ 32 ∧
      ((pocl_hsa_run rt cmd stack_cache m).machine.packets
        (run_slot rt cmd stack_cache m)).grid_size_z =
          cmd.run.pc.num_groups 2 * cmd.run.local_z % 2 ^ 32) ∧
    (cmd.run.local_x < 2 ^ 16 → cmd.run.local_y < 2 ^ 16 → cmd.run.local_z < 2 ^ 16 →
      cmd.run.pc.num_groups 0 * cmd.run.local_x < 2 ^ 32 →
      cmd.run.pc.num_groups 1 * cmd.run.local_y < 2 ^ 32 →
      cmd.run.pc.num_groups 2 * cmd.run.local_z < 2 ^ 32 →
      ((pocl_hsa_run rt cmd stack_cache m).machine.packets
        (run_slot rt cmd stack_cache m)).workgroup_size_x = cmd.run.local_x ∧
      ((pocl_hsa_run rt cmd stack_cache m).machine.packets
        (run_slot rt cmd stack_cache m)).workgroup_size_y = cmd.run.local_y ∧
      ((pocl_hsa_run rt cmd stack_cache m).machine.packets
        (run_slot rt cmd stack_cache m)).workgroup_size_z = cmd.run.local_z ∧
      ((pocl_hsa_run rt cmd stack_cache m).machine.packets
        (run_slot rt cmd stack_cache m)).grid_size_x =
          cmd.run.pc.num_groups 0 * cmd.run.local_x ∧
      ((pocl_hsa_run rt cmd stack_cache m).machine.packets
        (run_slot rt cmd stack_cache m)).grid_size_y =
          cmd.run.pc.num_groups 1 * cmd.run.local_y ∧
      ((pocl_hsa_run rt cmd stack_cache m).machine.packets
        (run_slot rt cmd stack_cache m)).grid_size_z =
          cmd.run.pc.num_groups 2 * cmd.run.local_z) := by
  obtain ⟨g, k, h, hp⟩ := pocl_hsa_run_filled rt cmd stack_cache m hres
  rw [hp]
  refine ⟨⟨rfl, rfl, rfl, rfl, rfl, rfl⟩, fun hx hy hz hgx hgy hgz => ?_⟩
  exact ⟨Nat.mod_eq_of_lt hx, Nat.mod_eq_of_lt hy, Nat.mod_eq_of_lt hz,
    Nat.mod_eq_of_lt hgx, Nat.mod_eq_of_lt hgy, Nat.mod_eq_of_lt hgz⟩

/-- C17 as amended, on the dispatch of kernel 7 with 64 x 1 x 1 work-items in one group
per axis, after the compile step. -/
theorem run_packet_geometry_witness :
    (run_resolve ex_runtime (ex_command []) zero_kernel_entry
      ex_compiled_machine).value?.isSome = true ∧
    run_slot ex_runtime (ex_command []) zero_kernel_entry ex_compiled_machine = 0 ∧
    ((pocl_hsa_run ex_runtime (ex_command []) zero_kernel_entry
      ex_compiled_machine).machine.packets 0).workgroup_size_x = 64 ∧
    ((pocl_hsa_run ex_runtime (ex_command []) zero_kernel_entry
      ex_compiled_machine).machine.packets 0).grid_size_x = 1 * 64 := by
  have h := (run_packet_geometry ex_runtime (ex_command []) zero_kernel_entry
    ex_compiled_machine (by decide)).2 (by decide) (by decide) (by decide) (by decide)
    (by decide) (by decide)
  have hslot : run_slot ex_runtime (ex_command []) zero_kernel_entry
      ex_compiled_machine = 0 := by decide
  rw [hslot] at h
  exact ⟨by decide, hslot, h.1, h.2.2.2.1⟩

/-- C17 as stated fails: a dispatch of `2 ^ 26` groups of 64 work-items on the first
axis returns, and the packet it published in slot 0 has grid size 0 on that axis, not
`2 ^ 26 * 64`. -/
theorem run_packet_geometry_counterexample :
    ex_wide_command.run.pc.num_groups 0 * ex_wide_command.run.local_x = 4294967296 ∧
    (pocl_hsa_run ex_runtime ex_wide_command zero_kernel_entry
      ex_compiled_machine).value?.map (fun r => r.queue_index) = some 0 ∧
    ((pocl_hsa_run ex_runtime ex_wide_command zero_kernel_entry
      ex_compiled_machine).machine.packets 0).header = dispatch_header ∧
    ((pocl_hsa_run ex_runtime ex_wide_command zero_kernel_entry
      ex_compiled_machine).machine.packets 0).workgroup_size_x = 64 ∧
    ((pocl_hsa_run ex_runtime ex_wide_command zero_kernel_entry
      ex_compiled_machine).machine.packets 0).grid_size_x = 0 := by
  decide

/-! ## The dispatch: the local-memory check -/

/-- The local-memory check of `pocl_hsa_run` where the 32-bit counter does not wrap.
In a run whose resolution of the dispatch data returned: when the static
group-segment size plus the sizes of the local arguments is below `2 ^ 32` and exceeds
the device's local memory size, the run does not return, it stops with the local-memory
abort if the marshalling succeeded, and its effects contain no header store and no
write-index store, and no signal store other than the reset of the completion signal;
when that sum does not exceed the device's local memory size, the run does not stop with
the local-memory abort. -/
theorem run_local_memory_check (rt : runtime) (cmd : _cl_command_node)
    (stack_cache : hsa_kernel_cache_t) (m : machine)
    (hres : (run_resolve rt cmd stack_cache m).value?.isSome = true) :
    ((run_metadata rt cmd stack_cache m).static_group_size + local_sizes (kernel_args cmd) <
        2 ^ 32 →
      (run_metadata rt cmd stack_cache m).static_group_size + local_sizes (kernel_args cmd) >
        cmd.device.local_mem_size →
      (pocl_hsa_run rt cmd stack_cache m).value? = none ∧
      ((run_marshal rt cmd stack_cache m).2 = none →
        (pocl_hsa_run rt cmd stack_cache m).stop? =
          some (.POCL_ABORT .local_memory_exceeds_device)) ∧
      ∃ new, (pocl_hsa_run rt cmd stack_cache m).machine.trace = m.trace ++ new ∧
        ∀ x ∈ new, x.kind ≠ .header ∧ x.kind ≠ .write_index ∧
          (x.kind = .signal_store → x = .hsa_signal_store_relaxed
            (run_metadata rt cmd stack_cache m).kernel_completion_signal 1)) ∧
    ((run_metadata rt cmd stack_cache m).static_group_size + local_sizes (kernel_args cmd) ≤
        cmd.device.local_mem_size →
      (pocl_hsa_run rt cmd stack_cache m).stop? ≠
        some (.POCL_ABORT .local_memory_exceeds_device)) := by
  rw [pocl_hsa_run_eq]
  cases hr : run_resolve rt cmd stack_cache m with
  | stopped m1 stop =>
    rw [hr] at hres
    cases hres
  | returned m1 v =>
    obtain ⟨cd, st1⟩ := v
    obtain ⟨resolution, htr, hres_kind, _, _, _⟩ :=
      run_resolve_returned rt cmd stack_cache st1 m m1 cd hr
    have hmeta : run_metadata rt cmd stack_cache m = read_ref m1.d st1 cd := by
      simp only [run_metadata, hr]
    have hmarshal : run_marshal rt cmd stack_cache m =
        setup_kernel_args cmd.device.dev_id (kernel_args cmd) m1.heap
          (read_ref m1.d st1 cd).kernargs (read_ref m1.d st1 cd).args_segment_size
          ((read_ref m1.d st1 cd).static_group_size % 2 ^ 32) := by
      simp only [run_marshal, hmeta, hr, outcome.machine]
    have htotal : (setup_kernel_args cmd.device.dev_id (kernel_args cmd) m1.heap
          (read_ref m1.d st1 cd).kernargs (read_ref m1.d st1 cd).args_segment_size
          ((read_ref m1.d st1 cd).static_group_size % 2 ^ 32)).2 = none →
        (setup_kernel_args cmd.device.dev_id (kernel_args cmd) m1.heap
          (read_ref m1.d st1 cd).kernargs (read_ref m1.d st1 cd).args_segment_size
          ((read_ref m1.d st1 cd).static_group_size % 2 ^ 32)).1.total_group_size =
        ((read_ref m1.d st1 cd).static_group_size + local_sizes (kernel_args cmd)) %
          2 ^ 32 := by
      intro hok
      obtain ⟨_, hstate⟩ := setup_kernel_args_success _ _ _ _ _ _ hok
      rw [hstate]
      exact counter_after_all_eq _ _
    have hfill : ∀ x ∈ fill_effects cmd (read_ref m1.d st1 cd)
          (packet_slot m1.d (reserved_index rt m1))
          (m1.packets (packet_slot m1.d (reserved_index rt m1))).setup,
        x.kind ≠ .header ∧ x.kind ≠ .write_index ∧
          (x.kind = .signal_store → x = .hsa_signal_store_relaxed
            (read_ref m1.d st1 cd).kernel_completion_signal 1) := by
      intro x hx
      simp only [fill_effects, List.mem_cons, List.mem_singleton, List.not_mem_nil,
        or_false] at hx
      rcases hx with h | h | h | h | h | h | h | h | h | h | h | h | h | h <;> subst h <;>
        simp [effect.kind]
    rw [hmeta, hmarshal]
    simp only
    rcases dispatch_cases rt cmd cd st1 m1 _ _ _ _ rfl rfl rfl rfl with
      ⟨stop, m2, hms, hrun, htr2, _⟩ | ⟨m2, hms, hmem, hrun, htr2, _⟩ |
      ⟨m2, hms, hmem, hrun, _, _⟩ | ⟨m2, hms, hmem, hrun, _, _⟩
    · rw [hrun]
      refine ⟨fun _ _ => ⟨rfl, fun hok => ?_,
        resolution ++ effect.hsa_queue_load_write_index_relaxed ::
          fill_effects cmd (read_ref m1.d st1 cd)
            (packet_slot m1.d (reserved_index rt m1))
            (m1.packets (packet_slot m1.d (reserved_index rt m1))).setup, ?_, ?_⟩,
        fun _ => ?_⟩
      · rw [hok] at hms
        cases hms
      · simp only [outcome.machine]
        rw [htr2, htr, List.append_assoc]
      · intro x hx
        rcases List.mem_append.mp hx with h | h
        · rw [hres_kind x h]
          simp
        · rcases List.mem_cons.mp h with h | h
          · subst h
            simp [effect.kind]
          · exact hfill x h
      · simp only [outcome.stop?, ne_eq, Option.some.injEq]
        rcases setup_kernel_args_stop _ _ _ _ _ _ _ hms with h | ⟨msg, h⟩ | h <;>
          subst h <;> simp
    · rw [hrun]
      refine ⟨fun _ _ => ⟨rfl, fun _ => rfl,
        resolution ++ effect.hsa_queue_load_write_index_relaxed ::
          (fill_effects cmd (read_ref m1.d st1 cd)
            (packet_slot m1.d (reserved_index rt m1))
            (m1.packets (packet_slot m1.d (reserved_index rt m1))).setup ++
          [effect.packet_store (packet_slot m1.d (reserved_index rt m1)) .group_segment_size
            (setup_kernel_args cmd.device.dev_id (kernel_args cmd) m1.heap
              (read_ref m1.d st1 cd).kernargs (read_ref m1.d st1 cd).args_segment_size
              ((read_ref m1.d st1 cd).static_group_size % 2 ^ 32)).1.total_group_size]),
        ?_, ?_⟩, fun hle => ?_⟩
      · simp only [outcome.machine]
        rw [htr2, htr, List.append_assoc]
      · intro x hx
        rcases List.mem_append.mp hx with h | h
        · rw [hres_kind x h]
          simp
        · rcases List.mem_cons.mp h with h | h
          · subst h
            simp [effect.kind]
          · rcases List.mem_append.mp h with h | h
            · exact hfill x h
            · simp only [List.mem_singleton] at h
              subst h
              simp [effect.kind]
      · exfalso
        rw [htotal hms] at hmem
        have := Nat.mod_le ((read_ref m1.d st1 cd).static_group_size +
          local_sizes (kernel_args cmd)) (2 ^ 32)
        omega
    · rw [hrun]
      refine ⟨fun hsmall hgt => ?_, fun _ => by simp [outcome.stop?]⟩
      exfalso
      rw [htotal hms, Nat.mod_eq_of_lt hsmall] at hmem
      exact hmem hgt
    · rw [hrun]
      refine ⟨fun hsmall hgt => ?_, fun _ => by simp [outcome.stop?]⟩
      exfalso
      rw [htotal hms, Nat.mod_eq_of_lt hsmall] at hmem
      exact hmem hgt

/-- C15 at the failing input.  A kernel with 16 bytes of static group memory is
dispatched, after the compile step, with two local arguments of `2 ^ 31` bytes each on a
device with 65536 bytes of local memory.  The required group-segment size is
16 + 4294967296; the 32-bit counter wraps to 16, the check passes, and the run returns
having published the packet (header, write index and doorbell stored) with
`group_segment_size` 16. -/
theorem run_local_memory_overflow :
    (run_metadata ex_runtime (ex_command [ex_local_huge, ex_local_huge]) zero_kernel_entry
        ex_compiled_machine).static_group_size +
      local_sizes (kernel_args (ex_command [ex_local_huge, ex_local_huge])) =
        16 + 4294967296 ∧
    (ex_command [ex_local_huge, ex_local_huge]).device.local_mem_size = 65536 ∧
    (pocl_hsa_run ex_runtime (ex_command [ex_local_huge, ex_local_huge]) zero_kernel_entry
      ex_compiled_machine).value?.isSome = true ∧
    (pocl_hsa_run ex_runtime (ex_command [ex_local_huge, ex_local_huge]) zero_kernel_entry
      ex_compiled_machine).machine.trace.drop 35 =
        [effect.header_store_release 0 dispatch_header,
          effect.hsa_queue_store_write_index_relaxed 1,
          effect.hsa_signal_store_relaxed 9 0,
          effect.hsa_signal_wait_acquire 65536] ∧
    ((pocl_hsa_run ex_runtime (ex_command [ex_local_huge, ex_local_huge]) zero_kernel_entry
      ex_compiled_machine).machine.packets 0).group_segment_size = 16 := by
  decide

/-! ## The dispatch: the content of the published packet -/

/-- The packet a run of `pocl_hsa_run` that returned has published: the
header is the dispatch header, the group-segment size is the final local-memory counter,
the argument address is that of the dispatch data, and every other member is as
`filled_packet` gives it: all of them are determined by the command and the dispatch
data, except `setup`, which is the old content of the slot or-ed with the dimension
count. -/
theorem pocl_hsa_run_published (rt : runtime) (cmd : _cl_command_node)
    (stack_cache : hsa_kernel_cache_t) (m : machine) (r : run_locals)
    (hret : (pocl_hsa_run rt cmd stack_cache m).value? = some r) :
    (pocl_hsa_run rt cmd stack_cache m).machine.packets (run_slot rt cmd stack_cache m) =
      { filled_packet cmd (run_metadata rt cmd stack_cache m)
          (m.packets (run_slot rt cmd stack_cache m)) with
        group_segment_size := r.total_group_size
        kernarg_address := (run_metadata rt cmd stack_cache m).kernargs
        header := dispatch_header } := by
  rw [pocl_hsa_run_eq] at hret ⊢
  cases hr : run_resolve rt cmd stack_cache m with
  | stopped m1 stop =>
    rw [hr] at hret
    cases hret
  | returned m1 v =>
    obtain ⟨cd, st1⟩ := v
    obtain ⟨_, _, _, _, hpk, _⟩ := run_resolve_returned rt cmd stack_cache st1 m m1 cd hr
    have hslot : run_slot rt cmd stack_cache m = packet_slot m1.d (reserved_index rt m1) := by
      simp only [run_slot, run_index, hr, outcome.machine]
    have hmeta : run_metadata rt cmd stack_cache m = read_ref m1.d st1 cd := by
      simp only [run_metadata, hr]
    rw [hr] at hret
    rw [hslot, hmeta, ← hpk]
    simp only at hret ⊢
    rcases dispatch_cases rt cmd cd st1 m1 _ _ _ _ rfl rfl rfl rfl with
      ⟨stop, m2, _, hrun, _, hp⟩ | ⟨m2, _, _, hrun, _, hp⟩ | ⟨m2, _, _, hrun, _, hp⟩ |
      ⟨m2, _, _, hrun, _, hp⟩
    · rw [hrun] at hret
      cases hret
    · rw [hrun] at hret
      cases hret
    · rw [hrun] at hret
      cases hret
    · rw [hrun] at hret ⊢
      simp only [outcome.value?, Option.some.injEq] at hret
      subst hret
      exact hp

/-- C18 at the failing input.  Slot 0 of the queue holds the packet of an earlier
two-dimensional dispatch (`setup` = 2).  A one-dimensional dispatch whose write index is
4 reserves slot 0 again; with the same command and the same dispatch data, it publishes
`setup` = 3 there, and `setup` = 1 when the slot held zeros before. -/
theorem run_packet_setup_cross_call :
    (ex_used_machine.packets 0).setup = 2 ∧
    run_slot (ex_runtime_at 4) (ex_command []) zero_kernel_entry ex_used_machine = 0 ∧
    run_slot (ex_runtime_at 4) (ex_command []) zero_kernel_entry
      { ex_used_machine with packets := fun _ => zero_packet } = 0 ∧
    run_metadata (ex_runtime_at 4) (ex_command []) zero_kernel_entry ex_used_machine =
      run_metadata (ex_runtime_at 4) (ex_command []) zero_kernel_entry
        { ex_used_machine with packets := fun _ => zero_packet } ∧
    (pocl_hsa_run (ex_runtime_at 4) (ex_command []) zero_kernel_entry
      ex_used_machine).value?.isSome = true ∧
    (pocl_hsa_run (ex_runtime_at 4) (ex_command []) zero_kernel_entry
      { ex_used_machine with packets := fun _ => zero_packet }).value?.isSome = true ∧
    ((pocl_hsa_run (ex_runtime_at 4) (ex_command []) zero_kernel_entry
      ex_used_machine).machine.packets 0).setup = 3 ∧
    ((pocl_hsa_run (ex_runtime_at 4) (ex_command []) zero_kernel_entry
      { ex_used_machine with packets := fun _ => zero_packet }).machine.packets 0).setup =
        1 := by
  decide

/-! ## Compilation: the result of the two external steps -/

/-- C16. For every working directory and every behaviour of the world outside,
`compile_parallel_bc_to_brig` first asks whether the BRIG file exists.  If it does, it
returns 0 and invokes no tool.  Otherwise it invokes the lowering step; if that exits
with a non-zero status it returns that status and does not invoke the assembling step;
if it exits with 0 it invokes the assembling step and returns its status (non-zero when
it fails, 0 when both steps succeeded).  And for every kernel-dispatch command whose
program is not in the cache and every state: whenever `compile_parallel_bc_to_brig`
returns non-zero in `pocl_hsa_compile_submitted_kernels`, that function stops with
`POCL_ABORT` and the device data, so the program cache, is unchanged. -/
theorem compile_parallel_bc_to_brig_result (cfg : toolchain_config) (rt : runtime)
    (tmpdir : String) (tr : List effect) :
    ((rt.reply tr (.pocl_exists (brig_file cfg tmpdir))).value ≠ 0 →
      compile_parallel_bc_to_brig cfg rt tmpdir tr =
        (0, tr ++ [effect.pocl_exists (brig_file cfg tmpdir)])) ∧
    ((rt.reply tr (.pocl_exists (brig_file cfg tmpdir))).value = 0 →
      (rt.reply (tr ++ [effect.pocl_exists (brig_file cfg tmpdir)])
        (.system (llc_command cfg tmpdir))).value ≠ 0 →
      compile_parallel_bc_to_brig cfg rt tmpdir tr =
        ((rt.reply (tr ++ [effect.pocl_exists (brig_file cfg tmpdir)])
            (.system (llc_command cfg tmpdir))).value,
          tr ++ [effect.pocl_exists (brig_file cfg tmpdir),
            effect.system (llc_command cfg tmpdir)])) ∧
    ((rt.reply tr (.pocl_exists (brig_file cfg tmpdir))).value = 0 →
      (rt.reply (tr ++ [effect.pocl_exists (brig_file cfg tmpdir)])
        (.system (llc_command cfg tmpdir))).value = 0 →
      compile_parallel_bc_to_brig cfg rt tmpdir tr =
        ((rt.reply (tr ++ [effect.pocl_exists (brig_file cfg tmpdir),
              effect.system (llc_command cfg tmpdir)])
            (.system (hsailasm_command cfg tmpdir))).value,
          tr ++ [effect.pocl_exists (brig_file cfg tmpdir),
            effect.system (llc_command cfg tmpdir),
            effect.system (hsailasm_command cfg tmpdir)])) ∧
    (∀ (cmd : _cl_command_node) (m : machine),
      cmd.type = .CL_COMMAND_NDRANGE_KERNEL →
      find_program m.d cmd.run.kernel.program = none →
      (compile_parallel_bc_to_brig cfg rt cmd.run.tmp_dir m.trace).1 ≠ 0 →
      pocl_hsa_compile_submitted_kernels cfg rt cmd m =
        .stopped
          { m with trace := (compile_parallel_bc_to_brig cfg rt cmd.run.tmp_dir m.trace).2 }
          (.POCL_ABORT .compiling_to_brig_failed) ∧
      (pocl_hsa_compile_submitted_kernels cfg rt cmd m).machine.d = m.d) := by
  refine ⟨fun hex => ?_, fun hex hllc => ?_, fun hex hllc => ?_,
    fun cmd m hty hfind hfail => ?_⟩
  · unfold compile_parallel_bc_to_brig
    simp only [hex, ne_eq, not_false_eq_true, if_true]
  · unfold compile_parallel_bc_to_brig
    simp only [hex, hllc, ne_eq, not_true_eq_false, not_false_eq_true, if_true, if_false,
      List.append_assoc, List.singleton_append]
  · unfold compile_parallel_bc_to_brig
    simp only [hex, hllc, ne_eq, not_true_eq_false, if_false, List.append_assoc,
      List.singleton_append, List.cons_append, List.nil_append]
    split
    · rfl
    · rename_i h0
      rw [not_not.mp h0]
  · have hstop : pocl_hsa_compile_submitted_kernels cfg rt cmd m =
        .stopped
          { m with trace := (compile_parallel_bc_to_brig cfg rt cmd.run.tmp_dir m.trace).2 }
          (.POCL_ABORT .compiling_to_brig_failed) := by
      unfold pocl_hsa_compile_submitted_kernels
      simp only [hty, ne_eq, not_true_eq_false, if_false, hfind]
      rw [if_pos hfail]
    refine ⟨hstop, ?_⟩
    rw [hstop]
    rfl

/-- C16, on the freshly initialised device with the working directory `/tmp`.  In a
world in which the BRIG file exists the function returns 0 after the one question, with
no tool invoked.  In a world in which it does not exist and the lowering step fails
(`system` returns 256) the function returns 256 after invoking the lowering step only,
and the compile call stops with the cache unchanged.  In a world in which it does not
exist and both tools exit with 0 the function returns 0 after invoking both. -/
theorem compile_parallel_bc_to_brig_result_witness :
    ((ex_runtime.reply [] (.pocl_exists (brig_file ex_config "/tmp"))).value ≠ 0 ∧
      compile_parallel_bc_to_brig ex_config ex_runtime "/tmp" [] =
        (0, [] ++ [effect.pocl_exists (brig_file ex_config "/tmp")])) ∧
    ((ex_runtime_llc_fails.reply [] (.pocl_exists (brig_file ex_config "/tmp"))).value = 0 ∧
      (ex_runtime_llc_fails.reply ([] ++ [effect.pocl_exists (brig_file ex_config "/tmp")])
        (.system (llc_command ex_config "/tmp"))).value = 256 ∧
      compile_parallel_bc_to_brig ex_config ex_runtime_llc_fails "/tmp" [] =
        ((ex_runtime_llc_fails.reply ([] ++ [effect.pocl_exists (brig_file ex_config "/tmp")])
            (.system (llc_command ex_config "/tmp"))).value,
          [] ++ [effect.pocl_exists (brig_file ex_config "/tmp"),
            effect.system (llc_command ex_config "/tmp")])) ∧
    ((ex_runtime_compiles.reply [] (.pocl_exists (brig_file ex_config "/tmp"))).value = 0 ∧
      (ex_runtime_compiles.reply ([] ++ [effect.pocl_exists (brig_file ex_config "/tmp")])
        (.system (llc_command ex_config "/tmp"))).value = 0 ∧
      (ex_runtime_compiles.reply ([] ++ [effect.pocl_exists (brig_file ex_config "/tmp"),
        effect.system (llc_command ex_config "/tmp")])
        (.system (hsailasm_command ex_config "/tmp"))).value = 0 ∧
      compile_parallel_bc_to_brig ex_config ex_runtime_compiles "/tmp" [] =
        ((ex_runtime_compiles.reply ([] ++ [effect.pocl_exists (brig_file ex_config "/tmp"),
              effect.system (llc_command ex_config "/tmp")])
            (.system (hsailasm_command ex_config "/tmp"))).value,
          [] ++ [effect.pocl_exists (brig_file ex_config "/tmp"),
            effect.system (llc_command ex_config "/tmp"),
            effect.system (hsailasm_command ex_config "/tmp")])) ∧
    ((ex_command []).type = .CL_COMMAND_NDRANGE_KERNEL ∧
      find_program ex_machine.d (ex_command []).run.kernel.program = none ∧
      (compile_parallel_bc_to_brig ex_config ex_runtime_llc_fails (ex_command []).run.tmp_dir
        ex_machine.trace).1 = 256 ∧
      (pocl_hsa_compile_submitted_kernels ex_config ex_runtime_llc_fails (ex_command [])
        ex_machine).stop? = some (.POCL_ABORT .compiling_to_brig_failed) ∧
      (pocl_hsa_compile_submitted_kernels ex_config ex_runtime_llc_fails (ex_command [])
        ex_machine).machine.d = ex_machine.d) :=
  ⟨⟨by decide,
      (compile_parallel_bc_to_brig_result ex_config ex_runtime "/tmp" []).1 (by decide)⟩,
    ⟨by decide, by decide,
      (compile_parallel_bc_to_brig_result ex_config ex_runtime_llc_fails "/tmp" []).2.1
        (by decide) (by decide)⟩,
    ⟨by decide, by decide, by decide,
      (compile_parallel_bc_to_brig_result ex_config ex_runtime_compiles "/tmp" []).2.2.1
        (by decide) (by decide)⟩,
    ⟨by decide, by decide, by decide, by decide,
      ((compile_parallel_bc_to_brig_result ex_config ex_runtime_llc_fails "/tmp" []).2.2.2
        (ex_command []) ex_machine (by decide) (by decide) (by decide)).2⟩⟩

/-! ## Lemmas on the teardown -/

theorem uninit_kernels_eq (cache : hsa_program_cache_t) :
    ∀ (l : List (Fin HSA_KERNEL_CACHE_SIZE)) (tr : List effect),
      uninit_kernels cache l tr = tr ++ l.flatMap (fun i =>
        if (cache.kernel_cache i).kernel ≠ 0 then
          [effect.hsa_executable_destroy (cache.kernel_cache i).hsa_exe,
            effect.hsa_signal_destroy (cache.kernel_cache i).kernel_completion_signal]
        else []) := by
  intro l
  induction l with
  | nil => intro tr; simp [uninit_kernels]
  | cons i rest ih =>
    intro tr
    rw [uninit_kernels]
    split
    · rename_i h
      rw [ih, List.flatMap_cons, if_pos h, List.append_assoc]
    · rename_i h
      rw [ih, List.flatMap_cons, if_neg h, List.nil_append]

theorem uninit_programs_eq (d : pocl_hsa_device_data) :
    ∀ (l : List (Fin HSA_PROGRAM_CACHE_SIZE)) (tr : List effect),
      uninit_programs d l tr = tr ++ uninit_effects d l := by
  intro l
  unfold uninit_effects
  induction l with
  | nil => intro tr; simp [uninit_programs]
  | cons j rest ih =>
    intro tr
    rw [uninit_programs]
    split
    · rename_i h
      simp only [ih, uninit_kernels_eq, List.flatMap_cons, if_pos h, List.append_assoc]
    · rename_i h
      rw [ih, List.flatMap_cons, if_neg h, List.nil_append]

/-- What a selection of the destructions of executables and signals finds in the effects
of the loop over the entries of one slot, when an entry that is not all-zero has a
kernel identity. -/
theorem uninit_kernels_select (sel : effect → Option Nat) (proj : hsa_kernel_cache_t → Nat)
    (hsel : ∀ e : hsa_kernel_cache_t,
      [effect.hsa_executable_destroy e.hsa_exe,
        effect.hsa_signal_destroy e.kernel_completion_signal].filterMap sel = [proj e])
    (cache : hsa_program_cache_t)
    (hinv : ∀ i, cache.kernel_cache i ≠ zero_kernel_entry → (cache.kernel_cache i).kernel ≠ 0) :
    ∀ l : List (Fin HSA_KERNEL_CACHE_SIZE),
      (l.flatMap (fun i =>
        if (cache.kernel_cache i).kernel ≠ 0 then
          [effect.hsa_executable_destroy (cache.kernel_cache i).hsa_exe,
            effect.hsa_signal_destroy (cache.kernel_cache i).kernel_completion_signal]
        else [])).filterMap sel =
      ((l.map cache.kernel_cache).filter (fun e => decide (e ≠ zero_kernel_entry))).map proj := by
  intro l
  induction l with
  | nil => rfl
  | cons i rest ih =>
    rw [List.flatMap_cons, List.filterMap_append, ih, List.map_cons]
    by_cases hk : (cache.kernel_cache i).kernel ≠ 0
    · have hz : cache.kernel_cache i ≠ zero_kernel_entry := by
        intro h
        rw [h] at hk
        exact hk rfl
      rw [if_pos hk, hsel, List.filter_cons_of_pos (by simpa using hz), List.map_cons]
      rfl
    · have hz : ¬ cache.kernel_cache i ≠ zero_kernel_entry := fun h => hk (hinv i h)
      rw [if_neg hk, List.filter_cons_of_neg (by simpa using hz)]
      rfl

theorem uninit_programs_select (sel : effect → Option Nat) (proj : hsa_kernel_cache_t → Nat)
    (hsel : ∀ e : hsa_kernel_cache_t,
      [effect.hsa_executable_destroy e.hsa_exe,
        effect.hsa_signal_destroy e.kernel_completion_signal].filterMap sel = [proj e])
    (hco : ∀ c, sel (.hsa_code_object_destroy c) = none)
    (d : pocl_hsa_device_data) (hinv : cache_consistent d) :
    ∀ l : List (Fin HSA_PROGRAM_CACHE_SIZE),
      (uninit_effects d l).filterMap sel =
      (l.flatMap (fun j =>
        ((List.finRange HSA_KERNEL_CACHE_SIZE).map (d.program_cache j).kernel_cache).filter
          (fun e => decide (e ≠ zero_kernel_entry)))).map proj := by
  unfold uninit_effects
  intro l
  induction l with
  | nil => rfl
  | cons j rest ih =>
    rw [List.flatMap_cons, List.filterMap_append, ih, List.flatMap_cons, List.map_append]
    congr 1
    by_cases hp : (d.program_cache j).program ≠ 0
    · rw [if_pos hp, List.filterMap_append,
        uninit_kernels_select sel proj hsel (d.program_cache j)
          (fun i hi => (hinv.2.2.1 j i hi).1)]
      simp [List.filterMap_cons, hco]
    · rw [if_neg hp]
      have hnil : ((List.finRange HSA_KERNEL_CACHE_SIZE).map
          (d.program_cache j).kernel_cache).filter
            (fun e => decide (e ≠ zero_kernel_entry)) = [] := by
        rw [List.filter_eq_nil_iff]
        intro e he
        obtain ⟨i, _, hi⟩ := List.mem_map.mp he
        subst hi
        intro hne
        simp only [decide_eq_true_eq] at hne
        exact hp (hinv.2.2.1 j i hne).2
      rw [hnil]
      rfl

theorem uninit_programs_executables (d : pocl_hsa_device_data) (hinv : cache_consistent d)
    (l : List (Fin HSA_PROGRAM_CACHE_SIZE)) :
    destroyed_executables (uninit_effects d l) =
      (l.flatMap (fun j =>
        ((List.finRange HSA_KERNEL_CACHE_SIZE).map (d.program_cache j).kernel_cache).filter
          (fun e => decide (e ≠ zero_kernel_entry)))).map (fun e => e.hsa_exe) := by
  refine uninit_programs_select _ (fun e => e.hsa_exe) ?_ ?_ d hinv l <;> intro _ <;> rfl

theorem uninit_programs_signals (d : pocl_hsa_device_data) (hinv : cache_consistent d)
    (l : List (Fin HSA_PROGRAM_CACHE_SIZE)) :
    destroyed_signals (uninit_effects d l) =
      (l.flatMap (fun j =>
        ((List.finRange HSA_KERNEL_CACHE_SIZE).map (d.program_cache j).kernel_cache).filter
          (fun e => decide (e ≠ zero_kernel_entry)))).map
        (fun e => e.kernel_completion_signal) := by
  refine uninit_programs_select _ (fun e => e.kernel_completion_signal) ?_ ?_ d hinv l <;>
    intro _ <;> rfl

theorem uninit_programs_code_objects (d : pocl_hsa_device_data) (hinv : cache_consistent d) :
    ∀ l : List (Fin HSA_PROGRAM_CACHE_SIZE),
      destroyed_code_objects (uninit_effects d l) =
      (l.filter (fun j => decide (j.val < d.program_cache_lastptr))).map
        (fun j => (d.program_cache j).code_object) := by
  unfold uninit_effects
  intro l
  induction l with
  | nil => rfl
  | cons j rest ih =>
    unfold destroyed_code_objects at ih ⊢
    rw [List.flatMap_cons, List.filterMap_append, ih]
    by_cases hp : (d.program_cache j).program ≠ 0
    · have hlt : j.val < d.program_cache_lastptr := (hinv.1 j).mpr hp
      rw [if_pos hp, List.filter_cons_of_pos (by simpa using hlt), List.map_cons,
        List.filterMap_append]
      have hnone : ((List.finRange HSA_KERNEL_CACHE_SIZE).flatMap (fun i =>
          if ((d.program_cache j).kernel_cache i).kernel ≠ 0 then
            [effect.hsa_executable_destroy ((d.program_cache j).kernel_cache i).hsa_exe,
              effect.hsa_signal_destroy
                ((d.program_cache j).kernel_cache i).kernel_completion_signal]
          else [])).filterMap (fun e => match e with
            | .hsa_code_object_destroy code_object => some code_object
            | _ => none) = [] := by
        rw [List.filterMap_eq_nil_iff]
        intro x hx
        obtain ⟨i, _, hi⟩ := List.mem_flatMap.mp hx
        split at hi
        · simp only [List.mem_cons, List.mem_singleton, List.not_mem_nil, or_false] at hi
          rcases hi with h | h <;> subst h <;> rfl
        · cases hi
      rw [hnone]
      rfl
    · have hlt : ¬ j.val < d.program_cache_lastptr := fun h => hp ((hinv.1 j).mp h)
      rw [if_neg hp, List.filter_cons_of_neg (by simpa using hlt)]
      rfl

/-! ## The consistency of the caches in the reachable states -/

theorem find_kernel_eq_none (p : hsa_program_cache_t) (kernel : Nat)
    (h : find_kernel p kernel = none) : ∀ j, (p.kernel_cache j).kernel ≠ kernel := by
  unfold find_kernel at h
  rw [List.find?_eq_none] at h
  intro j
  simpa using h j (List.mem_finRange j)

/-- The scan never lowers a counter `kernel_cache_lastptr`. -/
theorem scan_programs_counters (kernel code_object : Nat) :
    ∀ (l : List (Fin HSA_PROGRAM_CACHE_SIZE)) (s : scan_state) (a : Fin HSA_PROGRAM_CACHE_SIZE),
      (s.d.program_cache a).kernel_cache_lastptr ≤
        ((scan_programs kernel code_object l s).d.program_cache a).kernel_cache_lastptr := by
  intro l
  induction l with
  | nil => intro s a; exact Nat.le_refl _
  | cons i rest ih =>
    intro s a
    rw [scan_programs]
    split
    · split
      · exact Nat.le_refl _
      · split
        · refine Nat.le_trans ?_ (ih _ a)
          by_cases ha : a = i
          · subst ha
            simp only [Function.update_same]
            omega
          · simp only [Function.update_noteq ha]
            exact Nat.le_refl _
        · exact ih { s with p_out := some (i, .stack_cache) } a
    · exact ih _ a

/-- The entry a scan that ran through has selected lies between the old and the new
value of the counter of its slot. -/
theorem scan_programs_selected (kernel code_object : Nat) :
    ∀ (l : List (Fin HSA_PROGRAM_CACHE_SIZE)) (s s1 : scan_state),
      scan_programs kernel code_object l s = .fell_through s1 →
      ∀ i0 i j, s1.p_out = some (i0, .slot i j) →
        s.p_out = some (i0, .slot i j) ∨
          ((s.d.program_cache i).kernel_cache_lastptr ≤ j.val ∧
            j.val < (s1.d.program_cache i).kernel_cache_lastptr) := by
  intro l
  induction l with
  | nil =>
    intro s s1 h i0 i j h1
    simp only [scan_programs, scan_result.fell_through.injEq] at h
    subst h
    exact Or.inl h1
  | cons a rest ih =>
    intro s s1 h i0 i j h1
    rw [scan_programs] at h
    split at h
    · split at h
      · cases h
      · split at h
        · rename_i hlt
          have hmono := scan_programs_counters kernel code_object rest
            { d := { s.d with program_cache := (Function.update s.d.program_cache a
                      { (s.d.program_cache a) with
                        kernel_cache_lastptr :=
                          (s.d.program_cache a).kernel_cache_lastptr + 1 }) }
              p_out := some (a, .slot a ⟨(s.d.program_cache a).kernel_cache_lastptr, hlt⟩) }
          rw [h] at hmono
          rcases ih _ s1 h i0 i j h1 with h2 | ⟨h2, h3⟩
          · simp only [Option.some.injEq, Prod.mk.injEq, cache_ref.slot.injEq] at h2
            obtain ⟨_, hi, hj⟩ := h2
            subst hi
            subst hj
            refine Or.inr ⟨Nat.le_refl _, ?_⟩
            have := hmono a
            simp only [scan_result.d, Function.update_same] at this
            exact this
          · refine Or.inr ⟨?_, h3⟩
            by_cases hi : i = a
            · subst hi
              simp only [Function.update_same] at h2
              omega
            · simp only [Function.update_noteq hi] at h2
              exact h2
        · rcases ih _ s1 h i0 i j h1 with h2 | h2
          · simp at h2
          · exact Or.inr h2
    · exact ih s s1 h i0 i j h1

/-- The kernel caches after a resolution that returned: no counter is lower than before,
and each entry is as before, or lies in a slot that holds the code object and lacked the
kernel, between the old and the new value of the counter of the slot, and has the
identity of the resolved kernel. -/
theorem cache_kernel_dispatch_data_written (rt : runtime) (kernel : _cl_kernel)
    (code_object : Nat) (stack_cache : hsa_kernel_cache_t) (m m1 : machine)
    (v : cache_ref × hsa_kernel_cache_t)
    (h : cache_kernel_dispatch_data rt kernel code_object stack_cache m = .returned m1 v) :
    (∀ a, (m.d.program_cache a).kernel_cache_lastptr ≤
      (m1.d.program_cache a).kernel_cache_lastptr) ∧
    ∀ a b, (m1.d.program_cache a).kernel_cache b = (m.d.program_cache a).kernel_cache b ∨
      ((m.d.program_cache a).code_object = code_object ∧
        ((m1.d.program_cache a).kernel_cache b).kernel = kernel.addr ∧
        find_kernel (m.d.program_cache a) kernel.addr = none ∧
        (m.d.program_cache a).kernel_cache_lastptr ≤ b.val ∧
        b.val < (m1.d.program_cache a).kernel_cache_lastptr) := by
  have hmono := scan_programs_counters kernel.addr code_object
    (List.finRange HSA_PROGRAM_CACHE_SIZE) { d := m.d, p_out := none }
  unfold cache_kernel_dispatch_data at h
  split at h
  · rename_i d1 i j hscan
    have hk := scan_programs_keys_found _ _ _ _ _ _ _ hscan
    rw [hscan] at hmono
    simp only [outcome.returned.injEq] at h
    obtain ⟨hm1, _⟩ := h
    subst hm1
    exact ⟨hmono, fun a b => Or.inl (by rw [(hk.2.2.2.2.2 a).2.2])⟩
  · rename_i s hscan
    have hk := scan_programs_keys_fell_through _ _ _ _ _ hscan
    obtain ⟨hall, hsel⟩ := scan_programs_fell_through kernel.addr code_object _ _ _ hscan
    have hbound := scan_programs_selected kernel.addr code_object _ _ _ hscan
    rw [hscan] at hmono
    dsimp only at h
    split at h
    · rename_i e hbuild
      have hker := build_dispatch_data_kernel _ _ _ _ _ _ _ _ (Prod.ext rfl hbuild)
      simp only [outcome.returned.injEq] at h
      obtain ⟨hm1, _⟩ := h
      subst hm1
      refine ⟨fun a => ?_, fun a b => ?_⟩
      · simp only [write_ref_lastptr]
        exact hmono a
      · cases hp : s.p_out with
        | none =>
          simp only [selected_out, hp, write_ref]
          exact Or.inl (by rw [(hk.2.2.2.2.2 a).2.2])
        | some p =>
          obtain ⟨i0, out⟩ := p
          cases out with
          | stack_cache =>
            simp only [selected_out, hp, write_ref]
            exact Or.inl (by rw [(hk.2.2.2.2.2 a).2.2])
          | slot i j =>
            have hmatch : (m.d.program_cache i).code_object = code_object := by
              rcases hsel i0 i j hp with h2 | ⟨_, h2⟩
              · cases h2
              · exact h2
            have hnone : find_kernel (m.d.program_cache i) kernel.addr = none :=
              hall i (List.mem_finRange i) hmatch
            have hb : (m.d.program_cache i).kernel_cache_lastptr ≤ j.val ∧
                j.val < (s.d.program_cache i).kernel_cache_lastptr := by
              rcases hbound i0 i j hp with h2 | h2
              · cases h2
              · exact h2
            by_cases ha : a = i
            · subst ha
              by_cases hb1 : b = j
              · subst hb1
                refine Or.inr ⟨hmatch, ?_, hnone, hb.1, ?_⟩
                · simp [selected_out, hp, write_ref, hker]
                · rw [write_ref_lastptr]
                  exact hb.2
              · simp only [selected_out, hp, write_ref]
                exact Or.inl (by simp [Function.update_noteq hb1, (hk.2.2.2.2.2 a).2.2])
            · simp only [selected_out, hp, write_ref]
              exact Or.inl (by simp [Function.update_noteq ha, (hk.2.2.2.2.2 a).2.2])
    · cases h

theorem cache_consistent_zero (agent kernarg_region : Nat) (queue : hsa_queue_t) :
    cache_consistent (zero_device agent kernarg_region queue) := by
  refine ⟨fun j => ?_, fun j _ => rfl, fun j i h => ?_, fun j i _ => rfl⟩
  · simp [zero_device, zero_program_slot]
  · exact absurd rfl h

theorem cache_consistent_compile (cfg : toolchain_config) (rt : runtime)
    (cmd cmd1 : _cl_command_node) (m m1 : machine) (hinv : cache_consistent m.d)
    (hstep : pocl_hsa_compile_submitted_kernels cfg rt cmd m = .returned m1 cmd1) :
    cache_consistent m1.d := by
  by_cases hty : cmd.type = .CL_COMMAND_NDRANGE_KERNEL
  · cases hfind : find_program m.d cmd.run.kernel.program with
    | some i0 =>
      rw [compile_hit cfg rt cmd m i0 hty hfind] at hstep
      simp only [outcome.returned.injEq] at hstep
      rw [← hstep.1]
      exact hinv
    | none =>
      rcases compile_miss cfg rt cmd m hty hfind with
        ⟨tr, stop, h⟩ | ⟨tr, co, _, _, ⟨hlt, h⟩ | ⟨_, h⟩⟩
      · rw [h] at hstep
        cases hstep
      · rw [h] at hstep
        simp only [outcome.returned.injEq] at hstep
        rw [← hstep.1]
        have hnew : cmd.run.kernel.program ≠ 0 := by
          intro hzero
          have h0 : (m.d.program_cache ⟨m.d.program_cache_lastptr, hlt⟩).program = 0 := by
            by_contra hne
            exact absurd ((hinv.1 ⟨m.d.program_cache_lastptr, hlt⟩).mpr hne) (lt_irrefl _)
          exact find_program_none m.d _ hfind ⟨m.d.program_cache_lastptr, hlt⟩
            (h0.trans hzero.symm)
        refine ⟨fun j => ?_, fun j => ?_, fun j i => ?_, fun j i => ?_⟩
        · by_cases hj : j = ⟨m.d.program_cache_lastptr, hlt⟩
          · subst hj
            simp [hnew]
          · have hne : j.val ≠ m.d.program_cache_lastptr := fun hv => hj (Fin.ext hv)
            simp only [Function.update_noteq hj]
            rw [← hinv.1 j]
            omega
        · by_cases hj : j = ⟨m.d.program_cache_lastptr, hlt⟩
          · subst hj
            simp [hnew]
          · simp only [Function.update_noteq hj]
            exact hinv.2.1 j
        · by_cases hj : j = ⟨m.d.program_cache_lastptr, hlt⟩
          · subst hj
            simp only [Function.update_same]
            intro hne
            exact ⟨(hinv.2.2.1 _ i hne).1, hnew⟩
          · simp only [Function.update_noteq hj]
            exact hinv.2.2.1 j i
        · by_cases hj : j = ⟨m.d.program_cache_lastptr, hlt⟩
          · subst hj
            simp only [Function.update_same]
            exact hinv.2.2.2 _ i
          · simp only [Function.update_noteq hj]
            exact hinv.2.2.2 j i
      · rw [h] at hstep
        simp only [outcome.returned.injEq] at hstep
        rw [← hstep.1]
        exact hinv
  · have h : pocl_hsa_compile_submitted_kernels cfg rt cmd m = .returned m cmd := by
      simp [pocl_hsa_compile_submitted_kernels, hty]
    rw [h] at hstep
    simp only [outcome.returned.injEq] at hstep
    rw [← hstep.1]
    exact hinv

theorem cache_consistent_run (rt : runtime) (cmd : _cl_command_node)
    (stack_cache : hsa_kernel_cache_t) (m m1 : machine) (r : run_locals)
    (hinv : cache_consistent m.d) (hvalid : cmd.run.device_data ≠ some 0)
    (hstep : pocl_hsa_run rt cmd stack_cache m = .returned m1 r) :
    cache_consistent m1.d := by
  have hprog := pocl_hsa_run_programs rt cmd stack_cache m
  have hret : (pocl_hsa_run rt cmd stack_cache m).value? = some r := by
    rw [hstep]
    rfl
  obtain ⟨m0, _, hres, hd, _, _⟩ := pocl_hsa_run_effects rt cmd stack_cache m r hret
  obtain ⟨code_object, hco, hckdd⟩ := run_resolve_code_object rt cmd stack_cache m m0 _ hres
  have hne : code_object ≠ 0 := by
    intro h0
    rw [h0] at hco
    exact hvalid hco
  obtain ⟨hmono, hentries⟩ := cache_kernel_dispatch_data_written rt cmd.run.kernel code_object
    stack_cache _ m0 _ hckdd
  rw [hstep] at hprog hd
  simp only [outcome.machine] at hprog hd
  obtain ⟨hlast, hslots⟩ := hprog
  refine ⟨fun j => ?_, fun j => ?_, fun j i => ?_, fun j i => ?_⟩
  · rw [hlast, (hslots j).1]
    exact hinv.1 j
  · rw [(hslots j).1, (hslots j).2]
    exact hinv.2.1 j
  · rw [(hslots j).1, hd]
    intro hnz
    rcases hentries j i with h | ⟨hmatch, hker, hnone, hlow, _⟩
    · rw [h] at hnz ⊢
      exact hinv.2.2.1 j i hnz
    · refine ⟨?_, fun hzero => ?_⟩
      · rw [hker]
        have hz := hinv.2.2.2 j i hlow
        have := find_kernel_eq_none _ _ hnone i
        intro h0
        apply this
        rw [h0]
        exact congrArg hsa_kernel_cache_t.kernel hz
      · have := hinv.2.1 j hzero
        exact hne (hmatch.symm.trans this)
  · rw [hd]
    intro hle
    rcases hentries j i with h | ⟨_, _, _, _, hup⟩
    · rw [h]
      exact hinv.2.2.2 j i (Nat.le_trans (hmono j) hle)
    · omega

/-- In every state reachable without a dispatch of the null code object the caches are
consistent. -/
theorem reachable_valid_consistent (m : machine) (h : reachable_valid m) :
    cache_consistent m.d := by
  induction h with
  | init agent kernarg_region queue => exact cache_consistent_zero agent kernarg_region queue
  | compile cfg rt cmd cmd1 m m1 _ hstep ih =>
    exact cache_consistent_compile cfg rt cmd cmd1 m m1 ih hstep
  | run rt cmd stack_cache m m1 r _ hvalid hstep ih =>
    exact cache_consistent_run rt cmd stack_cache m m1 r ih hvalid hstep
  | memory m heap packets _ ih => exact ih

/-! ## The teardown -/

/-- C14 as amended. In every state reachable from the initialised device by compile calls
and by dispatch calls whose code object handle is not 0, the effects of
`pocl_hsa_uninit` contain exactly one destruction of the executable and one of the
completion signal of each kernel entry that holds dispatch data, and exactly one
destruction of the code object of each program slot in use: the lists of the destroyed
executables, signals and code objects are the lists of those held in the caches, in the
order of the slots.  So every cached handle has been destroyed. -/
theorem uninit_teardown_complete (m : machine) (hreach : reachable_valid m) :
    ∃ new, pocl_hsa_uninit m = m.trace ++ new ∧
      destroyed_executables new = (cached_entries m.d).map (fun e => e.hsa_exe) ∧
      destroyed_signals new =
        (cached_entries m.d).map (fun e => e.kernel_completion_signal) ∧
      destroyed_code_objects new = cached_code_objects m.d ∧
      (∀ e ∈ cached_entries m.d,
        effect.hsa_executable_destroy e.hsa_exe ∈ new ∧
        effect.hsa_signal_destroy e.kernel_completion_signal ∈ new) ∧
      (∀ c ∈ cached_code_objects m.d, effect.hsa_code_object_destroy c ∈ new) := by
  have hinv := reachable_valid_consistent m hreach
  have h1 : destroyed_executables
      (uninit_effects m.d (List.finRange HSA_PROGRAM_CACHE_SIZE) ++
        [effect.hsa_queue_destroy]) = (cached_entries m.d).map (fun e => e.hsa_exe) := by
    rw [destroyed_executables_append, uninit_programs_executables m.d hinv]
    simp [destroyed_executables, cached_entries]
  have h2 : destroyed_signals
      (uninit_effects m.d (List.finRange HSA_PROGRAM_CACHE_SIZE) ++
        [effect.hsa_queue_destroy]) =
      (cached_entries m.d).map (fun e => e.kernel_completion_signal) := by
    rw [destroyed_signals_append, uninit_programs_signals m.d hinv]
    simp [destroyed_signals, cached_entries]
  have h3 : destroyed_code_objects
      (uninit_effects m.d (List.finRange HSA_PROGRAM_CACHE_SIZE) ++
        [effect.hsa_queue_destroy]) = cached_code_objects m.d := by
    have happ : ∀ l1 l2 : List effect, destroyed_code_objects (l1 ++ l2) =
        destroyed_code_objects l1 ++ destroyed_code_objects l2 := by
      intro l1 l2
      simp [destroyed_code_objects, List.filterMap_append]
    rw [happ, uninit_programs_code_objects m.d hinv]
    simp [destroyed_code_objects, cached_code_objects]
  refine ⟨_, ?_, h1, h2, h3, fun e he => ⟨?_, ?_⟩, fun c hc => ?_⟩
  · unfold pocl_hsa_uninit
    rw [uninit_programs_eq, List.append_assoc]
  · have hmem : e.hsa_exe ∈ (cached_entries m.d).map (fun e => e.hsa_exe) :=
      List.mem_map.mpr ⟨e, he, rfl⟩
    rw [← h1] at hmem
    unfold destroyed_executables at hmem
    obtain ⟨x, hx, hsome⟩ := List.mem_filterMap.mp hmem
    cases x <;> simp at hsome
    subst hsome
    exact hx
  · have hmem : e.kernel_completion_signal ∈
        (cached_entries m.d).map (fun e => e.kernel_completion_signal) :=
      List.mem_map.mpr ⟨e, he, rfl⟩
    rw [← h2] at hmem
    unfold destroyed_signals at hmem
    obtain ⟨x, hx, hsome⟩ := List.mem_filterMap.mp hmem
    cases x <;> simp at hsome
    subst hsome
    exact hx
  · rw [← h3] at hc
    unfold destroyed_code_objects at hc
    obtain ⟨x, hx, hsome⟩ := List.mem_filterMap.mp hc
    cases x <;> simp at hsome
    subst hsome
    exact hx

theorem reachable_of_reachable_valid (m : machine) (h : reachable_valid m) : reachable m := by
  induction h with
  | init agent kernarg_region queue heap packets trace =>
    exact reachable.init agent kernarg_region queue heap packets trace
  | compile cfg rt cmd cmd1 m m1 _ hstep ih => exact reachable.compile cfg rt cmd cmd1 m m1 ih hstep
  | run rt cmd stack_cache m m1 r _ _ hstep ih =>
    exact reachable.run rt cmd stack_cache m m1 r ih hstep
  | memory m heap packets _ ih => exact reachable.memory m heap packets ih

/-- The state after the compile step and a dispatch of kernel 7 is reachable. -/
theorem ex_used_machine_reachable : reachable_valid ex_used_machine := by
  obtain ⟨cmd1, hcompile⟩ := outcome_returned_of_isSome
    (pocl_hsa_compile_submitted_kernels ex_config ex_runtime (ex_command []) ex_machine)
    (by decide)
  have h0 : reachable_valid ex_machine :=
    reachable_valid.init 1 2 { size := 4, doorbell_signal := 9 } ex_heap
      (fun _ => zero_packet) []
  have h1 : reachable_valid ex_compiled_machine :=
    reachable_valid.compile _ _ _ _ _ _ h0 hcompile
  obtain ⟨r, hrun⟩ := outcome_returned_of_isSome
    (pocl_hsa_run ex_runtime ex_command_2d zero_kernel_entry ex_compiled_machine) (by decide)
  exact reachable_valid.run ex_runtime ex_command_2d zero_kernel_entry ex_compiled_machine _ r
    h1 (by decide) hrun

/-- C14 as amended, on the state after the compile step and a dispatch of kernel 7 with
the code object 24576: the teardown
destroys the executable 32768 and the signal 65536 of the one cached kernel entry and
the code object 24576 of the one program slot in use. -/
theorem uninit_teardown_complete_witness :
    reachable_valid ex_used_machine ∧
    (cached_entries ex_used_machine.d).map (fun e => e.hsa_exe) = [32768] ∧
    (cached_entries ex_used_machine.d).map (fun e => e.kernel_completion_signal) = [65536] ∧
    cached_code_objects ex_used_machine.d = [24576] ∧
    ∃ new, pocl_hsa_uninit ex_used_machine = ex_used_machine.trace ++ new ∧
      destroyed_executables new = [32768] ∧ destroyed_signals new = [65536] ∧
      destroyed_code_objects new = [24576] := by
  obtain ⟨new, htr, hexe, hsig, hco, _, _⟩ :=
    uninit_teardown_complete ex_used_machine ex_used_machine_reachable
  have h1 : (cached_entries ex_used_machine.d).map (fun e => e.hsa_exe) = [32768] := by
    decide
  have h2 : (cached_entries ex_used_machine.d).map (fun e => e.kernel_completion_signal) =
      [65536] := by decide
  have h3 : cached_code_objects ex_used_machine.d = [24576] := by decide
  exact ⟨ex_used_machine_reachable, h1, h2, h3, new, htr, hexe.trans h1, hsig.trans h2,
    hco.trans h3⟩

/-- The state after a dispatch of the null code object on the freshly initialised device
is reachable. -/
theorem ex_leaked_machine_reachable : reachable ex_leaked_machine := by
  obtain ⟨r, hrun⟩ := outcome_returned_of_isSome
    (pocl_hsa_run ex_runtime ex_null_command zero_kernel_entry ex_machine) (by decide)
  exact reachable.run ex_runtime ex_null_command zero_kernel_entry ex_machine _ r
    (reachable.init 1 2 { size := 4, doorbell_signal := 9 } ex_heap (fun _ => zero_packet) [])
    hrun

/-- C14 as stated fails.  On the freshly initialised device every program slot is
all-zero, so a dispatch of kernel 7 whose code object handle is 0 matches every slot; the
dispatch data it builds (executable 4096, completion signal 36864) is stored in entry 0
of the last slot, slot 31, which has no program identity.  The state is reachable, the
entry is cached, and `pocl_hsa_uninit`, which skips the slots without a program identity,
performs `hsa_queue_destroy` only: neither the executable nor the signal is destroyed. -/
theorem uninit_teardown_counterexample :
    reachable ex_leaked_machine ∧
    (cached_entries ex_leaked_machine.d).map
      (fun e => (e.kernel, e.hsa_exe, e.kernel_completion_signal)) = [(7, 4096, 36864)] ∧
    ((ex_leaked_machine.d.program_cache 31).kernel_cache 0).hsa_exe = 4096 ∧
    (ex_leaked_machine.d.program_cache 31).program = 0 ∧
    (pocl_hsa_uninit ex_leaked_machine).drop ex_leaked_machine.trace.length =
      [effect.hsa_queue_destroy] ∧
    destroyed_executables (pocl_hsa_uninit ex_leaked_machine) = [] ∧
    destroyed_signals (pocl_hsa_uninit ex_leaked_machine) = [] :=
  ⟨ex_leaked_machine_reachable, by decide, by decide, by decide, by decide, by decide,
    by decide⟩

end PoclHsa
